import Mathlib

/-!
# Go-Brute-Scanner: a shallow embedding

The development follows the Go packages `pkg/types`, `pkg/httpclient`,
`pkg/bruteforce` and `pkg/discovery`.  Go strings are Lean strings, Go
`int` values are `Int` (`Nat` for the proxy index and the clock, which the
program keeps non-negative), maps are association lists, and every call into a
library outside the repository (`net/url`, `net/http`, `goquery`,
`x/net/html`, `regexp`) is a field of the structure `Lib` or of the
abstract `HTTPClient`, so that every theorem holds for all behaviours of
those libraries.
-/

namespace GoBrute

/-! ## Helpers from package `strings` -/

/-- Go `strings.HasPrefix s p`. -/
def hasPrefix (s p : String) : Bool := p.data.isPrefixOf s.data

/-- Go `strings.TrimPrefix s p`: `s` without the leading `p`, when it has one. -/
def trimPrefix (s p : String) : String :=
  if hasPrefix s p then String.mk (s.data.drop p.data.length) else s

/-- Drops every trailing occurrence of the character `ch` from a character list. -/
def dropTrailing (ch : Char) : List Char → List Char
  | [] => []
  | x :: xs =>
    match dropTrailing ch xs with
    | [] => if x = ch then [] else [x]
    | y :: ys => x :: y :: ys

/-- Go `strings.TrimRight s "/"`. -/
def trimRightSlash (s : String) : String := String.mk (dropTrailing '/' s.data)

/-- Tests whether `p` occurs in `s` at some position (character lists). -/
def containsChars (p : List Char) : List Char → Bool
  | [] => p.isEmpty
  | x :: xs => p.isPrefixOf (x :: xs) || containsChars p xs

/-- Go `strings.Contains s p`. -/
def contains (s p : String) : Bool := containsChars p.data s.data

/-! ## Package `types` and the `net/http` values the program reads -/

/-- The metadata map of an endpoint: the program stores one of three shapes. -/
inductive Metadata where
  | none
  | text (t : String)
  | inputs (m : List (String × String))
  | pattern (p : String)
  deriving DecidableEq, Repr

/-- Go `types.Endpoint`. -/
structure Endpoint where
  URL : String
  Method : String
  Source : String
  Depth : Int
  Metadata : Metadata := Metadata.none
  deriving DecidableEq, Repr

/-- Go `types.BruteResult`; `Timestamp` is a reading of the clock. -/
structure BruteResult where
  URL : String
  Method : String
  StatusCode : Int := 0
  Size : Int := 0
  Body : String := ""
  Headers : List (String × String) := []
  Title : String := ""
  Timestamp : Nat := 0
  Error : String := ""
  deriving DecidableEq, Repr

/-- Go `types.ScanResult`; `Timestamp` is a reading of the clock. -/
structure ScanResult where
  URL : String
  Method : String
  StatusCode : Int := 0
  Size : Int := 0
  Body : String := ""
  Headers : List (String × String) := []
  Title : String := ""
  FoundVia : String := ""
  Timestamp : Nat := 0
  Error : String := ""
  deriving DecidableEq, Repr

/-- Go `types.Config`; durations are counted in nanoseconds. -/
structure Config where
  BaseURL : String := ""
  Timeout : Int := 0
  UserAgent : String := ""
  Workers : Int := 0
  MaxRedirects : Int := 0
  ScanDepth : Int := 0
  UseProxies : Bool := false
  ProxyRotate : Bool := false
  RateLimit : Int := 0
  Headers : List (String × String) := []
  Cookies : List (String × String) := []
  InsecureSSL : Bool := false
  ProxyURLs : List String := []
  deriving DecidableEq, Repr

/-- The counters of Go `types.Stats`; its start times and durations are readings of
the clock and are left out. -/
structure Stats where
  TotalRequests : Int := 0
  Successful : Int := 0
  Failed : Int := 0
  TotalDiscovered : Int := 0
  deriving DecidableEq, Repr

/-- A `net/url.URL` value (the fields this program reads or writes). -/
structure URL where
  Scheme : String := ""
  Host : String := ""
  Path : String := ""
  RawQuery : String := ""
  Fragment : String := ""
  deriving DecidableEq, Repr

/-- An outgoing `http.Request`: method, URL, header map, and the cookies added with
`AddCookie`, which Go keeps in the `Cookie` header, each as `name=value`, after
what the map holds under that name. -/
structure Request where
  Method : String
  URL : String
  Header : List (String × List String) := []
  Cookies : List (String × String) := []
  deriving DecidableEq, Repr

/-- An `http.Response` together with the outcome of `io.ReadAll` on its body. -/
structure Response where
  StatusCode : Int
  Header : List (String × List String) := []
  Body : Except String String

/-- An element selected by goquery: its attributes in document order, its
text, and the attributes of the `input, textarea, select` elements below it. -/
structure Selection where
  Attrs : List (String × String) := []
  Text : String := ""
  Inputs : List (List (String × String)) := []
  deriving DecidableEq, Repr

/-- A parsed goquery document, seen through the three selectors the program uses. -/
structure Document where
  anchors : List Selection := []
  forms : List Selection := []
  title : String := ""
  deriving DecidableEq, Repr

/-- A start tag or self-closing tag produced by the `x/net/html` tokenizer. -/
structure Token where
  Data : String
  Attr : List (String × String) := []
  deriving DecidableEq, Repr

/-- The library functions the program calls. -/
structure Lib where
  /-- Go `url.Parse`. -/
  Parse : String → Except String URL
  /-- Go `(*URL).ResolveReference`. -/
  ResolveReference : URL → URL → URL
  /-- Go `(*URL).String`. -/
  URLString : URL → String
  /-- Go `goquery.NewDocumentFromReader` on a string reader. -/
  NewDocumentFromReader : String → Except String Document
  /-- The start and self-closing tags `html.NewTokenizer` yields before its error token. -/
  Tokens : String → List Token
  /-- Go `regexp.MustCompile(p).FindAllStringSubmatch(s, -1)`. -/
  FindAllStringSubmatch : String → String → List (List String)
  /-- The error of `http.NewRequestWithContext method url`, when it fails. -/
  NewRequestError : String → String → Option String
  /-- Go `textproto.CanonicalMIMEHeaderKey`. -/
  CanonicalMIMEHeaderKey : String → String
  /-- Go `strings.ToUpper`. -/
  ToUpper : String → String

/-- Go `types.HTTPClient`, seen through `Do`: an object with hidden state `κ`. -/
structure HTTPClient (κ : Type) where
  Do : κ → Request → κ × Except String Response

/-- A client that also records every request handed to it. -/
def recording {κ : Type} (cl : HTTPClient κ) : HTTPClient (κ × List Request) where
  Do := fun s req => (((cl.Do s.1 req).1, s.2 ++ [req]), (cl.Do s.1 req).2)

/-- Go `http.Header.Get`: the first value stored under the canonical key, or `""`. -/
def headerGet (lib : Lib) (h : List (String × List String)) (k : String) : String :=
  match h.lookup (lib.CanonicalMIMEHeaderKey k) with
  | some (v :: _) => v
  | _ => ""

/-- Go `http.Header.Set`: the canonical key is bound to the single value `v`. -/
def headerSet (lib : Lib) (h : List (String × List String)) (k v : String) :
    List (String × List String) :=
  let ck := lib.CanonicalMIMEHeaderKey k
  if h.any (fun e => e.1 == ck) then
    h.map (fun e => if e.1 == ck then (ck, [v]) else e)
  else h ++ [(ck, [v])]

/-- Go `http.NewRequestWithContext method url nil`. -/
def newRequest (lib : Lib) (method url : String) : Except String Request :=
  match lib.NewRequestError method url with
  | some err => Except.error err
  | none => Except.ok { Method := if method = "" then "GET" else method, URL := url }

/-! ## Package `httpclient` -/

namespace httpclient

/-- The `*http.Client` the transport wraps: an object with hidden state `τ`
whose `Do` also depends on the proxy its `http.Transport` is set to. -/
structure NetClient (τ : Type) where
  Do : τ → Option URL → Request → τ × Except String Response

/-- Go `httpclient.Client`.  `client` is the state of the wrapped
`*http.Client`, `Proxy` the `Proxy` field of its `http.Transport`. -/
structure Client (τ : Type) where
  client : τ
  Proxy : Option URL := none
  config : Config
  proxies : List URL := []
  currentProxy : Nat := 0

/-- Go `(*Client).setProxy`. -/
def Client.setProxy {τ : Type} (c : Client τ) (proxy : Option URL) : Client τ :=
  { c with Proxy := proxy }

/-- The loop of `New` over `config.ProxyURLs`: every URL that parses is kept. -/
def parseProxies (lib : Lib) : List String → List URL
  | [] => []
  | proxyURL :: rest =>
    match lib.Parse proxyURL with
    | Except.ok parsed => parsed :: parseProxies lib rest
    | Except.error _ => parseProxies lib rest

/-- Go `httpclient.New` (it never returns an error); `t0` is the fresh `*http.Client`. -/
def New {τ : Type} (lib : Lib) (config : Config) (t0 : τ) : Client τ :=
  let client : Client τ := { client := t0, config := config }
  if config.ProxyURLs.length > 0 then
    let client := { client with proxies := parseProxies lib config.ProxyURLs }
    if client.proxies.length > 0 then
      client.setProxy client.proxies.head?
    else client
  else client

/-- Go `(*http.Request).AddCookie`. -/
def addCookie (req : Request) (name value : String) : Request :=
  { req with Cookies := req.Cookies ++ [(name, value)] }

/-- Go `req.Header.Get(k) == ""`: nothing is stored under the canonical key, and, when
that key is the one of `Cookie`, the request has no cookie either (the header line
of a cookie, `name=value`, is never empty). -/
def getIsEmpty (lib : Lib) (req : Request) (k : String) : Bool :=
  decide (headerGet lib req.Header k = "" ∧
    ¬ (lib.CanonicalMIMEHeaderKey k = lib.CanonicalMIMEHeaderKey "Cookie" ∧ req.Cookies ≠ []))

/-- The part of `Do` that runs before the request is sent: default
user agent, default headers, configured cookies.  The association lists of
the configuration are walked in one iteration order of the Go maps. -/
def prepare (lib : Lib) (config : Config) (req : Request) : Request :=
  let req :=
    if getIsEmpty lib req "User-Agent" = true ∧ config.UserAgent ≠ "" then
      { req with Header := headerSet lib req.Header "User-Agent" config.UserAgent }
    else req
  let req := config.Headers.foldl
    (fun (r : Request) kv =>
      if getIsEmpty lib r kv.1 = true then
        { r with Header := headerSet lib r.Header kv.1 kv.2 }
      else r) req
  if config.Cookies.length > 0 then
    config.Cookies.foldl (fun (r : Request) nv => addCookie r nv.1 nv.2) req
  else req

/-- Tells whether a call returned a non-nil error. -/
def failed {α : Type} : Except String α → Bool
  | Except.error _ => true
  | Except.ok _ => false

/-- Go `(*Client).Do`. -/
def Client.Do {τ : Type} (lib : Lib) (net : NetClient τ) (c : Client τ) (req : Request) :
    Client τ × Except String Response :=
  let req := prepare lib c.config req
  let r := net.Do c.client c.Proxy req
  let c := { c with client := r.1 }
  if failed r.2 ∧ c.config.ProxyRotate = true ∧ c.proxies.length > 1 then
    let cur := (c.currentProxy + 1) % c.proxies.length
    (({ c with currentProxy := cur }).setProxy (c.proxies.get? cur), r.2)
  else (c, r.2)

/-- A run of consecutive `Do` calls, one per request, with the outcome of each. -/
def DoAll {τ : Type} (lib : Lib) (net : NetClient τ) :
    Client τ → List Request → Client τ × List (Except String Response)
  | c, [] => (c, [])
  | c, req :: rest =>
    let r := Client.Do lib net c req
    let rs := DoAll lib net r.1 rest
    (rs.1, r.2 :: rs.2)

end httpclient

/-! ## Package `bruteforce` -/

namespace bruteforce

/-- Go `bruteforce.task`. -/
structure task where
  url : String
  method : String
  deriving DecidableEq, Repr

/-- The loop of `testEndpoint` over `resp.Header`: every name that has at
least one value is bound to its first value. -/
def firstValues : List (String × List String) → List (String × String)
  | [] => []
  | (_, []) :: rest => firstValues rest
  | (k, v0 :: _) :: rest => (k, v0) :: firstValues rest

/-- The request `testEndpoint` builds (or the error of building it): the
lines from `http.NewRequestWithContext` to the last `req.Header.Set`. -/
def probeRequest (lib : Lib) (url method : String) : Except String Request :=
  match newRequest lib method url with
  | Except.error err => Except.error err
  | Except.ok req =>
    let req := { req with Header := headerSet lib req.Header "User-Agent" "GoBruteScanner/1.0" }
    let req := { req with Header := headerSet lib req.Header "Accept" "*/*" }
    if method = "POST" ∨ method = "PUT" then
      Except.ok { req with Header := headerSet lib req.Header "Content-Type" "application/json" }
    else Except.ok req

/-- Go `(*scannerImpl).testEndpoint`; `k` is the state of the client and
`now` the value of `time.Now()`. -/
def testEndpoint {κ : Type} (lib : Lib) (cl : HTTPClient κ) (k : κ) (now : Nat)
    (url method : String) : κ × BruteResult :=
  let result : BruteResult := { URL := url, Method := method, Timestamp := now }
  match probeRequest lib url method with
  | Except.error err => (k, { result with Error := "failed to create request: " ++ err })
  | Except.ok req =>
    match cl.Do k req with
    | (k1, Except.error err) => (k1, { result with Error := "request failed: " ++ err })
    | (k1, Except.ok resp) =>
      let result := { result with StatusCode := resp.StatusCode,
                                  Headers := firstValues resp.Header }
      match resp.Body with
      | Except.error err => (k1, { result with Error := "failed to read body: " ++ err })
      | Except.ok body =>
        let result := { result with Body := body, Size := (body.utf8ByteSize : Int) }
        if contains (headerGet lib resp.Header "Content-Type") "text/html" then
          match lib.NewDocumentFromReader body with
          | Except.ok doc => (k1, { result with Title := doc.title })
          | Except.error _ => (k1, result)
        else (k1, result)

/-- The task queue `ScanWordlist` builds before it starts a worker. -/
def buildTasks (baseURL : String) (wordlist methods : List String) : List task :=
  match wordlist with
  | [] => []
  | path :: rest =>
    let fullURL := trimRightSlash baseURL ++ "/" ++ trimPrefix path "/"
    methods.map (fun method => { url := fullURL, method := method })
      ++ buildTasks baseURL rest methods

/-- Where a worker goroutine of `ScanWordlist` stands. -/
inductive Worker where
  /-- At `for task := range tasks`, about to receive. -/
  | receiving
  /-- Holds a task, at the `select` on `ctx.Done()`. -/
  | selecting (t : task)
  /-- Took the `default` branch, about to call `testEndpoint`. -/
  | probing (t : task)
  /-- Holds the result of `testEndpoint`, about to append it under the lock. -/
  | appending (r : BruteResult)
  /-- Returned. -/
  | done
  deriving DecidableEq, Repr

/-- The shared state of one `ScanWordlist` call. -/
structure Scan (κ : Type) where
  /-- What is left in the closed channel `tasks`. -/
  tasks : List task
  workers : List Worker
  results : List BruteResult := []
  /-- The state of the client object. -/
  client : κ
  /-- Whether `ctx.Done()` is closed. -/
  cancelled : Bool
  /-- What `time.Now()` returns. -/
  clock : Nat := 0

/-- What the scheduler and the environment may do next. -/
inductive Event where
  /-- Worker `i` runs up to its next synchronisation point. -/
  | step (i : Nat)
  /-- The context is cancelled. -/
  | cancel
  /-- Time passes. -/
  | tick
  deriving DecidableEq, Repr

/-- One move of worker `i` in the loop body of `ScanWordlist`. -/
def stepWorker {κ : Type} (lib : Lib) (cl : HTTPClient κ) (i : Nat) (s : Scan κ) : Scan κ :=
  match s.workers.get? i with
  | none => s
  | some Worker.receiving =>
    match s.tasks with
    | [] => { s with workers := s.workers.set i Worker.done }
    | t :: rest => { s with tasks := rest, workers := s.workers.set i (Worker.selecting t) }
  | some (Worker.selecting t) =>
    if s.cancelled then { s with workers := s.workers.set i Worker.done }
    else { s with workers := s.workers.set i (Worker.probing t) }
  | some (Worker.probing t) =>
    let r := testEndpoint lib cl s.client s.clock t.url t.method
    { s with client := r.1, workers := s.workers.set i (Worker.appending r.2) }
  | some (Worker.appending r) =>
    { s with results := s.results ++ [r], workers := s.workers.set i Worker.receiving }
  | some Worker.done => s

/-- The effect of one event. -/
def applyEvent {κ : Type} (lib : Lib) (cl : HTTPClient κ) (s : Scan κ) : Event → Scan κ
  | Event.step i => stepWorker lib cl i s
  | Event.cancel => { s with cancelled := true }
  | Event.tick => { s with clock := s.clock + 1 }

/-- The effect of a schedule. -/
def runEvents {κ : Type} (lib : Lib) (cl : HTTPClient κ) (s : Scan κ) (sched : List Event) :
    Scan κ :=
  sched.foldl (applyEvent lib cl) s

/-- Worker `i` runs alone until it returns: four moves per task left, and four more. -/
def finishWorker {κ : Type} (lib : Lib) (cl : HTTPClient κ) (s : Scan κ) (i : Nat) : Scan κ :=
  (stepWorker lib cl i)^[4 * s.tasks.length + 4] s

/-- What `wg.Wait()` waits for: every worker that has not returned runs to its end. -/
def drain {κ : Type} (lib : Lib) (cl : HTTPClient κ) (s : Scan κ) : Scan κ :=
  (List.range s.workers.length).foldl (finishWorker lib cl) s

/-- Go `(*scannerImpl).ScanWordlist`: the final client state and the result
list (the error it returns is always nil).  `ctxDone` tells whether the
context is cancelled at the call; `sched` is the interleaving of the
workers, of cancellation and of the clock, after which the workers still
running are run to their end.  The delay between probes only lets time
pass and is left out. -/
def ScanWordlist {κ : Type} (lib : Lib) (cl : HTTPClient κ) (k : κ) (ctxDone : Bool)
    (baseURL : String) (wordlist methods : List String) (concurrency : Int)
    (sched : List Event) : κ × List BruteResult :=
  let s0 : Scan κ :=
    { tasks := buildTasks baseURL wordlist methods
      workers := List.replicate concurrency.toNat Worker.receiving
      client := k
      cancelled := ctxDone }
  let s := drain lib cl (runEvents lib cl s0 sched)
  (s.client, s.results)

end bruteforce

/-! ## Package `discovery` -/

namespace discovery

/-- Go `discovery.Crawler`.  `client` is the state of the client object;
`visited` holds the keys of the Go map; `baseURL` is nil until the first
`Crawl`, which is rendered by the zero URL (no function reads it before
`Crawl` has stored the parsed base URL). -/
structure Crawler (κ : Type) where
  client : κ
  maxDepth : Int
  visited : List String := []
  baseURL : URL := {}
  endpoints : List Endpoint := []

/-- Go `discovery.NewCrawler`. -/
def NewCrawler {κ : Type} (client : κ) (maxDepth : Int) : Crawler κ :=
  { client := client, maxDepth := maxDepth, visited := [], endpoints := [] }

/-- Go `(*Crawler).GetEndpoints`. -/
def GetEndpoints {κ : Type} (c : Crawler κ) : List Endpoint := c.endpoints

/-- Go `(*Crawler).Clear`. -/
def Clear {κ : Type} (c : Crawler κ) : Crawler κ :=
  { c with visited := [], endpoints := [] }

/-- Go `(*Crawler).resolvePath`. -/
def resolvePath {κ : Type} (lib : Lib) (c : Crawler κ) (path : String) : String :=
  if hasPrefix path "http://" ∨ hasPrefix path "https://" then path
  else lib.URLString (lib.ResolveReference c.baseURL { Path := trimPrefix path "/" })

/-- Go `(*Crawler).normalizeURL`. -/
def normalizeURL {κ : Type} (lib : Lib) (c : Crawler κ) (href currentPath : String) : String :=
  if hasPrefix href "http://" ∨ hasPrefix href "https://" then
    match lib.Parse href with
    | Except.error _ => ""
    | Except.ok parsed => if parsed.Host ≠ c.baseURL.Host then "" else href
  else if hasPrefix href "mailto:" ∨ hasPrefix href "tel:" ∨
      hasPrefix href "#" ∨ hasPrefix href "javascript:" then ""
  else if hasPrefix href "/" then c.baseURL.Scheme ++ "://" ++ c.baseURL.Host ++ href
  else
    match lib.Parse (resolvePath lib c currentPath) with
    | Except.error _ => ""
    | Except.ok parsedCurrent =>
      lib.URLString (lib.ResolveReference parsedCurrent { Path := href })

/-- Go `(*goquery.Selection).Attr`: the value of the first attribute of that
name, if there is one. -/
def attr (attrs : List (String × String)) (name : String) : Option String :=
  attrs.lookup name

/-- The part that both link extractors share: a normalised link that is not
in the visited set is appended as a link endpoint at `depth + 1`. -/
def recordLink {κ : Type} (c : Crawler κ) (normalized : String) (depth : Int)
    (md : Metadata) : Crawler κ :=
  if normalized ∈ c.visited then c
  else { c with endpoints := c.endpoints ++
    [{ URL := normalized, Method := "GET", Source := "link", Depth := depth + 1,
       Metadata := md }] }

/-- Go `(*Crawler).extractLinksWithTokenizer`. -/
def extractLinksWithTokenizer {κ : Type} (lib : Lib) (c : Crawler κ)
    (htmlContent currentPath : String) (depth : Int) : Crawler κ :=
  (lib.Tokens htmlContent).foldl
    (fun c t =>
      if t.Data = "a" then
        t.Attr.foldl
          (fun c a =>
            if a.1 = "href" then
              let href := a.2
              if href = "" ∨ hasPrefix href "#" ∨ hasPrefix href "javascript:" then c
              else
                let normalized := normalizeURL lib c href currentPath
                if normalized = "" then c
                else recordLink c normalized depth Metadata.none
            else c) c
      else c) c

/-- Go `(*Crawler).extractLinks`. -/
def extractLinks {κ : Type} (lib : Lib) (c : Crawler κ)
    (htmlContent currentPath : String) (depth : Int) : Crawler κ :=
  match lib.NewDocumentFromReader htmlContent with
  | Except.error _ => extractLinksWithTokenizer lib c htmlContent currentPath depth
  | Except.ok doc =>
    doc.anchors.foldl
      (fun c s =>
        match attr s.Attrs "href" with
        | none => c
        | some href =>
          if href = "" then c
          else if hasPrefix href "#" ∨ hasPrefix href "javascript:" then c
          else
            let normalized := normalizeURL lib c href currentPath
            if normalized = "" then c
            else recordLink c normalized depth (Metadata.text s.Text)) c

/-- Go map assignment `m[name] = value` on an association list. -/
def mapSet (m : List (String × String)) (name value : String) : List (String × String) :=
  if m.any (fun e => e.1 == name) then
    m.map (fun e => if e.1 == name then (name, value) else e)
  else m ++ [(name, value)]

/-- The value the form extractor records for an input of type `typ` whose
`value` attribute is `value`. -/
def inputValue (typ value : String) : String :=
  if value = "" then
    if typ = "email" then "test@example.com"
    else if typ = "password" then "password123"
    else if typ = "number" ∨ typ = "range" then "1"
    else if typ = "checkbox" ∨ typ = "radio" then "on"
    else "test"
  else value

/-- The inner loop of `extractForms` over the `input, textarea, select`
elements of one form. -/
def formInputs (inputs : List (List (String × String))) : List (String × String) :=
  inputs.foldl
    (fun m input =>
      let name := (attr input "name").getD ""
      let typ := (attr input "type").getD ""
      let value := (attr input "value").getD ""
      if name ≠ "" ∧ typ ≠ "submit" ∧ typ ≠ "button" ∧ typ ≠ "reset" then
        mapSet m name (inputValue typ value)
      else m) []

/-- Go `(*Crawler).extractForms`. -/
def extractForms {κ : Type} (lib : Lib) (c : Crawler κ)
    (htmlContent currentPath : String) (depth : Int) : Crawler κ :=
  match lib.NewDocumentFromReader htmlContent with
  | Except.error _ => c
  | Except.ok doc =>
    doc.forms.foldl
      (fun c s =>
        let action := (attr s.Attrs "action").getD ""
        let method := (attr s.Attrs "method").getD ""
        let method := if method = "" then "GET" else method
        let method := lib.ToUpper method
        let action := if action = "" then currentPath else action
        let normalized := normalizeURL lib c action currentPath
        if normalized = "" then c
        else { c with endpoints := c.endpoints ++
          [{ URL := normalized, Method := method, Source := "form", Depth := depth + 1,
             Metadata := Metadata.inputs (formInputs s.Inputs) }] }) c

/-- The regular expressions of `extractFromJS`, in source order. -/
def patterns : List String :=
  [ "fetch\\([\x27\"]([^\x27\"\\s]+)[\x27\"]",
    "fetch\\([\x27\"]([^\x27\"\\s]+)[\x27\"][^)]*method:\\s*[\x27\"](GET|POST|PUT|DELETE|PATCH)[\x27\"]",
    "axios\\.(get|post|put|delete|patch)\\([\x27\"]([^\x27\"\\s]+)[\x27\"]",
    "axios\\([^)]*url:\\s*[\x27\"]([^\x27\"\\s]+)[\x27\"]",
    "\\.open\\([\x27\"](GET|POST|PUT|DELETE|PATCH)[\x27\"][^,]*,[\x27\"]([^\x27\"\\s]+)[\x27\"]",
    "\\$\\.(get|post|ajax)\\([^)]*url:\\s*[\x27\"]([^\x27\"\\s]+)[\x27\"]",
    "window\\.location\\s*=\\s*[\x27\"]([^\x27\"\\s]+)[\x27\"]",
    "location\\.href\\s*=\\s*[\x27\"]([^\x27\"\\s]+)[\x27\"]",
    "[\x27\"](/[^\x27\"\\s]+)[\x27\"]" ]

/-- Go `(*Crawler).extractFromJS`. -/
def extractFromJS {κ : Type} (lib : Lib) (c : Crawler κ)
    (jsContent currentPath : String) (depth : Int) : Crawler κ :=
  patterns.foldl
    (fun c pattern =>
      (lib.FindAllStringSubmatch pattern jsContent).foldl
        (fun c m =>
          let method := if m.length ≥ 3 then m.getD 1 "" else if m.length ≥ 2 then "GET" else ""
          let path := if m.length ≥ 3 then m.getD 2 "" else if m.length ≥ 2 then m.getD 1 "" else ""
          if path ≠ "" then
            let normalized := normalizeURL lib c path currentPath
            if normalized ≠ "" then
              { c with endpoints := c.endpoints ++
                [{ URL := normalized, Method := method, Source := "javascript",
                   Depth := depth + 1, Metadata := Metadata.pattern pattern }] }
            else c
          else c) c) c

/-- Go `(*Crawler).crawlRecursive`: the crawler afterwards, and the returned
endpoint list and error.  The child calls, goroutines in the source, run
one after the other in the order of `endpointsCopy`; their return values
are dropped as in the source.  The first argument bounds the nesting of
calls: `maxDepth + 1 - depth` levels are enough (`crawlRecursive_fuel`). -/
def crawlRecursive {κ : Type} (lib : Lib) (cl : HTTPClient κ) :
    Nat → Crawler κ → String → Int → Crawler κ × (List Endpoint × Option String)
  | 0, c, _, _ => (c, (c.endpoints, none))
  | fuel + 1, c, path, depth =>
    if depth > c.maxDepth then (c, (c.endpoints, none))
    else if path ∈ c.visited then (c, (c.endpoints, none))
    else
      let c : Crawler κ := { c with visited := path :: c.visited }
      let fullURL := resolvePath lib c path
      match newRequest lib "GET" fullURL with
      | Except.error err => (c, (c.endpoints, some err))
      | Except.ok req =>
        let req := { req with
          Header := headerSet lib req.Header "User-Agent" "GoBruteScanner/1.0" }
        let req := { req with
          Header := headerSet lib req.Header "Accept"
            "text/html,application/xhtml+xml,application/xml;q=0.9,*/*;q=0.8" }
        let r := cl.Do c.client req
        let c : Crawler κ := { c with client := r.1 }
        match r.2 with
        | Except.error err => (c, (c.endpoints, some err))
        | Except.ok resp =>
          match resp.Body with
          | Except.error err => (c, (c.endpoints, some err))
          | Except.ok bodyStr =>
            let c := extractLinks lib c bodyStr path depth
            let c := extractForms lib c bodyStr path depth
            let c := extractFromJS lib c bodyStr path depth
            let c : Crawler κ := { c with endpoints := c.endpoints ++
              [{ URL := fullURL, Method := "GET", Source := "direct", Depth := depth }] }
            let endpointsCopy := c.endpoints
            let c := endpointsCopy.foldl
              (fun (c : Crawler κ) (endpoint : Endpoint) =>
                if endpoint.Depth = depth ∧ endpoint.Source = "link" then
                  (crawlRecursive lib cl fuel c endpoint.URL (depth + 1)).1
                else c) c
            (c, (c.endpoints, none))

/-- Go `(*Crawler).Crawl`.  A nil slice is the empty list. -/
def Crawl {κ : Type} (lib : Lib) (cl : HTTPClient κ) (c : Crawler κ) (baseURL : String) :
    Crawler κ × (List Endpoint × Option String) :=
  match lib.Parse baseURL with
  | Except.error err => (c, ([], some err))
  | Except.ok parsedURL =>
    let c : Crawler κ := { c with baseURL := parsedURL }
    crawlRecursive lib cl (c.maxDepth + 1).toNat c "/" 0

end discovery

/-! ## Package `wordlists` -/

namespace wordlists

/-- Go `(*Common).GetAll`. -/
def GetAll : List String :=
  ["api", "api/v1", "api/v2", "api/v3",
   "rest", "rest/api", "graphql", "gql",
   "v1", "v2", "v3",
   "users", "user", "profiles", "profile",
   "accounts", "account",
   "auth", "login", "register", "signup", "logout",
   "signin", "signout", "oauth", "oauth2",
   "token", "refresh", "session",
   "admin", "administrator", "dashboard", "cp",
   "admin/login", "admin/dashboard", "admin/users",
   "admin/settings", "wp-admin", "wp-login.php",
   "products", "product", "items", "item",
   "goods", "catalog", "categories", "category",
   "orders", "order", "cart", "checkout",
   "basket", "purchase", "transactions",
   "health", "status", "ping", "metrics",
   "info", "version", "about",
   "config", "settings", "configuration",
   "options", "preferences",
   "search", "find", "query", "filter",
   "lookup", "discover",
   "upload", "download", "file", "files",
   "media", "images", "image", "static",
   "assets", "resources",
   "ws", "websocket", "socket.io", "wss",
   "webhook", "callback", "notify", "notification",
   "hook", "event",
   "help", "support", "contact", "faq",
   "docs", "documentation", "guide"]

end wordlists

/-! ## Package `scanner` -/

namespace httpclient

/-- The transport as the `types.HTTPClient` the crawler and the prober hold. -/
def asHTTPClient {τ : Type} (lib : Lib) (net : NetClient τ) : HTTPClient (Client τ) where
  Do := fun c req => Client.Do lib net c req

/-- A wrapped `*http.Client` that also records every request sent through it. -/
def recordingNet {τ : Type} (net : NetClient τ) : NetClient (τ × List Request) where
  Do := fun s proxy req =>
    (((net.Do s.1 proxy req).1, s.2 ++ [req]), (net.Do s.1 proxy req).2)

end httpclient

namespace scanner

/-- Go `scanner.scannerImpl`.  The transport is one object shared by the scanner, the
crawler and the prober: its state is kept in `discoverer.client`. -/
structure scannerImpl (τ : Type) where
  config : Config
  discoverer : discovery.Crawler (httpclient.Client τ)
  stats : Stats := {}

/-- Go `scanner.Option` (the name `Option` is taken in Lean). -/
abbrev ConfigOption := Config → Config

/-- Go `scanner.WithTimeout`. -/
def WithTimeout (timeout : Int) : ConfigOption := fun c => { c with Timeout := timeout }

/-- Go `scanner.WithWorkers`. -/
def WithWorkers (workers : Int) : ConfigOption := fun c => { c with Workers := workers }

/-- Go `scanner.WithUserAgent`. -/
def WithUserAgent (ua : String) : ConfigOption := fun c => { c with UserAgent := ua }

/-- Go `scanner.WithScanDepth`. -/
def WithScanDepth (depth : Int) : ConfigOption := fun c => { c with ScanDepth := depth }

/-- The configuration `New` starts from. -/
def defaultConfig (baseURL : String) : Config :=
  { BaseURL := baseURL
    Timeout := 10000000000
    UserAgent := "GoBruteScanner/1.0"
    Workers := 5
    MaxRedirects := 3
    ScanDepth := 2
    UseProxies := false
    ProxyRotate := false
    RateLimit := 10
    Headers := []
    Cookies := []
    InsecureSSL := false }

/-- Go `scanner.New`; `t0` is the fresh `*http.Client`.  The only error it can return
is that of `httpclient.New`, which returns none. -/
def New {τ : Type} (lib : Lib) (baseURL : String) (opts : List ConfigOption) (t0 : τ) :
    Except String (scannerImpl τ) :=
  let config := opts.foldl (fun c opt => opt c) (defaultConfig baseURL)
  let client := httpclient.New lib config t0
  let crawler := discovery.NewCrawler client config.ScanDepth
  Except.ok { config := config, discoverer := crawler, stats := {} }

/-- Go `(*scannerImpl).Discover`: the scanner afterwards, and the returned endpoint
list and error. -/
def Discover {τ : Type} (lib : Lib) (net : httpclient.NetClient τ) (s : scannerImpl τ) :
    scannerImpl τ × (List Endpoint × Option String) :=
  let r := discovery.Crawl lib (httpclient.asHTTPClient lib net) s.discoverer s.config.BaseURL
  match r.2.2 with
  | some err => ({ s with discoverer := r.1 }, ([], some ("crawling failed: " ++ err)))
  | none =>
    ({ s with discoverer := r.1,
              stats := { s.stats with TotalDiscovered := (r.2.1.length : Int) } },
     (r.2.1, none))

/-- Go `(*scannerImpl).Reset`. -/
def Reset {τ : Type} (s : scannerImpl τ) : scannerImpl τ :=
  { s with stats := {}, discoverer := discovery.Clear s.discoverer }

/-- The `types.ScanResult` that `ScanWithWordlist` builds from a prober result
(the body is not carried over). -/
def toScanResult (r : BruteResult) : ScanResult :=
  { URL := r.URL
    Method := r.Method
    StatusCode := r.StatusCode
    Size := r.Size
    Headers := r.Headers
    Title := r.Title
    FoundVia := "bruteforce"
    Timestamp := r.Timestamp
    Error := r.Error }

/-- One round of the loop of `ScanWithWordlist` over `bruteResults` that
updates the counters. -/
def countResult (stats : Stats) (r : BruteResult) : Stats :=
  if r.StatusCode ≥ 200 ∧ r.StatusCode < 300 then
    { stats with Successful := stats.Successful + 1 }
  else if r.StatusCode ≥ 400 then { stats with Failed := stats.Failed + 1 }
  else stats

/-- Go `(*scannerImpl).ScanWithWordlist`: the scanner afterwards, and the returned
result list and error.  The prober works through the transport of the scanner;
`ctxDone` tells whether the caller's context is cancelled at the call, and a
cancellation during the scan (of the caller's context, or by `Stop`) is an
`Event.cancel` of the schedule.  The error of `ScanWordlist` is always nil, so the
one returned here is as well. -/
def ScanWithWordlist {τ : Type} (lib : Lib) (net : httpclient.NetClient τ) (s : scannerImpl τ)
    (ctxDone : Bool) (wordlist methods : List String) (concurrency : Int)
    (sched : List bruteforce.Event) : scannerImpl τ × (List ScanResult × Option String) :=
  let methods := if methods.length = 0 then ["GET", "POST", "PUT", "DELETE"] else methods
  let r := bruteforce.ScanWordlist lib (httpclient.asHTTPClient lib net) s.discoverer.client
    ctxDone s.config.BaseURL wordlist methods concurrency sched
  let bruteResults := r.2
  let scanResults := bruteResults.map toScanResult
  let stats : Stats :=
    { s.stats with TotalRequests := s.stats.TotalRequests + (bruteResults.length : Int) }
  let stats := bruteResults.foldl countResult stats
  ({ s with discoverer := { s.discoverer with client := r.1 }, stats := stats },
   (scanResults, none))

/-- Go `(*scannerImpl).Scan`. -/
def Scan {τ : Type} (lib : Lib) (net : httpclient.NetClient τ) (s : scannerImpl τ)
    (ctxDone : Bool) (methods : List String) (sched : List bruteforce.Event) :
    scannerImpl τ × (List ScanResult × Option String) :=
  ScanWithWordlist lib net s ctxDone wordlists.GetAll methods s.config.Workers sched

end scanner

/-! ## Accounting for the tasks of a scan

Every task is at any moment in exactly one place: in the queue, in the
hands of a worker, or in the result list.  `account` collects, for an
observation `h` of tasks and `g` of results, what is where. -/

namespace bruteforce

/-- What a worker holds, observed through `g` and `h`. -/
def holding {β : Type} (g : BruteResult → β) (h : task → β) : Worker → Multiset β
  | Worker.selecting t => {h t}
  | Worker.probing t => {h t}
  | Worker.appending r => {g r}
  | Worker.receiving => 0
  | Worker.done => 0

/-- The observations of the results, of what the workers hold and of the queue. -/
def account {β κ : Type} (g : BruteResult → β) (h : task → β) (s : Scan κ) : Multiset β :=
  (s.results.map g : Multiset β) + (s.workers.map (holding g h)).sum
    + (s.tasks.map h : Multiset β)

/-- The number of moves worker `i` still makes when it runs alone. -/
def movesLeft {κ : Type} (s : Scan κ) (i : Nat) : Nat :=
  match s.workers.get? i with
  | none => 0
  | some Worker.done => 0
  | some Worker.receiving => 4 * s.tasks.length + 1
  | some (Worker.appending _) => 4 * s.tasks.length + 2
  | some (Worker.probing _) => 4 * s.tasks.length + 3
  | some (Worker.selecting _) => 4 * s.tasks.length + 4

/-- As long as the context is not cancelled, a worker returns only once the queue is empty. -/
def queueDrained {κ : Type} (s : Scan κ) : Prop :=
  s.cancelled = false → s.tasks ≠ [] → ∀ w ∈ s.workers, w ≠ Worker.done

/-- The state of a scan when `ScanWordlist` has built its queue and is about to start
its workers. -/
def start {κ : Type} (k : κ) (ctxDone : Bool) (baseURL : String)
    (wordlist methods : List String) (concurrency : Int) : Scan κ :=
  { tasks := buildTasks baseURL wordlist methods
    workers := List.replicate concurrency.toNat Worker.receiving
    client := k
    cancelled := ctxDone }

/-- In the words of the specification: `b` with all trailing "/" removed. -/
def withoutTrailingSlashes (b : String) : String :=
  String.mk (b.data.reverse.dropWhile (fun ch => ch == '/')).reverse

/-- In the words of the specification: `p` with one leading "/" removed. -/
def withoutLeadingSlash (p : String) : String :=
  match p.data with
  | '/' :: rest => String.mk rest
  | _ => p

/-- In the words of the specification: the pairs (U(p), m) for p in the wordlist and m
in the method list, in wordlist order and within each path in method order. -/
def queueOf (baseURL : String) (wordlist methods : List String) : List task :=
  wordlist.flatMap (fun p =>
    methods.map (fun m =>
      { url := withoutTrailingSlashes baseURL ++ "/" ++ withoutLeadingSlash p, method := m }))

/-- A cancelled scan in which no probe was started: no result, the client untouched,
every worker receiving, at the `select` or returned. -/
def idleCancelled {κ : Type} (k : κ) (s : Scan κ) : Prop :=
  s.cancelled = true ∧ s.results = [] ∧ s.client = k ∧
  ∀ w ∈ s.workers, w = Worker.receiving ∨ (∃ t, w = Worker.selecting t) ∨ w = Worker.done

end bruteforce

/-! ## Relations between crawler states -/

namespace discovery

/-- The crawler `c2` is `c` with further endpoints appended, all of them at
`depth + 1` and none with source "direct". -/
def grows {κ : Type} (depth : Int) (c c2 : Crawler κ) : Prop :=
  c2.client = c.client ∧ c2.maxDepth = c.maxDepth ∧ c2.visited = c.visited ∧
  c2.baseURL = c.baseURL ∧
  ∃ new, c2.endpoints = c.endpoints ++ new ∧
    ∀ e ∈ new, e.Depth = depth + 1 ∧ e.Source ≠ "direct"

/-- Two crawlers that differ at most in the state of their client. -/
def sameButClient {κ : Type} (c1 c2 : Crawler κ) : Prop :=
  c1.maxDepth = c2.maxDepth ∧ c1.visited = c2.visited ∧ c1.baseURL = c2.baseURL ∧
  c1.endpoints = c2.endpoints

/-- Every endpoint lies at depth at most `maxDepth + 1`, a direct one at most `maxDepth`. -/
def depthBounded {κ : Type} (c : Crawler κ) : Prop :=
  ∀ e ∈ c.endpoints, e.Depth ≤ c.maxDepth + 1 ∧ (e.Source = "direct" → e.Depth ≤ c.maxDepth)

/-- How one call of `crawlRecursive` goes before it starts its child calls. -/
inductive Visit (κ : Type) where
  /-- The depth is beyond the maximum or the path is visited: nothing is done. -/
  | skip
  /-- The path was marked, and building the request, the fetch or reading the body failed. -/
  | failed (c : Crawler κ) (err : String)
  /-- The page was fetched; `c` is the crawler after the extractors and the direct endpoint. -/
  | page (c : Crawler κ)

/-- The request `crawlRecursive` builds for the URL `fullURL`. -/
def pageRequest (lib : Lib) (fullURL : String) : Except String Request :=
  match newRequest lib "GET" fullURL with
  | Except.error err => Except.error err
  | Except.ok req =>
    Except.ok { req with
      Header := headerSet lib (headerSet lib req.Header "User-Agent" "GoBruteScanner/1.0")
        "Accept" "text/html,application/xhtml+xml,application/xml;q=0.9,*/*;q=0.8" }

/-- The three extractors and the direct endpoint of `crawlRecursive`, on a fetched page. -/
def harvest {κ : Type} (lib : Lib) (c : Crawler κ) (bodyStr path : String) (depth : Int) :
    Crawler κ :=
  let fullURL := resolvePath lib c path
  let c := extractLinks lib c bodyStr path depth
  let c := extractForms lib c bodyStr path depth
  let c := extractFromJS lib c bodyStr path depth
  { c with endpoints := c.endpoints ++
    [{ URL := fullURL, Method := "GET", Source := "direct", Depth := depth }] }

/-- The part of `crawlRecursive` before the child calls (`crawlRecursive_succ`). -/
def visit {κ : Type} (lib : Lib) (cl : HTTPClient κ) (c : Crawler κ) (path : String)
    (depth : Int) : Visit κ :=
  if depth > c.maxDepth then Visit.skip
  else if path ∈ c.visited then Visit.skip
  else
    let c : Crawler κ := { c with visited := path :: c.visited }
    match pageRequest lib (resolvePath lib c path) with
    | Except.error err => Visit.failed c err
    | Except.ok req =>
      let r := cl.Do c.client req
      let c : Crawler κ := { c with client := r.1 }
      match r.2 with
      | Except.error err => Visit.failed c err
      | Except.ok resp =>
        match resp.Body with
        | Except.error err => Visit.failed c err
        | Except.ok bodyStr => Visit.page (harvest lib c bodyStr path depth)

/-- Two calls went the same way and left crawlers that differ at most in the client. -/
def Visit.alike {κ : Type} : Visit κ → Visit κ → Prop
  | Visit.skip, Visit.skip => True
  | Visit.failed a e1, Visit.failed b e2 => e1 = e2 ∧ sameButClient a b
  | Visit.page a, Visit.page b => sameButClient a b
  | _, _ => False

/-- The loop of `crawlRecursive` over `endpointsCopy`, with `rec` for the child call. -/
def children {κ : Type} (rec : Crawler κ → String → Int → Crawler κ) (depth : Int)
    (endpointsCopy : List Endpoint) (c : Crawler κ) : Crawler κ :=
  endpointsCopy.foldl
    (fun (c : Crawler κ) (endpoint : Endpoint) =>
      if endpoint.Depth = depth ∧ endpoint.Source = "link" then rec c endpoint.URL (depth + 1)
      else c) c

/-- The loop of `crawlRecursive` over `endpointsCopy` when a child call may fail to
return: `rec` gives `none` for a child call that does not return. -/
def childrenStrict {κ : Type} (rec : Crawler κ → String → Int → Option (Crawler κ))
    (depth : Int) (endpointsCopy : List Endpoint) (c : Crawler κ) : Option (Crawler κ) :=
  endpointsCopy.foldl
    (fun (oc : Option (Crawler κ)) (endpoint : Endpoint) =>
      match oc with
      | none => none
      | some c =>
        if endpoint.Depth = depth ∧ endpoint.Source = "link" then
          rec c endpoint.URL (depth + 1)
        else some c) (some c)

/-- The function `crawlRecursive` under a strict bound on the nesting of calls: every
call, also one that returns at a guard, takes one of the `levels`, and the outcome is
`none` as soon as a call is to be made and no level is left. -/
def crawlBounded {κ : Type} (lib : Lib) (cl : HTTPClient κ) :
    Nat → Crawler κ → String → Int → Option (Crawler κ × (List Endpoint × Option String))
  | 0, _, _, _ => none
  | levels + 1, c, path, depth =>
    match visit lib cl c path depth with
    | Visit.skip => some (c, (c.endpoints, none))
    | Visit.failed c1 err => some (c1, (c1.endpoints, some err))
    | Visit.page c1 =>
      match childrenStrict
          (fun c p d => (crawlBounded lib cl levels c p d).map (fun r => r.1))
          depth c1.endpoints c1 with
      | none => none
      | some c2 => some (c2, (c2.endpoints, none))

/-- The endpoint `extractForms` records for the form `s`, if it records one. -/
def formEndpoint {κ : Type} (lib : Lib) (c : Crawler κ) (currentPath : String) (depth : Int)
    (s : Selection) : Option Endpoint :=
  let action := (attr s.Attrs "action").getD ""
  let method := (attr s.Attrs "method").getD ""
  let method := if method = "" then "GET" else method
  let method := lib.ToUpper method
  let action := if action = "" then currentPath else action
  let normalized := normalizeURL lib c action currentPath
  if normalized = "" then none
  else some { URL := normalized, Method := method, Source := "form", Depth := depth + 1,
              Metadata := Metadata.inputs (formInputs s.Inputs) }

/-- The endpoint `extractLinks` records for the anchor `s`, if it records one. -/
def linkEndpoint {κ : Type} (lib : Lib) (c : Crawler κ) (currentPath : String) (depth : Int)
    (s : Selection) : Option Endpoint :=
  match attr s.Attrs "href" with
  | none => none
  | some href =>
    if href = "" then none
    else if hasPrefix href "#" ∨ hasPrefix href "javascript:" then none
    else
      let normalized := normalizeURL lib c href currentPath
      if normalized = "" then none
      else if normalized ∈ c.visited then none
      else some { URL := normalized, Method := "GET", Source := "link", Depth := depth + 1,
                  Metadata := Metadata.text s.Text }

/-- The endpoint `extractLinksWithTokenizer` records for the attribute `a` of an `a`
tag, if it records one. -/
def tokenLink {κ : Type} (lib : Lib) (c : Crawler κ) (currentPath : String) (depth : Int)
    (a : String × String) : Option Endpoint :=
  if a.1 = "href" then
    if a.2 = "" ∨ hasPrefix a.2 "#" ∨ hasPrefix a.2 "javascript:" then none
    else
      let normalized := normalizeURL lib c a.2 currentPath
      if normalized = "" then none
      else if normalized ∈ c.visited then none
      else some { URL := normalized, Method := "GET", Source := "link", Depth := depth + 1 }
  else none

/-- The endpoints `extractLinksWithTokenizer` records for the tag `t`. -/
def tokenLinks {κ : Type} (lib : Lib) (c : Crawler κ) (currentPath : String) (depth : Int)
    (t : Token) : List Endpoint :=
  if t.Data = "a" then t.Attr.filterMap (tokenLink lib c currentPath depth) else []

/-- The crawler states reached from a new crawler of maximum depth `d` by calls of
`Crawl` and `Clear`. -/
inductive Reached {κ : Type} (lib : Lib) (cl : HTTPClient κ) (d : Int) : Crawler κ → Prop where
  | new (k : κ) : Reached lib cl d (NewCrawler k d)
  | crawl (c : Crawler κ) (baseURL : String) :
      Reached lib cl d c → Reached lib cl d (Crawl lib cl c baseURL).1
  | clear (c : Crawler κ) : Reached lib cl d c → Reached lib cl d (Clear c)

end discovery

/-! ## Sequences of scanner calls -/

namespace scanner

/-- A call made on a scanner, with what the environment does during it. -/
inductive Call where
  | scan (ctxDone : Bool) (methods : List String) (sched : List bruteforce.Event)
  | scanWithWordlist (ctxDone : Bool) (wordlist methods : List String) (concurrency : Int)
      (sched : List bruteforce.Event)
  | discover

/-- The scanner after a call, and the scan results the call returned. -/
def perform {τ : Type} (lib : Lib) (net : httpclient.NetClient τ) (s : scannerImpl τ) :
    Call → scannerImpl τ × List ScanResult
  | Call.scan ctxDone methods sched =>
    ((Scan lib net s ctxDone methods sched).1, (Scan lib net s ctxDone methods sched).2.1)
  | Call.scanWithWordlist ctxDone wordlist methods concurrency sched =>
    ((ScanWithWordlist lib net s ctxDone wordlist methods concurrency sched).1,
     (ScanWithWordlist lib net s ctxDone wordlist methods concurrency sched).2.1)
  | Call.discover => ((Discover lib net s).1, [])

/-- The scanner after a sequence of calls, and all scan results they returned. -/
def performAll {τ : Type} (lib : Lib) (net : httpclient.NetClient τ) :
    scannerImpl τ → List Call → scannerImpl τ × List ScanResult
  | s, [] => (s, [])
  | s, call :: rest =>
    ((performAll lib net (perform lib net s call).1 rest).1,
     (perform lib net s call).2 ++ (performAll lib net (perform lib net s call).1 rest).2)

/-- The status code is one that `ScanWithWordlist` counts as successful. -/
def isSuccess (r : ScanResult) : Bool := decide (200 ≤ r.StatusCode ∧ r.StatusCode < 300)

/-- The status code is one that `ScanWithWordlist` counts as failed. -/
def isFailure (r : ScanResult) : Bool := decide (400 ≤ r.StatusCode)

end scanner

/-! ## Requests on the wire -/

/-- The request carries the User-Agent that the prober and the crawler set. -/
def carriesAgent (lib : Lib) (r : Request) : Bool :=
  headerGet lib r.Header "User-Agent" == "GoBruteScanner/1.0"

/-- Every request the recording transport has sent so far carries that User-Agent. -/
def agentOnly {τ : Type} (lib : Lib) (c : httpclient.Client (τ × List Request)) : Prop :=
  ∀ r ∈ c.client.2, carriesAgent lib r = true

/-! ## Example values

A library and targets on which the definitions are evaluated.  The library
agrees with `net/url`, `goquery`, the tokenizer and `regexp` on the strings
that occur in the examples: `http://x/` parses to scheme `http`, host `x`,
path `/`; resolving the empty path against it gives it back and resolving
`POST` gives the path `/POST`; each page parses to the document described
here; and of the nine patterns only the last one matches the pages with a
quoted path, while the first two and the last one match the `fetch` call. -/

namespace Example

/-- The page served at the root: one anchor pointing to `/a`. -/
def rootPage : String := "<a href=\"/a\">a</a>"

/-- A page with a form that posts an e-mail address to `/login`. -/
def loginForm : String :=
  "<form action=\"/login\" method=\"post\"><input name=\"email\" type=\"email\"></form>"

/-- A page with a form whose action is a `mailto:` address. -/
def mailForm : String := "<form action=\"mailto:admin@x\"></form>"

/-- A script that calls `fetch` with a path and an options object naming the method. -/
def fetchCall : String := "fetch(\x27/api/x\x27, \x7bmethod: \x27POST\x27\x7d)"

/-- What `FindAllStringSubmatch` returns on the pages of the examples. -/
def submatches (pattern content : String) : List (List String) :=
  if content = rootPage then
    if pattern = discovery.patterns.getD 8 "" then [["\"/a\"", "/a"]] else []
  else if content = loginForm then
    if pattern = discovery.patterns.getD 8 "" then [["\"/login\"", "/login"]] else []
  else if content = fetchCall then
    if pattern = discovery.patterns.getD 0 "" then [["fetch(\x27/api/x\x27", "/api/x"]]
    else if pattern = discovery.patterns.getD 1 "" then
      [["fetch(\x27/api/x\x27, \x7bmethod: \x27POST\x27", "/api/x", "POST"]]
    else if pattern = discovery.patterns.getD 8 "" then [["\x27/api/x\x27", "/api/x"]]
    else []
  else []

/-- The library on the strings of the examples. -/
def lib : Lib where
  Parse := fun s =>
    if s = "http://x/" then Except.ok { Scheme := "http", Host := "x", Path := "/" }
    else if s = "http://x/a" then Except.ok { Scheme := "http", Host := "x", Path := "/a" }
    else if s = "://bad" then Except.error "parse \"://bad\": missing protocol scheme"
    else if s = "http://p1" then Except.ok { Scheme := "http", Host := "p1" }
    else if s = "http://p2" then Except.ok { Scheme := "http", Host := "p2" }
    else Except.error "parse error"
  ResolveReference := fun base ref =>
    if ref.Path = "" then base else { base with Path := "/" ++ ref.Path }
  URLString := fun u => u.Scheme ++ "://" ++ u.Host ++ u.Path
  NewDocumentFromReader := fun body =>
    if body = rootPage then
      Except.ok { anchors := [{ Attrs := [("href", "/a")], Text := "a" }] }
    else if body = loginForm then
      Except.ok { forms := [{ Attrs := [("action", "/login"), ("method", "post")],
                              Inputs := [[("name", "email"), ("type", "email")]] }] }
    else if body = mailForm then
      Except.ok { forms := [{ Attrs := [("action", "mailto:admin@x")] }] }
    else Except.ok {}
  Tokens := fun body =>
    if body = rootPage then [{ Data := "a", Attr := [("href", "/a")] }]
    else if body = loginForm then
      [{ Data := "form", Attr := [("action", "/login"), ("method", "post")] },
       { Data := "input", Attr := [("name", "email"), ("type", "email")] }]
    else if body = mailForm then [{ Data := "form", Attr := [("action", "mailto:admin@x")] }]
    else []
  FindAllStringSubmatch := submatches
  NewRequestError := fun _ _ => none
  CanonicalMIMEHeaderKey := fun k => k
  ToUpper := fun s => String.mk (s.data.map Char.toUpper)

/-- A static target: the root serves `rootPage`, every other URL an empty page. -/
def site : HTTPClient Unit where
  Do := fun _ req =>
    if req.URL = "http://x/" then
      ((), Except.ok { StatusCode := 200, Body := Except.ok rootPage })
    else ((), Except.ok { StatusCode := 200, Body := Except.ok "" })

/-- A target whose responses arrive with status 200 and a body that cannot be read. -/
def brokenBody : HTTPClient Unit where
  Do := fun _ _ => ((), Except.ok { StatusCode := 200, Body := Except.error "unexpected EOF" })

/-- A target that answers 200 at `http://x/a` and refuses every other connection. -/
def flaky : HTTPClient Unit where
  Do := fun _ req =>
    if req.URL = "http://x/a" then ((), Except.ok { StatusCode := 200, Body := Except.ok "ok" })
    else ((), Except.error "connection refused")

/-- A wrapped `*http.Client` on which every request fails. -/
def deadNet : httpclient.NetClient Unit where
  Do := fun _ _ _ => ((), Except.error "connection refused")

/-- A transport with rotation enabled and two proxies, the first one active. -/
def rotating : httpclient.Client Unit :=
  { client := (), config := { ProxyRotate := true },
    proxies := [{ Scheme := "http", Host := "p1" }, { Scheme := "http", Host := "p2" }],
    Proxy := some { Scheme := "http", Host := "p1" } }

/-- Three requests. -/
def threeRequests : List Request :=
  [{ Method := "GET", URL := "http://x/" }, { Method := "GET", URL := "http://x/a" },
   { Method := "POST", URL := "http://x/" }]

/-- An interleaving of two workers with a clock tick and no cancellation. -/
def interleaving : List bruteforce.Event :=
  [bruteforce.Event.step 0, bruteforce.Event.step 1, bruteforce.Event.step 1,
   bruteforce.Event.tick, bruteforce.Event.step 1, bruteforce.Event.step 0,
   bruteforce.Event.step 1]

/-- A wrapped `*http.Client` in front of the example site. -/
def liveNet : httpclient.NetClient Unit where
  Do := fun _ _ req => site.Do () req

/-- The scanner `scanner.New` builds for `http://x/` with `WithScanDepth depth`. -/
def scannerAt {τ : Type} (depth : Int) (t0 : τ) : scanner.scannerImpl τ :=
  { config := scanner.WithScanDepth depth (scanner.defaultConfig "http://x/")
    discoverer := discovery.NewCrawler
      (httpclient.New lib (scanner.WithScanDepth depth (scanner.defaultConfig "http://x/")) t0)
      depth }

/-- A crawler of max depth 1 whose base URL is `http://x/`, with nothing visited. -/
def crawlerAtX : discovery.Crawler Unit :=
  { client := (), maxDepth := 1, baseURL := { Scheme := "http", Host := "x", Path := "/" } }

/-- A configuration with one default cookie and one default header. -/
def cookieConfig : Config :=
  { Cookies := [("session", "def")], Headers := [("X-Token", "def")] }

/-- A request on which the caller has set the cookie and the header that
`cookieConfig` names, with values of its own. -/
def cookieRequest : Request :=
  { Method := "GET", URL := "http://x/"
    Header := [("X-Token", ["abc"])]
    Cookies := [("session", "abc")] }

/-- A target that answers every request with status 200, a short JSON body and
three headers: one with a single value, one with two values, one with none. -/
def jsonSite : HTTPClient Unit where
  Do := fun _ _ =>
    ((), Except.ok { StatusCode := 200
                     Header := [("Content-Type", ["application/json"]),
                                ("Set-Cookie", ["a=1", "b=2"]), ("X-Empty", [])]
                     Body := Except.ok "[1]" })

/-- A transport configured with a User-Agent of its own and a custom `User-Agent`
header, in front of the example site, with nothing recorded yet. -/
def customAgent : httpclient.Client (Unit × List Request) :=
  { client := ((), [])
    config := { UserAgent := "Mozilla/5.0", Headers := [("User-Agent", "curl/8")] } }

end Example

/-! # Theorems -/


/-! ## The transport -/

namespace httpclient

theorem Do_snd {τ : Type} (lib : Lib) (net : NetClient τ) (c : Client τ) (req : Request) :
    (Client.Do lib net c req).2 = (net.Do c.client c.Proxy (prepare lib c.config req)).2 := by
  unfold Client.Do
  dsimp only
  split <;> rfl

theorem Do_frame {τ : Type} (lib : Lib) (net : NetClient τ) (c : Client τ) (req : Request) :
    (Client.Do lib net c req).1.proxies = c.proxies ∧
    (Client.Do lib net c req).1.config = c.config := by
  unfold Client.Do
  dsimp only
  split <;> exact ⟨rfl, rfl⟩

theorem Do_failed_rotate {τ : Type} (lib : Lib) (net : NetClient τ) (c : Client τ)
    (req : Request) (hrot : c.config.ProxyRotate = true)
    (hi : c.currentProxy < c.proxies.length)
    (hfail : failed (Client.Do lib net c req).2 = true) :
    (Client.Do lib net c req).1.currentProxy = (c.currentProxy + 1) % c.proxies.length := by
  rw [Do_snd] at hfail
  unfold Client.Do
  dsimp only
  by_cases hlen : c.proxies.length > 1
  · rw [if_pos ⟨hfail, hrot, hlen⟩]
    rfl
  · rw [if_neg (fun h => hlen h.2.2)]
    have h1 : c.proxies.length = 1 := by omega
    have h0 : c.currentProxy = 0 := by omega
    simp [h1, h0]

theorem DoAll_rotate {τ : Type} (lib : Lib) (net : NetClient τ) (reqs : List Request) :
    ∀ (c : Client τ), c.config.ProxyRotate = true → c.currentProxy < c.proxies.length →
      (∀ r ∈ (DoAll lib net c reqs).2, failed r = true) →
      (DoAll lib net c reqs).1.currentProxy
          = (c.currentProxy + reqs.length) % c.proxies.length ∧
        (DoAll lib net c reqs).1.proxies = c.proxies := by
  induction reqs with
  | nil =>
    intro c _ hi _
    exact ⟨(Nat.mod_eq_of_lt hi).symm, rfl⟩
  | cons req rest ih =>
    intro c hrot hi hfail
    have hf1 : failed (Client.Do lib net c req).2 = true :=
      hfail _ (by simp [DoAll])
    have hstep := Do_failed_rotate lib net c req hrot hi hf1
    obtain ⟨hp, hc⟩ := Do_frame lib net c req
    have hpos : 0 < c.proxies.length := by omega
    have hrest := ih (Client.Do lib net c req).1 (by rw [hc]; exact hrot)
      (by rw [hstep, hp]; exact Nat.mod_lt _ hpos)
      (fun r hr => hfail r (by simp [DoAll]; exact Or.inr hr))
    constructor
    · show (DoAll lib net (Client.Do lib net c req).1 rest).1.currentProxy = _
      rw [hrest.1, hstep, hp, List.length_cons]
      rw [Nat.mod_add_mod]
      congr 1
      omega
    · show (DoAll lib net (Client.Do lib net c req).1 rest).1.proxies = _
      rw [hrest.2, hp]

theorem New_currentProxy {τ : Type} (lib : Lib) (config : Config) (t0 : τ) :
    (New lib config t0).currentProxy = 0 := by
  unfold New
  dsimp only
  split
  · split <;> rfl
  · rfl

end httpclient

/-- C9: with rotation enabled, P >= 1 proxies and a valid active index i, after N
consecutive failing `Do` calls the active index is (i + N) mod P, a valid index
into the unchanged proxy list; the index is 0 after construction. -/
theorem C9_proxy_index_after_failures {τ : Type} (lib : Lib) (net : httpclient.NetClient τ)
    (c : httpclient.Client τ) (reqs : List Request)
    (hrot : c.config.ProxyRotate = true) (hP : 1 ≤ c.proxies.length)
    (hi : c.currentProxy < c.proxies.length)
    (hfail : ∀ r ∈ (httpclient.DoAll lib net c reqs).2, httpclient.failed r = true) :
    (httpclient.DoAll lib net c reqs).1.currentProxy
        = (c.currentProxy + reqs.length) % c.proxies.length ∧
      (httpclient.DoAll lib net c reqs).1.currentProxy
        < (httpclient.DoAll lib net c reqs).1.proxies.length ∧
      (httpclient.DoAll lib net c reqs).1.proxies = c.proxies ∧
      ∀ (config : Config) (t0 : τ), (httpclient.New lib config t0).currentProxy = 0 := by
  obtain ⟨h1, h2⟩ := httpclient.DoAll_rotate lib net reqs c hrot hi hfail
  refine ⟨h1, ?_, h2, httpclient.New_currentProxy lib⟩
  rw [h1, h2]
  exact Nat.mod_lt _ (by omega)

/-- C9 at a concrete input: two proxies, three failing calls, index (0 + 3) mod 2 = 1. -/
theorem C9_proxy_index_after_failures_witness :
    (httpclient.DoAll Example.lib Example.deadNet Example.rotating
        Example.threeRequests).1.currentProxy = 1 ∧
      (httpclient.DoAll Example.lib Example.deadNet Example.rotating
        Example.threeRequests).1.Proxy = some { Scheme := "http", Host := "p2" } :=
  ⟨((C9_proxy_index_after_failures Example.lib Example.deadNet Example.rotating
      Example.threeRequests (by decide) (by decide) (by decide) (by decide)).1).trans
      (by decide), by decide⟩

/-! ## The probe -/

theorem prefixed_ne_empty (a b : String) (h : a.length ≠ 0) : a ++ b ≠ "" := by
  intro hab
  have hlen := congrArg String.length hab
  rw [String.length_append] at hlen
  have h0 : ("" : String).length = 0 := rfl
  omega

namespace bruteforce

theorem testEndpoint_badRequest {κ : Type} (lib : Lib) (cl : HTTPClient κ) (k : κ) (now : Nat)
    (url method err : String) (h : probeRequest lib url method = Except.error err) :
    testEndpoint lib cl k now url method =
      (k, { URL := url, Method := method, Timestamp := now,
            Error := "failed to create request: " ++ err }) := by
  unfold testEndpoint
  rw [h]

theorem testEndpoint_transport {κ : Type} (lib : Lib) (cl : HTTPClient κ) (k k1 : κ) (now : Nat)
    (url method err : String) (req : Request)
    (h : probeRequest lib url method = Except.ok req)
    (hd : cl.Do k req = (k1, Except.error err)) :
    testEndpoint lib cl k now url method =
      (k1, { URL := url, Method := method, Timestamp := now,
             Error := "request failed: " ++ err }) := by
  unfold testEndpoint
  rw [h]
  dsimp only
  rw [hd]

theorem testEndpoint_body {κ : Type} (lib : Lib) (cl : HTTPClient κ) (k k1 : κ) (now : Nat)
    (url method err : String) (req : Request) (resp : Response)
    (h : probeRequest lib url method = Except.ok req)
    (hd : cl.Do k req = (k1, Except.ok resp))
    (hb : resp.Body = Except.error err) :
    testEndpoint lib cl k now url method =
      (k1, { URL := url, Method := method, Timestamp := now,
             StatusCode := resp.StatusCode, Headers := firstValues resp.Header,
             Error := "failed to read body: " ++ err }) := by
  unfold testEndpoint
  rw [h]
  dsimp only
  rw [hd]
  dsimp only
  rw [hb]

theorem testEndpoint_read {κ : Type} (lib : Lib) (cl : HTTPClient κ) (k k1 : κ) (now : Nat)
    (url method body : String) (req : Request) (resp : Response)
    (h : probeRequest lib url method = Except.ok req)
    (hd : cl.Do k req = (k1, Except.ok resp))
    (hb : resp.Body = Except.ok body) :
    (testEndpoint lib cl k now url method).1 = k1 ∧
    (testEndpoint lib cl k now url method).2.StatusCode = resp.StatusCode ∧
    (testEndpoint lib cl k now url method).2.Size = (body.utf8ByteSize : Int) ∧
    (testEndpoint lib cl k now url method).2.Headers = firstValues resp.Header ∧
    (testEndpoint lib cl k now url method).2.Error = "" := by
  unfold testEndpoint
  rw [h]
  dsimp only
  rw [hd]
  dsimp only
  rw [hb]
  dsimp only
  split
  · split <;> exact ⟨rfl, rfl, rfl, rfl, rfl⟩
  · exact ⟨rfl, rfl, rfl, rfl, rfl⟩

theorem testEndpoint_url_method {κ : Type} (lib : Lib) (cl : HTTPClient κ) (k : κ) (now : Nat)
    (url method : String) :
    (testEndpoint lib cl k now url method).2.URL = url ∧
    (testEndpoint lib cl k now url method).2.Method = method := by
  unfold testEndpoint
  split
  · exact ⟨rfl, rfl⟩
  · split
    · exact ⟨rfl, rfl⟩
    · split
      · exact ⟨rfl, rfl⟩
      · dsimp only
        split
        · split <;> exact ⟨rfl, rfl⟩
        · exact ⟨rfl, rfl⟩

end bruteforce

/-- C6, the claim as stated fails: a response with status 200 whose body cannot be
read yields a result with a non-zero status code and a non-empty error, although
every response of the target carries a non-zero status code. -/
theorem C6_counterexample :
    (∀ k0 req k1 resp, Example.brokenBody.Do k0 req = (k1, Except.ok resp) →
      resp.StatusCode ≠ 0) ∧
    (bruteforce.testEndpoint Example.lib Example.brokenBody () 0 "http://x/a" "GET").2.StatusCode
      ≠ 0 ∧
    (bruteforce.testEndpoint Example.lib Example.brokenBody () 0 "http://x/a" "GET").2.Error
      ≠ "" := by
  refine ⟨?_, by decide, by decide⟩
  intro k0 req k1 resp h
  simp only [Example.brokenBody, Prod.mk.injEq, Except.ok.injEq] at h
  rw [← h.2]
  decide

/-- C6 as amended: when successful responses carry a non-zero status code, the result
of a probe has a non-zero status code or a non-empty error (never neither), and it has
both exactly when the response arrived and its body could not be read. -/
theorem C6_status_or_error {κ : Type} (lib : Lib) (cl : HTTPClient κ) (k : κ) (now : Nat)
    (url method : String)
    (hstatus : ∀ k0 req k1 resp, cl.Do k0 req = (k1, Except.ok resp) → resp.StatusCode ≠ 0) :
    ((bruteforce.testEndpoint lib cl k now url method).2.StatusCode ≠ 0 ∨
      (bruteforce.testEndpoint lib cl k now url method).2.Error ≠ "") ∧
    (((bruteforce.testEndpoint lib cl k now url method).2.StatusCode ≠ 0 ∧
      (bruteforce.testEndpoint lib cl k now url method).2.Error ≠ "") ↔
      ∃ req resp err, bruteforce.probeRequest lib url method = Except.ok req ∧
        (cl.Do k req).2 = Except.ok resp ∧ resp.Body = Except.error err) := by
  rcases h : bruteforce.probeRequest lib url method with err | req
  · rw [bruteforce.testEndpoint_badRequest lib cl k now url method err h]
    refine ⟨Or.inr (prefixed_ne_empty _ _ (by decide)), ?_⟩
    constructor
    · intro hb
      exact absurd rfl hb.1
    · rintro ⟨req, resp, e, hreq, -, -⟩
      cases hreq
  · rcases hd : cl.Do k req with ⟨k1, err | resp⟩
    · rw [bruteforce.testEndpoint_transport lib cl k k1 now url method err req h hd]
      refine ⟨Or.inr (prefixed_ne_empty _ _ (by decide)), ?_⟩
      constructor
      · intro hb
        exact absurd rfl hb.1
      · rintro ⟨req2, resp, e, hreq, hdo, -⟩
        cases hreq
        rw [hd] at hdo
        cases hdo
    · have hne := hstatus k req k1 resp hd
      rcases hb : resp.Body with err | body
      · rw [bruteforce.testEndpoint_body lib cl k k1 now url method err req resp h hd hb]
        refine ⟨Or.inl hne, ?_⟩
        constructor
        · intro _
          exact ⟨req, resp, err, rfl, by rw [hd], hb⟩
        · intro _
          exact ⟨hne, prefixed_ne_empty _ _ (by decide)⟩
      · obtain ⟨-, hs, -, -, he⟩ :=
          bruteforce.testEndpoint_read lib cl k k1 now url method body req resp h hd hb
        rw [hs, he]
        refine ⟨Or.inl hne, ?_⟩
        constructor
        · intro hb2
          exact absurd rfl hb2.2
        · rintro ⟨req2, resp2, e, hreq, hdo, hbody⟩
          cases hreq
          rw [hd] at hdo
          cases hdo
          rw [hb] at hbody
          cases hbody

/-- C6 as amended, at a concrete input: the target answers 200 at `http://x/a`; the
probe of that URL has a non-zero status and no error. -/
theorem C6_status_or_error_witness :
    (∀ k0 req k1 resp, Example.flaky.Do k0 req = (k1, Except.ok resp) →
      resp.StatusCode ≠ 0) ∧
    ((bruteforce.testEndpoint Example.lib Example.flaky () 0 "http://x/a" "GET").2.StatusCode ≠ 0 ∨
      (bruteforce.testEndpoint Example.lib Example.flaky () 0 "http://x/a" "GET").2.Error ≠ "") :=
  have hflaky : ∀ (k0 : Unit) (req : Request) (k1 : Unit) (resp : Response),
      Example.flaky.Do k0 req = (k1, Except.ok resp) → resp.StatusCode ≠ 0 := by
    intro k0 req k1 resp h
    unfold Example.flaky at h
    dsimp only at h
    split at h
    · simp only [Prod.mk.injEq, Except.ok.injEq] at h
      rw [← h.2]
      decide
    · simp at h
  ⟨hflaky, (C6_status_or_error Example.lib Example.flaky () 0 "http://x/a" "GET" hflaky).1⟩

/-- C8, the claim as stated fails: the response arrives with status 200, its body
cannot be read, and the result carries status code 200, not 0. -/
theorem C8_counterexample :
    (∃ req resp err, bruteforce.probeRequest Example.lib "http://x/" "POST" = Except.ok req ∧
      (Example.brokenBody.Do () req).2 = Except.ok resp ∧ resp.Body = Except.error err) ∧
    (bruteforce.testEndpoint Example.lib Example.brokenBody () 7 "http://x/" "POST").2.StatusCode
      = 200 :=
  ⟨⟨_, _, _, rfl, rfl, rfl⟩, by decide⟩

/-- C8 as amended: when the response arrives and its body cannot be read, the result
has the status code of the response and its first-value headers, size 0, and the
non-empty error "failed to read body: " followed by the read error. -/
theorem C8_unreadable_body {κ : Type} (lib : Lib) (cl : HTTPClient κ) (k k1 : κ) (now : Nat)
    (url method err : String) (req : Request) (resp : Response)
    (hreq : bruteforce.probeRequest lib url method = Except.ok req)
    (hdo : cl.Do k req = (k1, Except.ok resp))
    (hbody : resp.Body = Except.error err) :
    (bruteforce.testEndpoint lib cl k now url method).2.StatusCode = resp.StatusCode ∧
    (bruteforce.testEndpoint lib cl k now url method).2.Headers
      = bruteforce.firstValues resp.Header ∧
    (bruteforce.testEndpoint lib cl k now url method).2.Size = 0 ∧
    (bruteforce.testEndpoint lib cl k now url method).2.Error = "failed to read body: " ++ err ∧
    (bruteforce.testEndpoint lib cl k now url method).2.Error ≠ "" := by
  rw [bruteforce.testEndpoint_body lib cl k k1 now url method err req resp hreq hdo hbody]
  exact ⟨rfl, rfl, rfl, rfl, prefixed_ne_empty _ _ (by decide)⟩

/-- C8 as amended, at a concrete input: status 200 with an unreadable body. -/
theorem C8_unreadable_body_witness :
    (bruteforce.testEndpoint Example.lib Example.brokenBody () 7 "http://x/" "GET").2.StatusCode
      = 200 ∧
    (bruteforce.testEndpoint Example.lib Example.brokenBody () 7 "http://x/" "GET").2.Error
      = "failed to read body: unexpected EOF" :=
  have h := C8_unreadable_body Example.lib Example.brokenBody () () 7 "http://x/" "GET"
    "unexpected EOF" _ { StatusCode := 200, Body := Except.error "unexpected EOF" } rfl rfl rfl
  ⟨h.1, h.2.2.2.1.trans (by decide)⟩

/-! ## The worker pool -/

namespace bruteforce

theorem sum_holding_set {β : Type} (f : Worker → Multiset β) (w w2 : Worker) :
    ∀ (l : List Worker) (i : Nat), l.get? i = some w →
      ((l.set i w2).map f).sum + f w = (l.map f).sum + f w2 := by
  intro l
  induction l with
  | nil => intro i h; simp at h
  | cons x xs ih =>
    intro i h
    cases i with
    | zero =>
      simp at h
      subst h
      simp only [List.set_cons_zero, List.map_cons, List.sum_cons]
      abel
    | succ j =>
      simp at h
      have := ih j (by simpa using h)
      simp only [List.set_cons_succ, List.map_cons, List.sum_cons]
      rw [add_assoc, this, add_assoc]

theorem stepWorker_cancelled {κ : Type} (lib : Lib) (cl : HTTPClient κ) (i : Nat) (s : Scan κ) :
    (stepWorker lib cl i s).cancelled = s.cancelled := by
  unfold stepWorker
  split
  · rfl
  · split <;> rfl
  · split <;> rfl
  · rfl
  · rfl
  · rfl

theorem stepWorker_length {κ : Type} (lib : Lib) (cl : HTTPClient κ) (i : Nat) (s : Scan κ) :
    (stepWorker lib cl i s).workers.length = s.workers.length := by
  unfold stepWorker
  split
  · rfl
  · split <;> simp
  · split <;> simp
  · simp
  · simp
  · rfl


theorem account_step {β κ : Type} (lib : Lib) (cl : HTTPClient κ) (g : BruteResult → β)
    (h : task → β)
    (hg : ∀ k now t, g (testEndpoint lib cl k now t.url t.method).2 = h t)
    (i : Nat) (s : Scan κ) :
    account g h (stepWorker lib cl i s) ≤ account g h s ∧
    (s.cancelled = false → account g h (stepWorker lib cl i s) = account g h s) := by
  rcases hw : s.workers.get? i with _ | w
  · have : stepWorker lib cl i s = s := by
      unfold stepWorker; rw [hw]
    rw [this]
    exact ⟨le_refl _, fun _ => rfl⟩
  · cases w with
    | receiving =>
      rcases ht : s.tasks with _ | ⟨t, rest⟩
      · have key := sum_holding_set (holding g h) Worker.receiving Worker.done s.workers i hw
        have e : account g h (stepWorker lib cl i s) = account g h s := by
          unfold stepWorker; rw [hw]; dsimp only; rw [ht]
          simp only [account, ht]
          simp only [holding, add_zero] at key
          rw [key]
        rw [e]
        exact ⟨le_refl _, fun _ => rfl⟩
      · have key := sum_holding_set (holding g h) Worker.receiving (Worker.selecting t)
          s.workers i hw
        have e : account g h (stepWorker lib cl i s) = account g h s := by
          unfold stepWorker; rw [hw]; dsimp only; rw [ht]
          simp only [account, ht]
          simp only [holding, add_zero] at key
          rw [key, List.map_cons, ← Multiset.cons_coe, ← Multiset.singleton_add]
          abel
        rw [e]
        exact ⟨le_refl _, fun _ => rfl⟩
    | selecting t =>
      by_cases hc : s.cancelled = true
      · have key := sum_holding_set (holding g h) (Worker.selecting t) Worker.done
          s.workers i hw
        refine ⟨?_, fun hn => by rw [hc] at hn; cases hn⟩
        unfold stepWorker; rw [hw]; dsimp only; rw [if_pos hc]
        simp only [account]
        simp only [holding, add_zero] at key
        rw [← key]
        refine add_le_add_right (add_le_add_left ?_ _) _
        exact Multiset.le_add_right _ _
      · have key := sum_holding_set (holding g h) (Worker.selecting t) (Worker.probing t)
          s.workers i hw
        have e : account g h (stepWorker lib cl i s) = account g h s := by
          unfold stepWorker; rw [hw]; dsimp only; rw [if_neg hc]
          simp only [account]
          simp only [holding] at key
          rw [add_right_cancel key]
        rw [e]
        exact ⟨le_refl _, fun _ => rfl⟩
    | probing t =>
      have key := sum_holding_set (holding g h) (Worker.probing t)
        (Worker.appending (testEndpoint lib cl s.client s.clock t.url t.method).2)
        s.workers i hw
      have e : account g h (stepWorker lib cl i s) = account g h s := by
        unfold stepWorker; rw [hw]
        simp only [account]
        simp only [holding, hg] at key
        rw [add_right_cancel key]
      rw [e]
      exact ⟨le_refl _, fun _ => rfl⟩
    | appending r =>
      have key := sum_holding_set (holding g h) (Worker.appending r) Worker.receiving
        s.workers i hw
      have e : account g h (stepWorker lib cl i s) = account g h s := by
        unfold stepWorker; rw [hw]
        simp only [account]
        simp only [holding, add_zero] at key
        rw [← key, List.map_append, List.map_singleton, ← Multiset.coe_add,
          Multiset.coe_singleton]
        abel
      rw [e]
      exact ⟨le_refl _, fun _ => rfl⟩
    | done =>
      have : stepWorker lib cl i s = s := by
        unfold stepWorker; rw [hw]
      rw [this]
      exact ⟨le_refl _, fun _ => rfl⟩


theorem account_event {β κ : Type} (lib : Lib) (cl : HTTPClient κ) (g : BruteResult → β)
    (h : task → β)
    (hg : ∀ k now t, g (testEndpoint lib cl k now t.url t.method).2 = h t)
    (s : Scan κ) (e : Event) :
    account g h (applyEvent lib cl s e) ≤ account g h s ∧
    (s.cancelled = false → e ≠ Event.cancel →
      account g h (applyEvent lib cl s e) = account g h s ∧
      (applyEvent lib cl s e).cancelled = false) := by
  cases e with
  | step i =>
    obtain ⟨h1, h2⟩ := account_step lib cl g h hg i s
    exact ⟨h1, fun hc _ => ⟨h2 hc, by
      show (stepWorker lib cl i s).cancelled = false
      rw [stepWorker_cancelled]; exact hc⟩⟩
  | cancel => exact ⟨le_refl _, fun _ hne => absurd rfl hne⟩
  | tick => exact ⟨le_refl _, fun hc _ => ⟨rfl, hc⟩⟩

theorem account_runEvents {β κ : Type} (lib : Lib) (cl : HTTPClient κ) (g : BruteResult → β)
    (h : task → β)
    (hg : ∀ k now t, g (testEndpoint lib cl k now t.url t.method).2 = h t)
    (sched : List Event) :
    ∀ s : Scan κ, account g h (runEvents lib cl s sched) ≤ account g h s ∧
      (s.cancelled = false → Event.cancel ∉ sched →
        account g h (runEvents lib cl s sched) = account g h s ∧
        (runEvents lib cl s sched).cancelled = false) := by
  induction sched with
  | nil => intro s; exact ⟨le_refl _, fun hc _ => ⟨rfl, hc⟩⟩
  | cons e rest ih =>
    intro s
    obtain ⟨h1, h2⟩ := account_event lib cl g h hg s e
    obtain ⟨i1, i2⟩ := ih (applyEvent lib cl s e)
    refine ⟨le_trans i1 h1, fun hc hn => ?_⟩
    have hne : e ≠ Event.cancel := fun he => hn (by rw [he]; exact List.mem_cons_self _ _)
    have hnr : Event.cancel ∉ rest := fun hm => hn (List.mem_cons_of_mem _ hm)
    obtain ⟨a1, a2⟩ := h2 hc hne
    obtain ⟨b1, b2⟩ := i2 a2 hnr
    exact ⟨b1.trans a1, b2⟩

theorem account_iterate {β κ : Type} (lib : Lib) (cl : HTTPClient κ) (g : BruteResult → β)
    (h : task → β)
    (hg : ∀ k now t, g (testEndpoint lib cl k now t.url t.method).2 = h t)
    (i n : Nat) :
    ∀ s : Scan κ, account g h ((stepWorker lib cl i)^[n] s) ≤ account g h s ∧
      ((stepWorker lib cl i)^[n] s).cancelled = s.cancelled ∧
      (s.cancelled = false →
        account g h ((stepWorker lib cl i)^[n] s) = account g h s) := by
  induction n with
  | zero => intro s; exact ⟨le_refl _, rfl, fun _ => rfl⟩
  | succ n ih =>
    intro s
    rw [Function.iterate_succ_apply]
    obtain ⟨h1, h2⟩ := account_step lib cl g h hg i s
    obtain ⟨i1, i2, i3⟩ := ih (stepWorker lib cl i s)
    have hcs := stepWorker_cancelled lib cl i s
    exact ⟨le_trans i1 h1, i2.trans hcs, fun hc => (i3 (hcs.trans hc)).trans (h2 hc)⟩

theorem account_foldl_finish {β κ : Type} (lib : Lib) (cl : HTTPClient κ)
    (g : BruteResult → β) (h : task → β)
    (hg : ∀ k now t, g (testEndpoint lib cl k now t.url t.method).2 = h t)
    (l : List Nat) :
    ∀ s : Scan κ, account g h (l.foldl (finishWorker lib cl) s) ≤ account g h s ∧
      (l.foldl (finishWorker lib cl) s).cancelled = s.cancelled ∧
      (s.cancelled = false →
        account g h (l.foldl (finishWorker lib cl) s) = account g h s) := by
  induction l with
  | nil => intro s; exact ⟨le_refl _, rfl, fun _ => rfl⟩
  | cons i rest ih =>
    intro s
    obtain ⟨h1, h2, h3⟩ := account_iterate lib cl g h hg i (4 * s.tasks.length + 4) s
    obtain ⟨i1, i2, i3⟩ := ih (finishWorker lib cl s i)
    exact ⟨le_trans i1 h1, i2.trans h2, fun hc => (i3 (h2.trans hc)).trans (h3 hc)⟩

theorem account_drain {β κ : Type} (lib : Lib) (cl : HTTPClient κ)
    (g : BruteResult → β) (h : task → β)
    (hg : ∀ k now t, g (testEndpoint lib cl k now t.url t.method).2 = h t)
    (s : Scan κ) :
    account g h (drain lib cl s) ≤ account g h s ∧
      (drain lib cl s).cancelled = s.cancelled ∧
      (s.cancelled = false → account g h (drain lib cl s) = account g h s) :=
  account_foldl_finish lib cl g h hg _ s


theorem queueDrained_step {κ : Type} (lib : Lib) (cl : HTTPClient κ) (i : Nat) (s : Scan κ)
    (hs : queueDrained s) : queueDrained (stepWorker lib cl i s) := by
  intro hc hne w hw
  rw [stepWorker_cancelled] at hc
  rcases hg : s.workers.get? i with _ | v
  · have e : stepWorker lib cl i s = s := by unfold stepWorker; rw [hg]
    rw [e] at hne hw
    exact hs hc hne w hw
  · cases v with
    | receiving =>
      rcases ht : s.tasks with _ | ⟨t, rest⟩
      · have e : (stepWorker lib cl i s).tasks = [] := by
          unfold stepWorker; rw [hg]; dsimp only; rw [ht]
        exact absurd e hne
      · have e : (stepWorker lib cl i s).workers = s.workers.set i (Worker.selecting t) := by
          unfold stepWorker; rw [hg]; dsimp only; rw [ht]
        rw [e] at hw
        rcases List.mem_or_eq_of_mem_set hw with hm | he
        · exact hs hc (by rw [ht]; exact List.cons_ne_nil _ _) w hm
        · rw [he]; exact fun hh => by cases hh
    | selecting t =>
      have e : stepWorker lib cl i s = { s with workers := s.workers.set i (Worker.probing t) } := by
        unfold stepWorker; rw [hg]; dsimp only; rw [hc]; rfl
      rw [e] at hne hw
      rcases List.mem_or_eq_of_mem_set hw with hm | he
      · exact hs hc hne w hm
      · rw [he]; exact fun hh => by cases hh
    | probing t =>
      have e : stepWorker lib cl i s = { s with
          client := (testEndpoint lib cl s.client s.clock t.url t.method).1,
          workers := s.workers.set i
            (Worker.appending (testEndpoint lib cl s.client s.clock t.url t.method).2) } := by
        unfold stepWorker; rw [hg]
      rw [e] at hne hw
      rcases List.mem_or_eq_of_mem_set hw with hm | he
      · exact hs hc hne w hm
      · rw [he]; exact fun hh => by cases hh
    | appending r =>
      have e : stepWorker lib cl i s = { s with
          results := s.results ++ [r], workers := s.workers.set i Worker.receiving } := by
        unfold stepWorker; rw [hg]
      rw [e] at hne hw
      rcases List.mem_or_eq_of_mem_set hw with hm | he
      · exact hs hc hne w hm
      · rw [he]; exact fun hh => by cases hh
    | done =>
      have e : stepWorker lib cl i s = s := by unfold stepWorker; rw [hg]
      rw [e] at hne hw
      exact hs hc hne w hw

theorem queueDrained_event {κ : Type} (lib : Lib) (cl : HTTPClient κ) (s : Scan κ) (e : Event)
    (hs : queueDrained s) : queueDrained (applyEvent lib cl s e) := by
  cases e with
  | step i => exact queueDrained_step lib cl i s hs
  | cancel => intro hc; cases hc
  | tick => exact hs

theorem queueDrained_runEvents {κ : Type} (lib : Lib) (cl : HTTPClient κ) (sched : List Event) :
    ∀ s : Scan κ, queueDrained s → queueDrained (runEvents lib cl s sched) := by
  induction sched with
  | nil => intro s hs; exact hs
  | cons e rest ih => intro s hs; exact ih _ (queueDrained_event lib cl s e hs)

theorem queueDrained_iterate {κ : Type} (lib : Lib) (cl : HTTPClient κ) (i n : Nat) :
    ∀ s : Scan κ, queueDrained s → queueDrained ((stepWorker lib cl i)^[n] s) := by
  induction n with
  | zero => intro s hs; exact hs
  | succ n ih =>
    intro s hs
    rw [Function.iterate_succ_apply]
    exact ih _ (queueDrained_step lib cl i s hs)

theorem queueDrained_drain {κ : Type} (lib : Lib) (cl : HTTPClient κ) (s : Scan κ)
    (hs : queueDrained s) : queueDrained (drain lib cl s) := by
  unfold drain
  generalize List.range s.workers.length = l
  induction l generalizing s with
  | nil => exact hs
  | cons i rest ih => exact ih _ (queueDrained_iterate lib cl i _ s hs)


theorem movesLeft_step {κ : Type} (lib : Lib) (cl : HTTPClient κ) (i : Nat) (s : Scan κ) :
    movesLeft (stepWorker lib cl i s) i ≤ movesLeft s i - 1 := by
  rcases hg : s.workers.get? i with _ | v
  · have e : stepWorker lib cl i s = s := by unfold stepWorker; rw [hg]
    have m1 : movesLeft s i = 0 := by unfold movesLeft; rw [hg]
    rw [e, m1]
  · have hlt : i < s.workers.length := by
      rw [List.get?_eq_getElem?] at hg
      exact (List.getElem?_eq_some_iff.mp hg).1
    have hset : ∀ w, (s.workers.set i w).get? i = some w := by
      intro w
      rw [List.get?_eq_getElem?]
      exact List.getElem?_set_eq_of_lt w hlt
    cases v with
    | receiving =>
      rcases ht : s.tasks with _ | ⟨t, rest⟩
      · have e : stepWorker lib cl i s = { s with workers := s.workers.set i Worker.done } := by
          unfold stepWorker; rw [hg]; dsimp only; rw [ht]
        have m2 : movesLeft { s with workers := s.workers.set i Worker.done } i = 0 := by
          unfold movesLeft; dsimp only; rw [hset]
        rw [e, m2]
        exact Nat.zero_le _
      · have e : stepWorker lib cl i s =
            { s with tasks := rest, workers := s.workers.set i (Worker.selecting t) } := by
          unfold stepWorker; rw [hg]; dsimp only; rw [ht]
        have m1 : movesLeft s i = 4 * s.tasks.length + 1 := by unfold movesLeft; rw [hg]
        have m2 : movesLeft { s with
            tasks := rest,
            workers := s.workers.set i (Worker.selecting t) } i = 4 * rest.length + 4 := by
          unfold movesLeft; dsimp only; rw [hset]
        rw [e, m1, m2, ht, List.length_cons]
        omega
    | selecting t =>
      have m1 : movesLeft s i = 4 * s.tasks.length + 4 := by unfold movesLeft; rw [hg]
      by_cases hc : s.cancelled = true
      · have e : stepWorker lib cl i s = { s with workers := s.workers.set i Worker.done } := by
          unfold stepWorker; rw [hg]; dsimp only; rw [if_pos hc]
        have m2 : movesLeft { s with workers := s.workers.set i Worker.done } i = 0 := by
          unfold movesLeft; dsimp only; rw [hset]
        rw [e, m2]
        exact Nat.zero_le _
      · have e : stepWorker lib cl i s =
            { s with workers := s.workers.set i (Worker.probing t) } := by
          unfold stepWorker; rw [hg]; dsimp only; rw [if_neg hc]
        have m2 : movesLeft { s with workers := s.workers.set i (Worker.probing t) } i
            = 4 * s.tasks.length + 3 := by
          unfold movesLeft; dsimp only; rw [hset]
        rw [e, m1, m2]
        omega
    | probing t =>
      have m1 : movesLeft s i = 4 * s.tasks.length + 3 := by unfold movesLeft; rw [hg]
      have e : stepWorker lib cl i s = { s with
          client := (testEndpoint lib cl s.client s.clock t.url t.method).1,
          workers := s.workers.set i
            (Worker.appending (testEndpoint lib cl s.client s.clock t.url t.method).2) } := by
        unfold stepWorker; rw [hg]
      have m2 : movesLeft { s with
          client := (testEndpoint lib cl s.client s.clock t.url t.method).1,
          workers := s.workers.set i
            (Worker.appending (testEndpoint lib cl s.client s.clock t.url t.method).2) } i
            = 4 * s.tasks.length + 2 := by
        unfold movesLeft; dsimp only; rw [hset]
      rw [e, m1, m2]
      omega
    | appending r =>
      have m1 : movesLeft s i = 4 * s.tasks.length + 2 := by unfold movesLeft; rw [hg]
      have e : stepWorker lib cl i s = { s with
          results := s.results ++ [r], workers := s.workers.set i Worker.receiving } := by
        unfold stepWorker; rw [hg]
      have m2 : movesLeft { s with
          results := s.results ++ [r], workers := s.workers.set i Worker.receiving } i
            = 4 * s.tasks.length + 1 := by
        unfold movesLeft; dsimp only; rw [hset]
      rw [e, m1, m2]
      omega
    | done =>
      have e : stepWorker lib cl i s = s := by unfold stepWorker; rw [hg]
      have m1 : movesLeft s i = 0 := by unfold movesLeft; rw [hg]
      rw [e, m1]

theorem movesLeft_iterate {κ : Type} (lib : Lib) (cl : HTTPClient κ) (i n : Nat) :
    ∀ s : Scan κ, movesLeft s i ≤ n → movesLeft ((stepWorker lib cl i)^[n] s) i = 0 := by
  induction n with
  | zero => intro s hs; exact Nat.le_zero.mp hs
  | succ n ih =>
    intro s hs
    rw [Function.iterate_succ_apply]
    exact ih _ (le_trans (movesLeft_step lib cl i s) (by omega))

theorem movesLeft_le {κ : Type} (s : Scan κ) (i : Nat) :
    movesLeft s i ≤ 4 * s.tasks.length + 4 := by
  unfold movesLeft
  split <;> omega

theorem done_of_movesLeft {κ : Type} (s : Scan κ) (i : Nat) (hi : i < s.workers.length)
    (h : movesLeft s i = 0) : s.workers.get? i = some Worker.done := by
  unfold movesLeft at h
  split at h
  · next hn =>
    rw [List.get?_eq_getElem?] at hn
    exact absurd hi (by simpa using List.getElem?_eq_none_iff.mp hn)
  · next hd => exact hd
  all_goals omega

theorem done_stable {κ : Type} (lib : Lib) (cl : HTTPClient κ) (i j : Nat) (s : Scan κ)
    (h : s.workers.get? j = some Worker.done) :
    (stepWorker lib cl i s).workers.get? j = some Worker.done := by
  by_cases hij : i = j
  · subst hij
    have e : stepWorker lib cl i s = s := by unfold stepWorker; rw [h]
    rw [e]; exact h
  · have key : ∀ w, (s.workers.set i w).get? j = some Worker.done := by
      intro w
      rw [List.get?_eq_getElem?, List.getElem?_set_ne hij, ← List.get?_eq_getElem?]
      exact h
    unfold stepWorker
    split
    · exact h
    · split <;> exact key _
    · split <;> exact key _
    · exact key _
    · exact key _
    · exact h

theorem done_stable_iterate {κ : Type} (lib : Lib) (cl : HTTPClient κ) (i j n : Nat) :
    ∀ s : Scan κ, s.workers.get? j = some Worker.done →
      ((stepWorker lib cl i)^[n] s).workers.get? j = some Worker.done := by
  induction n with
  | zero => intro s hs; exact hs
  | succ n ih =>
    intro s hs
    rw [Function.iterate_succ_apply]
    exact ih _ (done_stable lib cl i j s hs)

theorem iterate_length {κ : Type} (lib : Lib) (cl : HTTPClient κ) (i n : Nat) :
    ∀ s : Scan κ, ((stepWorker lib cl i)^[n] s).workers.length = s.workers.length := by
  induction n with
  | zero => intro s; rfl
  | succ n ih =>
    intro s
    rw [Function.iterate_succ_apply, ih, stepWorker_length]

theorem foldl_finish_done {κ : Type} (lib : Lib) (cl : HTTPClient κ) (l : List Nat) :
    ∀ s : Scan κ, (∀ i ∈ l, i < s.workers.length) →
      (l.foldl (finishWorker lib cl) s).workers.length = s.workers.length ∧
      (∀ j, s.workers.get? j = some Worker.done →
        (l.foldl (finishWorker lib cl) s).workers.get? j = some Worker.done) ∧
      (∀ i ∈ l, (l.foldl (finishWorker lib cl) s).workers.get? i = some Worker.done) := by
  induction l with
  | nil => intro s _; exact ⟨rfl, fun _ h => h, fun i hi => absurd hi (List.not_mem_nil i)⟩
  | cons x rest ih =>
    intro s hl
    have hlen : (finishWorker lib cl s x).workers.length = s.workers.length :=
      iterate_length lib cl x _ s
    have hx : (finishWorker lib cl s x).workers.get? x = some Worker.done := by
      refine done_of_movesLeft _ x ?_ ?_
      · rw [hlen]; exact hl x (List.mem_cons_self _ _)
      · exact movesLeft_iterate lib cl x _ s (movesLeft_le s x)
    obtain ⟨i1, i2, i3⟩ := ih (finishWorker lib cl s x)
      (fun i hi => by rw [hlen]; exact hl i (List.mem_cons_of_mem _ hi))
    refine ⟨i1.trans hlen, ?_, ?_⟩
    · intro j hj
      exact i2 j (done_stable_iterate lib cl x j _ s hj)
    · intro i hi
      rcases List.mem_cons.mp hi with he | hm
      · rw [he]; exact i2 x hx
      · exact i3 i hm

theorem drain_all_done {κ : Type} (lib : Lib) (cl : HTTPClient κ) (s : Scan κ) :
    (drain lib cl s).workers.length = s.workers.length ∧
    ∀ w ∈ (drain lib cl s).workers, w = Worker.done := by
  obtain ⟨h1, -, h3⟩ := foldl_finish_done lib cl (List.range s.workers.length) s
    (fun i hi => List.mem_range.mp hi)
  refine ⟨h1, fun w hw => ?_⟩
  obtain ⟨n, hn, hget⟩ := List.getElem_of_mem hw
  have hn2 : n < s.workers.length := by
    have : (drain lib cl s).workers.length = s.workers.length := h1
    omega
  have := h3 n (List.mem_range.mpr hn2)
  have h4 : (drain lib cl s).workers.get? n = some w := by
    rw [List.get?_eq_getElem?, List.getElem?_eq_getElem hn, hget]
  have h5 : (drain lib cl s).workers.get? n = some Worker.done := this
  rw [h4] at h5
  exact Option.some.inj h5


theorem runEvents_length {κ : Type} (lib : Lib) (cl : HTTPClient κ) (sched : List Event) :
    ∀ s : Scan κ, (runEvents lib cl s sched).workers.length = s.workers.length := by
  induction sched with
  | nil => intro s; rfl
  | cons e rest ih =>
    intro s
    show (runEvents lib cl (applyEvent lib cl s e) rest).workers.length = _
    rw [ih]
    cases e with
    | step i => exact stepWorker_length lib cl i s
    | cancel => rfl
    | tick => rfl

theorem sum_holding_idle {β : Type} (g : BruteResult → β) (h : task → β) :
    ∀ l : List Worker, (∀ w ∈ l, w = Worker.done ∨ w = Worker.receiving) →
      (l.map (holding g h)).sum = 0 := by
  intro l
  induction l with
  | nil => intro _; rfl
  | cons x xs ih =>
    intro hl
    rw [List.map_cons, List.sum_cons, ih (fun w hw => hl w (List.mem_cons_of_mem _ hw))]
    rcases hl x (List.mem_cons_self _ _) with hx | hx <;> rw [hx] <;> rfl

theorem length_buildTasks (baseURL : String) (wordlist methods : List String) :
    (buildTasks baseURL wordlist methods).length = wordlist.length * methods.length := by
  induction wordlist with
  | nil => simp [buildTasks]
  | cons p rest ih =>
    simp only [buildTasks, List.length_append, List.length_map, List.length_cons, ih]
    rw [Nat.succ_mul, Nat.add_comm]

/-- The observations of the results of a scan are among those of the task queue, and
they are exactly those of the task queue when there is a worker and no cancellation. -/
theorem scan_account {β κ : Type} (lib : Lib) (cl : HTTPClient κ) (g : BruteResult → β)
    (h : task → β)
    (hg : ∀ k now t, g (testEndpoint lib cl k now t.url t.method).2 = h t)
    (k : κ) (ctxDone : Bool) (baseURL : String) (wordlist methods : List String)
    (concurrency : Int) (sched : List Event) :
    (((ScanWordlist lib cl k ctxDone baseURL wordlist methods concurrency sched).2.map g :
        List β) : Multiset β) ≤ ((buildTasks baseURL wordlist methods).map h : List β) ∧
    (1 ≤ concurrency → ctxDone = false → Event.cancel ∉ sched →
      (((ScanWordlist lib cl k ctxDone baseURL wordlist methods concurrency sched).2.map g :
        List β) : Multiset β) = ((buildTasks baseURL wordlist methods).map h : List β)) := by
  let s0 : Scan κ :=
    { tasks := buildTasks baseURL wordlist methods
      workers := List.replicate concurrency.toNat Worker.receiving
      client := k
      cancelled := ctxDone }
  have hres : (ScanWordlist lib cl k ctxDone baseURL wordlist methods concurrency sched).2
      = (drain lib cl (runEvents lib cl s0 sched)).results := rfl
  have h0 : account g h s0 = ((buildTasks baseURL wordlist methods).map h : List β) := by
    have hz : (s0.workers.map (holding g h)).sum = 0 :=
      sum_holding_idle g h _ (fun w hw => Or.inr (List.eq_of_mem_replicate hw))
    show (([] : List BruteResult).map g : Multiset β) + (s0.workers.map (holding g h)).sum
      + _ = _
    rw [hz]
    simp
  obtain ⟨r1, r2⟩ := account_runEvents lib cl g h hg sched s0
  obtain ⟨d1, d2, d3⟩ := account_drain lib cl g h hg (runEvents lib cl s0 sched)
  have hle : ((drain lib cl (runEvents lib cl s0 sched)).results.map g : Multiset β)
      ≤ account g h (drain lib cl (runEvents lib cl s0 sched)) := by
    unfold account
    rw [add_assoc]
    exact Multiset.le_add_right _ _
  rw [hres]
  refine ⟨?_, ?_⟩
  · rw [← h0]
    exact le_trans hle (le_trans d1 r1)
  · intro hconc hctx hsched
    obtain ⟨a1, a2⟩ := r2 hctx hsched
    have hacc := (d3 a2).trans (a1.trans h0)
    obtain ⟨l1, l2⟩ := drain_all_done lib cl (runEvents lib cl s0 sched)
    have hq : queueDrained (drain lib cl (runEvents lib cl s0 sched)) := by
      refine queueDrained_drain lib cl _ (queueDrained_runEvents lib cl sched s0 ?_)
      intro _ _ w hw
      rw [List.eq_of_mem_replicate hw]
      exact fun hh => by cases hh
    have hlen : 0 < (drain lib cl (runEvents lib cl s0 sched)).workers.length := by
      rw [l1, runEvents_length]
      show 0 < (List.replicate concurrency.toNat Worker.receiving).length
      rw [List.length_replicate]
      omega
    have htasks : (drain lib cl (runEvents lib cl s0 sched)).tasks = [] := by
      by_contra hne
      obtain ⟨w, hw⟩ := List.exists_mem_of_length_pos hlen
      exact hq (d2.trans a2) hne w hw (l2 w hw)
    have hz : ((drain lib cl (runEvents lib cl s0 sched)).workers.map (holding g h)).sum = 0 :=
      sum_holding_idle g h _ (fun w hw => Or.inl (l2 w hw))
    rw [← hacc]
    unfold account
    rw [hz, htasks]
    simp

end bruteforce

/-- C4, the claim as stated fails: with concurrency 0 no worker is started, and a
scan of one path with one method that is never cancelled returns no result. -/
theorem C4_counterexample :
    (bruteforce.ScanWordlist Example.lib Example.flaky () false "http://x/" ["a"] ["GET"] 0
      []).2.length ≠ ["a"].length * ["GET"].length := by
  decide

/-- C4 as amended: `ScanWordlist` returns at most len(wordlist) * len(methods) results,
and exactly that many when the concurrency is at least 1 and the context is never
cancelled. -/
theorem C4_result_count {κ : Type} (lib : Lib) (cl : HTTPClient κ) (k : κ) (ctxDone : Bool)
    (baseURL : String) (wordlist methods : List String) (concurrency : Int)
    (sched : List bruteforce.Event) :
    (bruteforce.ScanWordlist lib cl k ctxDone baseURL wordlist methods concurrency sched).2.length
      ≤ wordlist.length * methods.length ∧
    (1 ≤ concurrency → ctxDone = false → bruteforce.Event.cancel ∉ sched →
      (bruteforce.ScanWordlist lib cl k ctxDone baseURL wordlist methods concurrency
        sched).2.length = wordlist.length * methods.length) := by
  obtain ⟨h1, h2⟩ := bruteforce.scan_account lib cl (fun _ => ()) (fun _ => ())
    (fun _ _ _ => rfl) k ctxDone baseURL wordlist methods concurrency sched
  constructor
  · have := Multiset.card_le_card h1
    simpa [bruteforce.length_buildTasks] using this
  · intro hc hx hs
    have := congrArg Multiset.card (h2 hc hx hs)
    simpa [bruteforce.length_buildTasks] using this

/-- C4 as amended, at a concrete input: two paths, two methods, two workers, an
interleaving without cancellation, four results. -/
theorem C4_result_count_witness :
    (1 : Int) ≤ 2 ∧
    (bruteforce.ScanWordlist Example.lib Example.flaky () false "http://x/" ["a", "b"]
      ["GET", "POST"] 2 Example.interleaving).2.length = 4 :=
  ⟨by decide, (C4_result_count Example.lib Example.flaky () false "http://x/" ["a", "b"]
      ["GET", "POST"] 2 Example.interleaving).2 (by decide) rfl (by decide)⟩

/-- C5: with concurrency at least 1 and a context that is never cancelled, the (URL,
method) pairs of the results of `ScanWordlist` are, as a multiset, the pairs of the task
queue, so there are len(wordlist) * len(methods) results, one per pair. -/
theorem C5_each_pair_probed_once {κ : Type} (lib : Lib) (cl : HTTPClient κ) (k : κ)
    (baseURL : String) (wordlist methods : List String) (concurrency : Int)
    (sched : List bruteforce.Event)
    (hconc : 1 ≤ concurrency) (hsched : bruteforce.Event.cancel ∉ sched) :
    List.Perm
      ((bruteforce.ScanWordlist lib cl k false baseURL wordlist methods concurrency
        sched).2.map (fun r => (r.URL, r.Method)))
      ((bruteforce.buildTasks baseURL wordlist methods).map (fun t => (t.url, t.method))) ∧
    (bruteforce.ScanWordlist lib cl k false baseURL wordlist methods concurrency
      sched).2.length = wordlist.length * methods.length := by
  obtain ⟨-, h2⟩ := bruteforce.scan_account lib cl (fun r => (r.URL, r.Method))
    (fun t => (t.url, t.method))
    (fun k now t => by
      obtain ⟨hu, hm⟩ := bruteforce.testEndpoint_url_method lib cl k now t.url t.method
      show ((bruteforce.testEndpoint lib cl k now t.url t.method).2.URL,
        (bruteforce.testEndpoint lib cl k now t.url t.method).2.Method) = (t.url, t.method)
      rw [hu, hm])
    k false baseURL wordlist methods concurrency sched
  have hp := Multiset.coe_eq_coe.mp (h2 hconc rfl hsched)
  refine ⟨hp, ?_⟩
  have := hp.length_eq
  simpa [bruteforce.length_buildTasks] using this

/-- C5 at the input of the scenario: wordlist [a, b], methods [GET, POST], two workers;
the four results are the four pairs, here in the order in which the probes completed. -/
theorem C5_each_pair_probed_once_witness :
    (bruteforce.ScanWordlist Example.lib Example.flaky () false "http://x/" ["a", "b"]
      ["GET", "POST"] 2 Example.interleaving).2.map (fun r => (r.URL, r.Method))
      = [("http://x/a", "POST"), ("http://x/a", "GET"), ("http://x/b", "GET"),
         ("http://x/b", "POST")] ∧
    List.Perm
      ((bruteforce.ScanWordlist Example.lib Example.flaky () false "http://x/" ["a", "b"]
        ["GET", "POST"] 2 Example.interleaving).2.map (fun r => (r.URL, r.Method)))
      [("http://x/a", "GET"), ("http://x/a", "POST"), ("http://x/b", "GET"),
       ("http://x/b", "POST")] :=
  ⟨by decide, (C5_each_pair_probed_once Example.lib Example.flaky () "http://x/" ["a", "b"]
      ["GET", "POST"] 2 Example.interleaving (by decide) (by decide)).1⟩

namespace bruteforce

end bruteforce

namespace discovery

theorem grows_refl {κ : Type} (depth : Int) (c : Crawler κ) : grows depth c c :=
  ⟨rfl, rfl, rfl, rfl, [], (List.append_nil _).symm, fun e he => absurd he (List.not_mem_nil e)⟩

theorem grows_trans {κ : Type} {depth : Int} {c1 c2 c3 : Crawler κ}
    (h12 : grows depth c1 c2) (h23 : grows depth c2 c3) : grows depth c1 c3 := by
  obtain ⟨a1, a2, a3, a4, n1, a5, a6⟩ := h12
  obtain ⟨b1, b2, b3, b4, n2, b5, b6⟩ := h23
  refine ⟨b1.trans a1, b2.trans a2, b3.trans a3, b4.trans a4, n1 ++ n2, ?_, ?_⟩
  · rw [b5, a5, List.append_assoc]
  · intro e he
    rcases List.mem_append.mp he with h | h
    · exact a6 e h
    · exact b6 e h

theorem grows_append {κ : Type} (depth : Int) (c : Crawler κ) (url method source : String)
    (md : Metadata) (hs : source ≠ "direct") :
    grows depth c { c with endpoints := c.endpoints ++
      [{ URL := url, Method := method, Source := source, Depth := depth + 1,
         Metadata := md }] } :=
  ⟨rfl, rfl, rfl, rfl, _, rfl, fun x hx => by
    rw [List.mem_singleton.mp hx]; exact ⟨rfl, hs⟩⟩

theorem grows_foldl {κ α : Type} (depth : Int) (f : Crawler κ → α → Crawler κ)
    (hf : ∀ c x, grows depth c (f c x)) (l : List α) :
    ∀ c, grows depth c (l.foldl f c) := by
  induction l with
  | nil => intro c; exact grows_refl depth c
  | cons x xs ih => intro c; exact grows_trans (hf c x) (ih (f c x))

theorem recordLink_grows {κ : Type} (c : Crawler κ) (normalized : String) (depth : Int)
    (md : Metadata) : grows depth c (recordLink c normalized depth md) := by
  unfold recordLink
  split
  · exact grows_refl depth c
  · exact grows_append depth c _ _ _ _ (by decide)

theorem extractLinksWithTokenizer_grows {κ : Type} (lib : Lib) (c : Crawler κ)
    (htmlContent currentPath : String) (depth : Int) :
    grows depth c (extractLinksWithTokenizer lib c htmlContent currentPath depth) := by
  unfold extractLinksWithTokenizer
  refine grows_foldl depth _ ?_ _ c
  intro c t
  dsimp only
  split_ifs
  · refine grows_foldl depth _ ?_ _ c
    intro c a
    dsimp only
    split_ifs
    · exact grows_refl depth c
    · exact grows_refl depth c
    · exact recordLink_grows _ _ _ _
    · exact grows_refl depth c
  · exact grows_refl depth c

theorem extractLinks_grows {κ : Type} (lib : Lib) (c : Crawler κ)
    (htmlContent currentPath : String) (depth : Int) :
    grows depth c (extractLinks lib c htmlContent currentPath depth) := by
  unfold extractLinks
  split
  · exact extractLinksWithTokenizer_grows lib c htmlContent currentPath depth
  · refine grows_foldl depth _ ?_ _ c
    intro c s
    dsimp only
    split
    · exact grows_refl depth c
    · split_ifs
      · exact grows_refl depth c
      · exact grows_refl depth c
      · exact grows_refl depth c
      · exact recordLink_grows _ _ _ _

theorem extractForms_grows {κ : Type} (lib : Lib) (c : Crawler κ)
    (htmlContent currentPath : String) (depth : Int) :
    grows depth c (extractForms lib c htmlContent currentPath depth) := by
  unfold extractForms
  split
  · exact grows_refl depth c
  · refine grows_foldl depth _ ?_ _ c
    intro c s
    dsimp only
    split_ifs <;>
      first
      | exact grows_refl depth c
      | exact grows_append depth c _ _ _ _ (by decide)

theorem extractFromJS_grows {κ : Type} (lib : Lib) (c : Crawler κ)
    (jsContent currentPath : String) (depth : Int) :
    grows depth c (extractFromJS lib c jsContent currentPath depth) := by
  unfold extractFromJS
  refine grows_foldl depth _ ?_ _ c
  intro c pattern
  refine grows_foldl depth _ ?_ _ c
  intro c m
  dsimp only
  split_ifs <;>
    first
    | exact grows_refl depth c
    | exact grows_append depth c _ _ _ _ (by decide)

theorem crawlRecursive_zero {κ : Type} (lib : Lib) (cl : HTTPClient κ) (c : Crawler κ)
    (path : String) (depth : Int) :
    crawlRecursive lib cl 0 c path depth = (c, (c.endpoints, none)) := rfl

theorem crawlRecursive_succ {κ : Type} (lib : Lib) (cl : HTTPClient κ) (fuel : Nat)
    (c : Crawler κ) (path : String) (depth : Int) :
    crawlRecursive lib cl (fuel + 1) c path depth =
      match visit lib cl c path depth with
      | Visit.skip => (c, (c.endpoints, none))
      | Visit.failed c1 err => (c1, (c1.endpoints, some err))
      | Visit.page c1 =>
        ((children (fun c p d => (crawlRecursive lib cl fuel c p d).1) depth c1.endpoints c1),
         ((children (fun c p d => (crawlRecursive lib cl fuel c p d).1) depth c1.endpoints
            c1).endpoints, none)) := by
  rw [crawlRecursive]
  unfold visit
  split
  · rfl
  · split
    · rfl
    · unfold pageRequest
      dsimp only
      split
      · rfl
      · split
        · rfl
        · split <;> rfl

theorem foldl_client {κ α : Type} (f : Crawler κ → α → Crawler κ)
    (hf : ∀ (c : Crawler κ) (k : κ) (x : α),
      f { c with client := k } x = { f c x with client := k })
    (l : List α) :
    ∀ (c : Crawler κ) (k : κ),
      l.foldl f { c with client := k } = { l.foldl f c with client := k } := by
  induction l with
  | nil => intro c k; rfl
  | cons x xs ih =>
    intro c k
    rw [List.foldl_cons, List.foldl_cons, hf, ih]

theorem recordLink_client {κ : Type} (c : Crawler κ) (k : κ) (normalized : String)
    (depth : Int) (md : Metadata) :
    recordLink { c with client := k } normalized depth md
      = { recordLink c normalized depth md with client := k } := by
  unfold recordLink
  dsimp only
  split <;> rfl

theorem extractLinksWithTokenizer_client {κ : Type} (lib : Lib) (c : Crawler κ) (k : κ)
    (htmlContent currentPath : String) (depth : Int) :
    extractLinksWithTokenizer lib { c with client := k } htmlContent currentPath depth
      = { extractLinksWithTokenizer lib c htmlContent currentPath depth with client := k } := by
  unfold extractLinksWithTokenizer
  refine foldl_client _ ?_ _ c k
  intro c k t
  dsimp only
  split_ifs
  · refine foldl_client _ ?_ _ c k
    intro c k a
    dsimp only
    have hn : ∀ href, normalizeURL lib { c with client := k } href currentPath
        = normalizeURL lib c href currentPath := fun _ => rfl
    rw [hn]
    split_ifs
    · rfl
    · rfl
    · exact recordLink_client c k _ _ _
    · rfl
  · rfl

theorem extractLinks_client {κ : Type} (lib : Lib) (c : Crawler κ) (k : κ)
    (htmlContent currentPath : String) (depth : Int) :
    extractLinks lib { c with client := k } htmlContent currentPath depth
      = { extractLinks lib c htmlContent currentPath depth with client := k } := by
  unfold extractLinks
  split
  · exact extractLinksWithTokenizer_client lib c k htmlContent currentPath depth
  · refine foldl_client _ ?_ _ c k
    intro c k s
    dsimp only
    split
    · rfl
    · have hn : ∀ href, normalizeURL lib { c with client := k } href currentPath
          = normalizeURL lib c href currentPath := fun _ => rfl
      rw [hn]
      split_ifs
      · rfl
      · rfl
      · rfl
      · exact recordLink_client c k _ _ _

theorem extractForms_client {κ : Type} (lib : Lib) (c : Crawler κ) (k : κ)
    (htmlContent currentPath : String) (depth : Int) :
    extractForms lib { c with client := k } htmlContent currentPath depth
      = { extractForms lib c htmlContent currentPath depth with client := k } := by
  unfold extractForms
  split
  · rfl
  · refine foldl_client _ ?_ _ c k
    intro c k s
    have hn : ∀ href, normalizeURL lib { c with client := k } href currentPath
        = normalizeURL lib c href currentPath := fun _ => rfl
    dsimp only
    simp only [hn]
    split_ifs <;> rfl

theorem extractFromJS_client {κ : Type} (lib : Lib) (c : Crawler κ) (k : κ)
    (jsContent currentPath : String) (depth : Int) :
    extractFromJS lib { c with client := k } jsContent currentPath depth
      = { extractFromJS lib c jsContent currentPath depth with client := k } := by
  unfold extractFromJS
  refine foldl_client _ ?_ _ c k
  intro c k pattern
  refine foldl_client _ ?_ _ c k
  intro c k m
  have hn : ∀ href, normalizeURL lib { c with client := k } href currentPath
      = normalizeURL lib c href currentPath := fun _ => rfl
  dsimp only
  simp only [hn]
  split_ifs <;> rfl

theorem harvest_client {κ : Type} (lib : Lib) (c : Crawler κ) (k : κ)
    (bodyStr path : String) (depth : Int) :
    harvest lib { c with client := k } bodyStr path depth
      = { harvest lib c bodyStr path depth with client := k } := by
  unfold harvest
  dsimp only
  rw [extractLinks_client, extractForms_client, extractFromJS_client]
  rfl

/-- What `harvest` does: it appends endpoints at `depth + 1`, none of them direct, and
then the direct endpoint at `depth`; nothing else changes. -/
theorem harvest_spec {κ : Type} (lib : Lib) (c : Crawler κ) (bodyStr path : String)
    (depth : Int) :
    (harvest lib c bodyStr path depth).client = c.client ∧
    (harvest lib c bodyStr path depth).maxDepth = c.maxDepth ∧
    (harvest lib c bodyStr path depth).visited = c.visited ∧
    (harvest lib c bodyStr path depth).baseURL = c.baseURL ∧
    ∃ new, (harvest lib c bodyStr path depth).endpoints = c.endpoints ++ new ++
        [{ URL := resolvePath lib c path, Method := "GET", Source := "direct",
           Depth := depth }] ∧
      ∀ e ∈ new, e.Depth = depth + 1 ∧ e.Source ≠ "direct" := by
  obtain ⟨a1, a2, a3, a4, new, a5, a6⟩ :=
    grows_trans (grows_trans (extractLinks_grows lib c bodyStr path depth)
      (extractForms_grows lib _ bodyStr path depth))
      (extractFromJS_grows lib _ bodyStr path depth)
  refine ⟨a1, a2, a3, a4, new, ?_, a6⟩
  show _ ++ _ = _
  rw [a5]

/-- The four ways a call of `crawlRecursive` goes before its child calls. -/
theorem visit_cases {κ : Type} (lib : Lib) (cl : HTTPClient κ) (c : Crawler κ)
    (path : String) (depth : Int) :
    visit lib cl c path depth = Visit.skip ∨
    (∃ err, visit lib cl c path depth
        = Visit.failed { c with visited := path :: c.visited } err) ∨
    (∃ req err, pageRequest lib (resolvePath lib c path) = Except.ok req ∧
      visit lib cl c path depth
        = Visit.failed
            { c with visited := path :: c.visited, client := (cl.Do c.client req).1 } err) ∨
    (∃ req resp bodyStr, ¬ depth > c.maxDepth ∧ path ∉ c.visited ∧
      pageRequest lib (resolvePath lib c path) = Except.ok req ∧
      (cl.Do c.client req).2 = Except.ok resp ∧ resp.Body = Except.ok bodyStr ∧
      visit lib cl c path depth
        = Visit.page (harvest lib
            { c with visited := path :: c.visited, client := (cl.Do c.client req).1 }
            bodyStr path depth)) := by
  unfold visit
  split
  · exact Or.inl rfl
  · split
    · exact Or.inl rfl
    · next h1 h2 =>
      have hr : resolvePath lib { c with visited := path :: c.visited } path
          = resolvePath lib c path := rfl
      dsimp only
      rw [hr]
      rcases hp : pageRequest lib (resolvePath lib c path) with err | req
      · exact Or.inr (Or.inl ⟨err, rfl⟩)
      · dsimp only
        rcases hd : (cl.Do c.client req).2 with err | resp
        · exact Or.inr (Or.inr (Or.inl ⟨req, err, rfl, rfl⟩))
        · dsimp only
          rcases hb : resp.Body with err | bodyStr
          · exact Or.inr (Or.inr (Or.inl ⟨req, err, rfl, rfl⟩))
          · exact Or.inr (Or.inr (Or.inr ⟨req, resp, bodyStr, h1, h2, rfl, hd, hb, rfl⟩))

theorem children_invariant {κ : Type} (P : Crawler κ → Prop)
    (rec : Crawler κ → String → Int → Crawler κ)
    (hrec : ∀ c p d, P c → P (rec c p d)) (depth : Int) (l : List Endpoint) :
    ∀ c, P c → P (children rec depth l c) := by
  unfold children
  induction l with
  | nil => intro c hc; exact hc
  | cons e es ih =>
    intro c hc
    rw [List.foldl_cons]
    refine ih _ ?_
    split_ifs
    · exact hrec _ _ _ hc
    · exact hc

/-- The endpoint list `crawlRecursive` returns is the list the crawler holds afterwards. -/
theorem crawlRecursive_returns {κ : Type} (lib : Lib) (cl : HTTPClient κ) (fuel : Nat)
    (c : Crawler κ) (path : String) (depth : Int) :
    (crawlRecursive lib cl fuel c path depth).2.1
      = (crawlRecursive lib cl fuel c path depth).1.endpoints := by
  cases fuel with
  | zero => rfl
  | succ fuel =>
    rw [crawlRecursive_succ]
    split <;> rfl

theorem depthBounded_crawlRecursive {κ : Type} (lib : Lib) (cl : HTTPClient κ) (fuel : Nat) :
    ∀ (c : Crawler κ) (path : String) (depth : Int), depthBounded c →
      depthBounded (crawlRecursive lib cl fuel c path depth).1 := by
  induction fuel with
  | zero => intro c path depth hc; exact hc
  | succ fuel ih =>
    intro c path depth hc
    rw [crawlRecursive_succ]
    rcases visit_cases lib cl c path depth with h | ⟨err, h⟩ | ⟨req, err, -, h⟩ |
      ⟨req, resp, bodyStr, hd, -, -, -, -, h⟩
    · rw [h]; exact hc
    · rw [h]; exact hc
    · rw [h]; exact hc
    · rw [h]
      dsimp only
      refine children_invariant depthBounded _ (fun c p d hc => ih c p d hc) depth _ _ ?_
      obtain ⟨-, a2, -, -, new, a5, a6⟩ := harvest_spec lib
        { c with visited := path :: c.visited, client := (cl.Do c.client req).1 }
        bodyStr path depth
      intro e he
      rw [a5] at he
      rw [a2]
      have hle : depth ≤ c.maxDepth := not_lt.mp hd
      rcases List.mem_append.mp he with he | he
      · rcases List.mem_append.mp he with he | he
        · exact hc e he
        · obtain ⟨e1, e2⟩ := a6 e he
          exact ⟨by show e.Depth ≤ c.maxDepth + 1; omega, fun hs => absurd hs e2⟩
      · rw [List.mem_singleton.mp he]
        exact ⟨by show depth ≤ c.maxDepth + 1; omega, fun _ => hle⟩

theorem depthBounded_Crawl {κ : Type} (lib : Lib) (cl : HTTPClient κ) (c : Crawler κ)
    (baseURL : String) (hc : depthBounded c) :
    depthBounded (Crawl lib cl c baseURL).1 := by
  unfold Crawl
  split
  · exact hc
  · exact depthBounded_crawlRecursive lib cl _ _ _ _ hc

theorem maxDepth_crawlRecursive {κ : Type} (lib : Lib) (cl : HTTPClient κ) (fuel : Nat) :
    ∀ (c : Crawler κ) (path : String) (depth : Int),
      (crawlRecursive lib cl fuel c path depth).1.maxDepth = c.maxDepth := by
  induction fuel with
  | zero => intro c path depth; rfl
  | succ fuel ih =>
    intro c path depth
    rw [crawlRecursive_succ]
    rcases visit_cases lib cl c path depth with h | ⟨err, h⟩ | ⟨req, err, -, h⟩ |
      ⟨req, resp, bodyStr, -, -, -, -, -, h⟩
    · rw [h]
    · rw [h]
    · rw [h]
    · rw [h]
      dsimp only
      obtain ⟨-, a2, -⟩ := harvest_spec lib
        { c with visited := path :: c.visited, client := (cl.Do c.client req).1 }
        bodyStr path depth
      exact children_invariant (fun x => x.maxDepth = c.maxDepth) _
        (fun x p d hx => (ih x p d).trans hx) depth _ _ a2

theorem maxDepth_Crawl {κ : Type} (lib : Lib) (cl : HTTPClient κ) (c : Crawler κ)
    (baseURL : String) : (Crawl lib cl c baseURL).1.maxDepth = c.maxDepth := by
  unfold Crawl
  split
  · rfl
  · exact maxDepth_crawlRecursive lib cl _ _ _ _

theorem Crawl_returns {κ : Type} (lib : Lib) (cl : HTTPClient κ) (c : Crawler κ)
    (baseURL : String) :
    (Crawl lib cl c baseURL).2.1 = [] ∨
    (Crawl lib cl c baseURL).2.1 = (Crawl lib cl c baseURL).1.endpoints := by
  unfold Crawl
  split
  · exact Or.inl rfl
  · exact Or.inr (crawlRecursive_returns lib cl _ _ _ _)

theorem Reached_spec {κ : Type} (lib : Lib) (cl : HTTPClient κ) (d : Int) (c : Crawler κ)
    (h : Reached lib cl d c) : c.maxDepth = d ∧ depthBounded c := by
  induction h with
  | new k => exact ⟨rfl, fun e he => absurd he (List.not_mem_nil e)⟩
  | crawl c baseURL _ ih =>
    exact ⟨(maxDepth_Crawl lib cl c baseURL).trans ih.1, depthBounded_Crawl lib cl c baseURL ih.2⟩
  | clear c _ ih => exact ⟨ih.1, fun e he => absurd he (List.not_mem_nil e)⟩

end discovery

/-- C2, the claim as stated fails: with max depth 0, the root page of the example
site has one anchor, and the list `Crawl` returns holds its link endpoint (and the
javascript endpoint of the quoted path) at depth 1. -/
theorem C2_counterexample :
    (discovery.Crawl Example.lib Example.site (discovery.NewCrawler () 0) "http://x/").2.1
      = [{ URL := "http://x/a", Method := "GET", Source := "link", Depth := 1,
           Metadata := Metadata.text "a" },
         { URL := "http://x/a", Method := "GET", Source := "javascript", Depth := 1,
           Metadata := Metadata.pattern (discovery.patterns.getD 8 "") },
         { URL := "http://x/", Method := "GET", Source := "direct", Depth := 0 }] ∧
    ∃ e ∈ (discovery.Crawl Example.lib Example.site (discovery.NewCrawler () 0)
        "http://x/").2.1, e.Depth > 0 := by
  decide

/-- C2 as amended: for every max depth d, on a crawler that is new or was reached by
calls of `Crawl` and `Clear`, every endpoint in the list `Crawl` returns has depth at
most d + 1, and every endpoint with source "direct" has depth at most d. -/
theorem C2_depth_bound {κ : Type} (lib : Lib) (cl : HTTPClient κ) (d : Int)
    (c : discovery.Crawler κ) (baseURL : String) (hc : discovery.Reached lib cl d c) :
    ∀ e ∈ (discovery.Crawl lib cl c baseURL).2.1,
      e.Depth ≤ d + 1 ∧ (e.Source = "direct" → e.Depth ≤ d) := by
  obtain ⟨hm, hb⟩ := discovery.Reached_spec lib cl d c hc
  have hb2 := discovery.depthBounded_Crawl lib cl c baseURL hb
  have hm2 := (discovery.maxDepth_Crawl lib cl c baseURL).trans hm
  intro e he
  rcases discovery.Crawl_returns lib cl c baseURL with h | h
  · rw [h] at he
    exact absurd he (List.not_mem_nil e)
  · rw [h] at he
    have := hb2 e he
    rw [hm2] at this
    exact this

/-- C2 as amended, at a concrete input: on a new crawler of max depth 0 the link
endpoint that `Crawl` returns for the example site lies at depth 1 = 0 + 1. -/
theorem C2_depth_bound_witness :
    ({ URL := "http://x/a", Method := "GET", Source := "link", Depth := 1,
       Metadata := Metadata.text "a" } : Endpoint)
      ∈ (discovery.Crawl Example.lib Example.site (discovery.NewCrawler () 0) "http://x/").2.1 ∧
    ({ URL := "http://x/a", Method := "GET", Source := "link", Depth := 1,
       Metadata := Metadata.text "a" } : Endpoint).Depth ≤ 0 + 1 :=
  ⟨by decide,
   (C2_depth_bound Example.lib Example.site 0 (discovery.NewCrawler () 0) "http://x/"
      (discovery.Reached.new ()) _ (by decide)).1⟩

namespace discovery

theorem children_noop {κ : Type} (rec : Crawler κ → String → Int → Crawler κ) (depth : Int)
    (l : List Endpoint) (h : ∀ e ∈ l, ¬ (e.Depth = depth ∧ e.Source = "link")) :
    ∀ c, children rec depth l c = c := by
  unfold children
  induction l with
  | nil => intro c; rfl
  | cons e es ih =>
    intro c
    rw [List.foldl_cons, if_neg (h e (List.mem_cons_self _ _))]
    exact ih (fun x hx => h x (List.mem_cons_of_mem _ hx)) c

/-- A call of `crawlRecursive` at a depth at which the crawler holds no link endpoint
starts no child call: it hands at most one request to the client. -/
theorem crawlRecursive_single {κ : Type} (lib : Lib) (cl : HTTPClient κ) (fuel : Nat)
    (c : Crawler κ) (path : String) (depth : Int)
    (hno : ∀ e ∈ c.endpoints, ¬ (e.Depth = depth ∧ e.Source = "link")) :
    (crawlRecursive lib cl fuel c path depth).1.client = c.client ∨
    ∃ req, pageRequest lib (resolvePath lib c path) = Except.ok req ∧
      (crawlRecursive lib cl fuel c path depth).1.client = (cl.Do c.client req).1 := by
  cases fuel with
  | zero => exact Or.inl rfl
  | succ fuel =>
    rw [crawlRecursive_succ]
    rcases visit_cases lib cl c path depth with h | ⟨err, h⟩ | ⟨req, err, hreq, h⟩ |
      ⟨req, resp, bodyStr, -, -, hreq, -, -, h⟩
    · rw [h]; exact Or.inl rfl
    · rw [h]; exact Or.inl rfl
    · rw [h]; exact Or.inr ⟨req, hreq, rfl⟩
    · rw [h]
      dsimp only
      obtain ⟨a1, -, -, -, new, a5, a6⟩ := harvest_spec lib
        { c with visited := path :: c.visited, client := (cl.Do c.client req).1 }
        bodyStr path depth
      rw [children_noop]
      · exact Or.inr ⟨req, hreq, a1⟩
      · intro e he
        rw [a5] at he
        rcases List.mem_append.mp he with he | he
        · rcases List.mem_append.mp he with he | he
          · exact hno e he
          · intro hh
            have := (a6 e he).1
            omega
        · rw [List.mem_singleton.mp he]
          exact fun hh => absurd hh.2 (by show ¬ ("direct" : String) = "link"; decide)

/-- One `Crawl` on a crawler that holds no endpoint adds at most one request to the
record of the client. -/
theorem Crawl_single {κ : Type} (lib : Lib) (cl : HTTPClient κ)
    (c : Crawler (κ × List Request)) (baseURL : String) (hc : c.endpoints = []) :
    (Crawl lib (recording cl) c baseURL).1.client.2 = c.client.2 ∨
    ∃ req, (Crawl lib (recording cl) c baseURL).1.client.2 = c.client.2 ++ [req] := by
  unfold Crawl
  split
  · exact Or.inl rfl
  · next parsedURL _ =>
    rcases crawlRecursive_single lib (recording cl) (c.maxDepth + 1).toNat
      { c with baseURL := parsedURL } "/" 0
      (fun e he => by rw [hc] at he; exact absurd he (List.not_mem_nil e)) with h | ⟨req, -, h⟩
    · exact Or.inl (congrArg Prod.snd h)
    · exact Or.inr ⟨req, congrArg Prod.snd h⟩

end discovery

/-- C1, the code at a failing input: max depth 1, the root page of the example site is
fetched and holds an anchor whose href `/a` normalises to the same-host URL
`http://x/a`, which is not visited and whose fetch would succeed; yet `Crawl` hands the
client the root URL only, and the list it returns has the link endpoint and the
javascript endpoint of `/a` at depth 1 and the direct endpoint of the root, no direct
endpoint for `http://x/a`. -/
theorem C1_link_not_followed :
    discovery.normalizeURL Example.lib
      ({ client := (), maxDepth := 1,
         baseURL := { Scheme := "http", Host := "x", Path := "/" } } : discovery.Crawler Unit)
      "/a" "/" = "http://x/a" ∧
    httpclient.failed (Example.site.Do () { Method := "GET", URL := "http://x/a" }).2 = false ∧
    (discovery.Crawl Example.lib (recording Example.site) (discovery.NewCrawler ((), []) 1)
      "http://x/").1.client.2.map Request.URL = ["http://x/"] ∧
    (discovery.Crawl Example.lib (recording Example.site) (discovery.NewCrawler ((), []) 1)
      "http://x/").2
      = ([{ URL := "http://x/a", Method := "GET", Source := "link", Depth := 1,
            Metadata := Metadata.text "a" },
          { URL := "http://x/a", Method := "GET", Source := "javascript", Depth := 1,
            Metadata := Metadata.pattern (discovery.patterns.getD 8 "") },
          { URL := "http://x/", Method := "GET", Source := "direct", Depth := 0 }], none) := by
  decide

/-- C3: in one `Crawl` on a new crawler, and in one `Crawl` on a cleared crawler, the
URLs of the requests handed to the client are pairwise distinct. -/
theorem C3_no_url_fetched_twice {κ : Type} (lib : Lib) (cl : HTTPClient κ) (k : κ) (d : Int)
    (c : discovery.Crawler (κ × List Request)) (baseURL : String) :
    ((discovery.Crawl lib (recording cl) (discovery.NewCrawler (k, []) d)
      baseURL).1.client.2.map Request.URL).Nodup ∧
    ∃ new, (discovery.Crawl lib (recording cl) (discovery.Clear c) baseURL).1.client.2
        = c.client.2 ++ new ∧ (new.map Request.URL).Nodup := by
  constructor
  · rcases discovery.Crawl_single lib cl (discovery.NewCrawler (k, []) d) baseURL rfl
      with h | ⟨req, h⟩
    · rw [h]; exact List.nodup_nil
    · rw [h]; exact List.nodup_singleton _
  · rcases discovery.Crawl_single lib cl (discovery.Clear c) baseURL rfl with h | ⟨req, h⟩
    · exact ⟨[], by rw [h]; exact (List.append_nil _).symm, List.nodup_nil⟩
    · exact ⟨[req], h, List.nodup_singleton _⟩

namespace discovery

theorem sameButClient_iff {κ : Type} (c1 c2 : Crawler κ) :
    sameButClient c1 c2 ↔ c2 = { c1 with client := c2.client } := by
  constructor
  · rintro ⟨h1, h2, h3, h4⟩
    cases c1
    cases c2
    simp only at h1 h2 h3 h4
    subst h1 h2 h3 h4
    rfl
  · intro h
    rw [h]
    exact ⟨rfl, rfl, rfl, rfl⟩

theorem visit_static {κ : Type} (lib : Lib) (cl : HTTPClient κ)
    (hstatic : ∀ k1 k2 req, (cl.Do k1 req).2 = (cl.Do k2 req).2)
    (c : Crawler κ) (k : κ) (path : String) (depth : Int) :
    Visit.alike (visit lib cl c path depth) (visit lib cl { c with client := k } path depth) := by
  unfold visit
  dsimp only
  have hr : ∀ k0, resolvePath lib
      ({ client := k0, maxDepth := c.maxDepth, visited := path :: c.visited,
         baseURL := c.baseURL, endpoints := c.endpoints } : Crawler κ) path
      = resolvePath lib c path := fun _ => rfl
  rw [hr, hr]
  split_ifs
  · trivial
  · trivial
  · rcases pageRequest lib (resolvePath lib c path) with err | req
    · exact ⟨rfl, rfl, rfl, rfl, rfl⟩
    · dsimp only
      have hs := hstatic c.client k req
      rcases hd1 : cl.Do c.client req with ⟨a1, r1⟩
      rcases hd2 : cl.Do k req with ⟨a2, r2⟩
      rw [hd1, hd2] at hs
      dsimp only at hs
      subst hs
      dsimp only
      cases r1 with
      | error err => exact ⟨rfl, rfl, rfl, rfl, rfl⟩
      | ok resp =>
        dsimp only
        cases resp.Body with
        | error err => exact ⟨rfl, rfl, rfl, rfl, rfl⟩
        | ok bodyStr =>
          dsimp only
          show sameButClient _ _
          rw [sameButClient_iff]
          have := harvest_client lib
            ({ client := a1, maxDepth := c.maxDepth, visited := path :: c.visited,
               baseURL := c.baseURL, endpoints := c.endpoints } : Crawler κ) a2 bodyStr path depth
          rw [this]

theorem children_static {κ : Type} (rec : Crawler κ → String → Int → Crawler κ)
    (hrec : ∀ a b p d, sameButClient a b → sameButClient (rec a p d) (rec b p d))
    (depth : Int) (l : List Endpoint) :
    ∀ c1 c2, sameButClient c1 c2 →
      sameButClient (children rec depth l c1) (children rec depth l c2) := by
  unfold children
  induction l with
  | nil => intro c1 c2 h; exact h
  | cons e es ih =>
    intro c1 c2 h
    rw [List.foldl_cons, List.foldl_cons]
    refine ih _ _ ?_
    split_ifs
    · exact hrec _ _ _ _ h
    · exact h

/-- Against a target whose answer depends only on the request, `crawlRecursive` returns
the same list and error on crawlers that differ at most in the state of the client. -/
theorem crawlRecursive_static {κ : Type} (lib : Lib) (cl : HTTPClient κ)
    (hstatic : ∀ k1 k2 req, (cl.Do k1 req).2 = (cl.Do k2 req).2) (fuel : Nat) :
    ∀ (c1 c2 : Crawler κ) (path : String) (depth : Int), sameButClient c1 c2 →
      sameButClient (crawlRecursive lib cl fuel c1 path depth).1
        (crawlRecursive lib cl fuel c2 path depth).1 ∧
      (crawlRecursive lib cl fuel c1 path depth).2
        = (crawlRecursive lib cl fuel c2 path depth).2 := by
  induction fuel with
  | zero =>
    intro c1 c2 path depth h
    exact ⟨h, by rw [crawlRecursive_zero, crawlRecursive_zero]; exact congrArg (·, none) h.2.2.2⟩
  | succ fuel ih =>
    intro c1 c2 path depth h
    have h2 := (sameButClient_iff c1 c2).mp h
    have hv := visit_static lib cl hstatic c1 c2.client path depth
    rw [← h2] at hv
    rw [crawlRecursive_succ, crawlRecursive_succ]
    rcases hv1 : visit lib cl c1 path depth with _ | ⟨a, e1⟩ | a <;>
      rcases hv2 : visit lib cl c2 path depth with _ | ⟨b, e2⟩ | b <;>
      rw [hv1, hv2] at hv <;> try exact absurd hv id
    · exact ⟨h, congrArg (·, none) h.2.2.2⟩
    · obtain ⟨he, hab⟩ := hv
      subst he
      exact ⟨hab, congrArg (·, some e1) hab.2.2.2⟩
    · have hab : sameButClient a b := hv
      dsimp only
      have hch := children_static (fun c p d => (crawlRecursive lib cl fuel c p d).1)
        (fun x y p d hxy => (ih x y p d hxy).1) depth a.endpoints a b hab
      rw [← hab.2.2.2]
      exact ⟨hch, congrArg (·, none) hch.2.2.2⟩

end discovery

/-- C10: against a static target (the outcome of a request does not depend on the
state of the client), on every crawler state, `Clear` followed by `Crawl` returns the
endpoint list and the error that `Crawl` returns on a crawler newly constructed with
the same max depth. -/
theorem C10_clear_then_crawl {κ : Type} (lib : Lib) (cl : HTTPClient κ)
    (c : discovery.Crawler κ) (k : κ) (baseURL : String)
    (hstatic : ∀ k1 k2 req, (cl.Do k1 req).2 = (cl.Do k2 req).2) :
    (discovery.Crawl lib cl (discovery.Clear c) baseURL).2
      = (discovery.Crawl lib cl (discovery.NewCrawler k c.maxDepth) baseURL).2 := by
  unfold discovery.Crawl
  split
  · rfl
  · next parsedURL _ =>
    exact (discovery.crawlRecursive_static lib cl hstatic _
      { discovery.Clear c with baseURL := parsedURL }
      { discovery.NewCrawler k c.maxDepth with baseURL := parsedURL } "/" 0
      ⟨rfl, rfl, rfl, rfl⟩).2

/-- C10 at a concrete input: the example site is crawled, the crawler is cleared and
crawls again, and returns what a new crawler returns. -/
theorem C10_clear_then_crawl_witness :
    (discovery.Crawl Example.lib Example.site
      (discovery.Clear
        (discovery.Crawl Example.lib Example.site (discovery.NewCrawler () 1) "http://x/").1)
      "http://x/").2
      = (discovery.Crawl Example.lib Example.site (discovery.NewCrawler () 1) "http://x/").2 :=
  C10_clear_then_crawl Example.lib Example.site
    (discovery.Crawl Example.lib Example.site (discovery.NewCrawler () 1) "http://x/").1 ()
    "http://x/" (fun _ _ _ => rfl)

namespace discovery

theorem children_congr {κ : Type} (P : Crawler κ → Prop)
    (rec1 rec2 : Crawler κ → String → Int → Crawler κ) (depth : Int)
    (hP : ∀ x p, P x → P (rec1 x p (depth + 1)))
    (heq : ∀ x p, P x → rec1 x p (depth + 1) = rec2 x p (depth + 1))
    (l : List Endpoint) :
    ∀ c, P c → children rec1 depth l c = children rec2 depth l c := by
  unfold children
  induction l with
  | nil => intro c _; rfl
  | cons e es ih =>
    intro c hc
    rw [List.foldl_cons, List.foldl_cons]
    split_ifs
    · rw [← heq c _ hc]
      exact ih _ (hP c _ hc)
    · exact ih _ hc

theorem crawlRecursive_beyond {κ : Type} (lib : Lib) (cl : HTTPClient κ) (fuel : Nat)
    (c : Crawler κ) (path : String) (depth : Int) (h : depth > c.maxDepth) :
    crawlRecursive lib cl fuel c path depth = (c, (c.endpoints, none)) := by
  cases fuel with
  | zero => rfl
  | succ fuel =>
    have hv : visit lib cl c path depth = Visit.skip := by
      unfold visit
      rw [if_pos h]
    rw [crawlRecursive_succ, hv]

theorem crawlRecursive_fuel_eq {κ : Type} (lib : Lib) (cl : HTTPClient κ) (f1 : Nat) :
    ∀ (f2 : Nat) (c : Crawler κ) (path : String) (depth : Int),
      (c.maxDepth + 1 - depth).toNat ≤ f1 → (c.maxDepth + 1 - depth).toNat ≤ f2 →
      crawlRecursive lib cl f1 c path depth = crawlRecursive lib cl f2 c path depth := by
  induction f1 with
  | zero =>
    intro f2 c path depth h1 _
    have hd : depth > c.maxDepth := by omega
    rw [crawlRecursive_beyond lib cl 0 c path depth hd,
      crawlRecursive_beyond lib cl f2 c path depth hd]
  | succ n ih =>
    intro f2 c path depth h1 h2
    cases f2 with
    | zero =>
      have hd : depth > c.maxDepth := by omega
      rw [crawlRecursive_beyond lib cl (n + 1) c path depth hd,
        crawlRecursive_beyond lib cl 0 c path depth hd]
    | succ m =>
      rw [crawlRecursive_succ, crawlRecursive_succ]
      rcases visit_cases lib cl c path depth with h | ⟨err, h⟩ | ⟨req, err, -, h⟩ |
        ⟨req, resp, bodyStr, hd, -, -, -, -, h⟩
      · rw [h]
      · rw [h]
      · rw [h]
      · rw [h]
        dsimp only
        obtain ⟨-, a2, -⟩ := harvest_spec lib
          { c with visited := path :: c.visited, client := (cl.Do c.client req).1 }
          bodyStr path depth
        have hle : depth ≤ c.maxDepth := not_lt.mp hd
        have key := children_congr (fun x => x.maxDepth = c.maxDepth)
          (fun c p d => (crawlRecursive lib cl n c p d).1)
          (fun c p d => (crawlRecursive lib cl m c p d).1) depth
          (fun x p hx => (maxDepth_crawlRecursive lib cl n x p (depth + 1)).trans hx)
          (fun x p hx => by
            have hx2 : x.maxDepth = c.maxDepth := hx
            show (crawlRecursive lib cl n x p (depth + 1)).1
              = (crawlRecursive lib cl m x p (depth + 1)).1
            rw [ih m x p (depth + 1) (by rw [hx2]; omega) (by rw [hx2]; omega)])
          (harvest lib
            { c with visited := path :: c.visited, client := (cl.Do c.client req).1 }
            bodyStr path depth).endpoints _ a2
        rw [key]

/-- The nesting bound of `crawlRecursive` is met by `maxDepth + 1 - depth` levels: more
fuel gives the same crawler, endpoint list and error. -/
theorem crawlRecursive_fuel {κ : Type} (lib : Lib) (cl : HTTPClient κ) (fuel : Nat)
    (c : Crawler κ) (path : String) (depth : Int)
    (h : (c.maxDepth + 1 - depth).toNat ≤ fuel) :
    crawlRecursive lib cl fuel c path depth
      = crawlRecursive lib cl (c.maxDepth + 1 - depth).toNat c path depth :=
  crawlRecursive_fuel_eq lib cl fuel _ c path depth h (le_refl _)

/-- The fuel `Crawl` passes is enough: any larger amount gives the same outcome. -/
theorem Crawl_fuel {κ : Type} (lib : Lib) (cl : HTTPClient κ) (c : Crawler κ)
    (baseURL : String) (parsedURL : URL) (extra : Nat)
    (h : lib.Parse baseURL = Except.ok parsedURL) :
    Crawl lib cl c baseURL
      = crawlRecursive lib cl ((c.maxDepth + 1).toNat + extra)
          { c with baseURL := parsedURL } "/" 0 := by
  unfold Crawl
  rw [h]
  dsimp only
  exact crawlRecursive_fuel_eq lib cl _ _ _ "/" 0 (by simp) (by simp)

end discovery

namespace discovery

theorem visit_skip_iff {κ : Type} (lib : Lib) (cl : HTTPClient κ) (c : Crawler κ)
    (path : String) (depth : Int) :
    visit lib cl c path depth = Visit.skip ↔ (depth > c.maxDepth ∨ path ∈ c.visited) := by
  constructor
  · intro h
    by_contra hn
    have h1 : ¬ depth > c.maxDepth := fun x => hn (Or.inl x)
    have h2 : path ∉ c.visited := fun x => hn (Or.inr x)
    rcases visit_cases lib cl c path depth with h0 | ⟨err, h0⟩ | ⟨req, err, -, h0⟩ |
      ⟨req, resp, bodyStr, -, -, -, -, -, h0⟩
    · unfold visit at h0
      rw [if_neg h1, if_neg h2] at h0
      dsimp only at h0
      split at h0
      · cases h0
      · split at h0
        · cases h0
        · split at h0 <;> cases h0
    · rw [h] at h0; cases h0
    · rw [h] at h0; cases h0
    · rw [h] at h0; cases h0
  · intro h
    unfold visit
    rcases h with h | h
    · rw [if_pos h]
    · by_cases h1 : depth > c.maxDepth
      · rw [if_pos h1]
      · rw [if_neg h1, if_pos h]

/-- A call beyond the maximum depth or on a visited path changes nothing, whatever the
nesting bound, and returns the endpoint list with no error. -/
theorem crawlRecursive_skip {κ : Type} (lib : Lib) (cl : HTTPClient κ) (fuel : Nat)
    (c : Crawler κ) (path : String) (depth : Int)
    (h : depth > c.maxDepth ∨ path ∈ c.visited) :
    crawlRecursive lib cl fuel c path depth = (c, (c.endpoints, none)) := by
  cases fuel with
  | zero => rfl
  | succ fuel =>
    rw [crawlRecursive_succ, (visit_skip_iff lib cl c path depth).mpr h]

theorem visited_crawlRecursive {κ : Type} (lib : Lib) (cl : HTTPClient κ) (fuel : Nat) :
    ∀ (c : Crawler κ) (path : String) (depth : Int),
      (∀ x ∈ c.visited, x ∈ (crawlRecursive lib cl fuel c path depth).1.visited) ∧
      (0 < fuel → ¬ depth > c.maxDepth →
        path ∈ (crawlRecursive lib cl fuel c path depth).1.visited) := by
  induction fuel with
  | zero => intro c path depth; exact ⟨fun x hx => hx, fun h => absurd h (lt_irrefl 0)⟩
  | succ fuel ih =>
    intro c path depth
    rw [crawlRecursive_succ]
    rcases visit_cases lib cl c path depth with h | ⟨err, h⟩ | ⟨req, err, -, h⟩ |
      ⟨req, resp, bodyStr, -, -, -, -, -, h⟩
    · have hs := (visit_skip_iff lib cl c path depth).mp h
      rw [h]
      refine ⟨fun x hx => hx, fun _ hd => ?_⟩
      rcases hs with hs | hs
      · exact absurd hs hd
      · exact hs
    · rw [h]
      exact ⟨fun x hx => List.mem_cons_of_mem _ hx, fun _ _ => List.mem_cons_self _ _⟩
    · rw [h]
      exact ⟨fun x hx => List.mem_cons_of_mem _ hx, fun _ _ => List.mem_cons_self _ _⟩
    · rw [h]
      dsimp only
      obtain ⟨-, -, a3, -⟩ := harvest_spec lib
        { c with visited := path :: c.visited, client := (cl.Do c.client req).1 }
        bodyStr path depth
      have key := children_invariant
        (fun x : Crawler κ => ∀ y ∈ path :: c.visited, y ∈ x.visited)
        (fun c p d => (crawlRecursive lib cl fuel c p d).1)
        (fun x p d hx y hy => (ih x p d).1 y (hx y hy)) depth
        (harvest lib
          { c with visited := path :: c.visited, client := (cl.Do c.client req).1 }
          bodyStr path depth).endpoints _
        (fun y hy => by rw [a3]; exact hy)
      exact ⟨fun x hx => key x (List.mem_cons_of_mem _ hx),
        fun _ _ => key path (List.mem_cons_self _ _)⟩

end discovery

/-- C13: when the depth is beyond the maximum or the path is in the visited set,
`crawlRecursive` hands the client no request, leaves the crawler (visited set and
endpoint list included) as it was and returns the current endpoint list with no error;
and a second `Crawl` of the same base URL without `Clear` returns the list the first
one returned and hands the client no request. -/
theorem C13_skip_is_noop {κ : Type} (lib : Lib) (cl : HTTPClient κ) (fuel : Nat)
    (c : discovery.Crawler (κ × List Request)) (path : String) (depth : Int)
    (h : depth > c.maxDepth ∨ path ∈ c.visited) :
    discovery.crawlRecursive lib (recording cl) fuel c path depth = (c, (c.endpoints, none)) ∧
    ∀ baseURL : String,
      (discovery.Crawl lib (recording cl)
          (discovery.Crawl lib (recording cl) c baseURL).1 baseURL).2.1
        = (discovery.Crawl lib (recording cl) c baseURL).2.1 ∧
      (discovery.Crawl lib (recording cl)
          (discovery.Crawl lib (recording cl) c baseURL).1 baseURL).1.client.2
        = (discovery.Crawl lib (recording cl) c baseURL).1.client.2 ∧
      (discovery.Crawl lib (recording cl)
          (discovery.Crawl lib (recording cl) c baseURL).1 baseURL).1.visited
        = (discovery.Crawl lib (recording cl) c baseURL).1.visited ∧
      (discovery.Crawl lib (recording cl)
          (discovery.Crawl lib (recording cl) c baseURL).1 baseURL).1.endpoints
        = (discovery.Crawl lib (recording cl) c baseURL).1.endpoints := by
  refine ⟨discovery.crawlRecursive_skip lib (recording cl) fuel c path depth h, ?_⟩
  intro baseURL
  rcases hp : lib.Parse baseURL with err | parsedURL
  · have e1 : discovery.Crawl lib (recording cl) c baseURL = (c, ([], some err)) := by
      unfold discovery.Crawl; rw [hp]
    rw [e1]
    dsimp only
    rw [e1]
    exact ⟨rfl, rfl, rfl, rfl⟩
  · have e1 : discovery.Crawl lib (recording cl) c baseURL
        = discovery.crawlRecursive lib (recording cl) (c.maxDepth + 1).toNat
            { c with baseURL := parsedURL } "/" 0 := by
      unfold discovery.Crawl; rw [hp]
    have hm := discovery.maxDepth_crawlRecursive lib (recording cl) (c.maxDepth + 1).toNat
      { c with baseURL := parsedURL } "/" 0
    have hv := (discovery.visited_crawlRecursive lib (recording cl) (c.maxDepth + 1).toNat
      { c with baseURL := parsedURL } "/" 0).2
    have hr := discovery.crawlRecursive_returns lib (recording cl) (c.maxDepth + 1).toNat
      { c with baseURL := parsedURL } "/" 0
    rw [e1]
    generalize discovery.crawlRecursive lib (recording cl) (c.maxDepth + 1).toNat
      { c with baseURL := parsedURL } "/" 0 = r1 at hm hv hr
    have hskip : (0 : Int) > r1.1.maxDepth ∨ "/" ∈ r1.1.visited := by
      by_cases h0 : (0 : Int) > c.maxDepth
      · left; rw [hm]; exact h0
      · right
        refine hv ?_ h0
        have : (0 : Int) ≤ c.maxDepth := not_lt.mp h0
        omega
    have e2 : discovery.Crawl lib (recording cl) r1.1 baseURL
        = ({ r1.1 with baseURL := parsedURL }, (r1.1.endpoints, none)) := by
      unfold discovery.Crawl; rw [hp]
      exact discovery.crawlRecursive_skip lib (recording cl) _ _ "/" 0 hskip
    rw [e2]
    exact ⟨hr.symm, rfl, rfl, rfl⟩

/-- C13 at a concrete input: after one crawl of the example site the root path is
visited; the second crawl returns the same two endpoints and the record of the client
still holds the one request of the first crawl. -/
theorem C13_skip_is_noop_witness :
    "/" ∈ (discovery.Crawl Example.lib (recording Example.site)
        (discovery.NewCrawler ((), []) 1) "http://x/").1.visited ∧
    discovery.crawlRecursive Example.lib (recording Example.site) 2
        (discovery.Crawl Example.lib (recording Example.site)
          (discovery.NewCrawler ((), []) 1) "http://x/").1 "/" 0
      = ((discovery.Crawl Example.lib (recording Example.site)
          (discovery.NewCrawler ((), []) 1) "http://x/").1,
         ((discovery.Crawl Example.lib (recording Example.site)
          (discovery.NewCrawler ((), []) 1) "http://x/").1.endpoints, none)) :=
  ⟨by decide,
   (C13_skip_is_noop Example.lib Example.site 2
      (discovery.Crawl Example.lib (recording Example.site)
        (discovery.NewCrawler ((), []) 1) "http://x/").1 "/" 0
      (Or.inr (by decide))).1⟩

namespace discovery

theorem visit_fetch_failed {κ : Type} (lib : Lib) (cl : HTTPClient κ) (c : Crawler κ)
    (path : String) (depth : Int) (req : Request) (err : String)
    (h1 : ¬ depth > c.maxDepth) (h2 : path ∉ c.visited)
    (hreq : pageRequest lib (resolvePath lib c path) = Except.ok req)
    (hdo : (cl.Do c.client req).2 = Except.error err) :
    visit lib cl c path depth
      = Visit.failed
          { c with visited := path :: c.visited, client := (cl.Do c.client req).1 } err := by
  have hr : resolvePath lib { c with visited := path :: c.visited } path
      = resolvePath lib c path := rfl
  unfold visit
  rw [if_neg h1, if_neg h2]
  dsimp only
  rw [hr, hreq]
  dsimp only
  rw [hdo]

theorem visit_fetched {κ : Type} (lib : Lib) (cl : HTTPClient κ) (c : Crawler κ)
    (path : String) (depth : Int) (req : Request) (resp : Response) (bodyStr : String)
    (h1 : ¬ depth > c.maxDepth) (h2 : path ∉ c.visited)
    (hreq : pageRequest lib (resolvePath lib c path) = Except.ok req)
    (hdo : (cl.Do c.client req).2 = Except.ok resp)
    (hbody : resp.Body = Except.ok bodyStr) :
    visit lib cl c path depth
      = Visit.page (harvest lib
          { c with visited := path :: c.visited, client := (cl.Do c.client req).1 }
          bodyStr path depth) := by
  have hr : resolvePath lib { c with visited := path :: c.visited } path
      = resolvePath lib c path := rfl
  unfold visit
  rw [if_neg h1, if_neg h2]
  dsimp only
  rw [hr, hreq]
  dsimp only
  rw [hdo]
  dsimp only
  rw [hbody]

/-- A call that returns an error has added no endpoint. -/
theorem crawlRecursive_error {κ : Type} (lib : Lib) (cl : HTTPClient κ) (fuel : Nat)
    (c : Crawler κ) (path : String) (depth : Int) (err : String)
    (h : (crawlRecursive lib cl fuel c path depth).2.2 = some err) :
    (crawlRecursive lib cl fuel c path depth).1.endpoints = c.endpoints := by
  cases fuel with
  | zero => rfl
  | succ fuel =>
    rw [crawlRecursive_succ] at h ⊢
    rcases visit_cases lib cl c path depth with h0 | ⟨e, h0⟩ | ⟨req, e, -, h0⟩ |
      ⟨req, resp, bodyStr, -, -, -, -, -, h0⟩
    · rw [h0]
    · rw [h0]
    · rw [h0]
    · rw [h0] at h
      cases h

/-- A call that fetched its page returns no error, whatever its child calls return. -/
theorem crawlRecursive_fetched {κ : Type} (lib : Lib) (cl : HTTPClient κ) (fuel : Nat)
    (c c1 : Crawler κ) (path : String) (depth : Int)
    (h : visit lib cl c path depth = Visit.page c1) :
    (crawlRecursive lib cl (fuel + 1) c path depth).2.2 = none := by
  rw [crawlRecursive_succ, h]

/-- When the fetch of the root page fails, `Crawl` returns the endpoints held so far and
the error of the client. -/
theorem Crawl_root_failure {κ : Type} (lib : Lib) (cl : HTTPClient κ) (c : Crawler κ)
    (baseURL : String) (parsedURL : URL) (req : Request) (err : String)
    (hparse : lib.Parse baseURL = Except.ok parsedURL)
    (hdepth : 0 ≤ c.maxDepth) (hnew : "/" ∉ c.visited)
    (hreq : pageRequest lib (resolvePath lib { c with baseURL := parsedURL } "/")
      = Except.ok req)
    (hdo : (cl.Do c.client req).2 = Except.error err) :
    Crawl lib cl c baseURL
      = ({ c with baseURL := parsedURL, visited := "/" :: c.visited,
                  client := (cl.Do c.client req).1 },
         (c.endpoints, some err)) := by
  unfold Crawl
  rw [hparse]
  dsimp only
  obtain ⟨n, hn⟩ : ∃ n, (c.maxDepth + 1).toNat = n + 1 := ⟨(c.maxDepth).toNat, by omega⟩
  rw [hn, crawlRecursive_succ,
    visit_fetch_failed lib cl { c with baseURL := parsedURL } "/" 0 req err
      (by show ¬ (0 : Int) > c.maxDepth; omega) hnew hreq hdo]

end discovery

/-- C12, the claim as stated fails: the client refuses the connection to the root
page; `Crawl` returns the (empty) endpoint list together with that error, and
`Discover` returns no list and the error "crawling failed: connection refused". -/
theorem C12_counterexample :
    (discovery.Crawl Example.lib Example.flaky (discovery.NewCrawler () 1) "http://x/").2
      = ([], some "connection refused") ∧
    (scanner.Discover Example.lib Example.deadNet (Example.scannerAt 2 ())).2
      = ([], some "crawling failed: connection refused") := by
  decide

/-- C12 as amended: when the client fails on the fetch of the root page, `Crawl`
returns the endpoints held so far together with the error of the client, and
`Discover` returns no endpoints and the error "crawling failed: " followed by it,
leaving the endpoint list as it was; at every depth a call that returns an error has
added no endpoint, and a call that fetched its own page returns no error whatever
its child calls return. -/
theorem C12_fetch_failure {τ : Type} (lib : Lib) (net : httpclient.NetClient τ)
    (s : scanner.scannerImpl τ) (parsedURL : URL) (req : Request) (err : String)
    (hparse : lib.Parse s.config.BaseURL = Except.ok parsedURL)
    (hdepth : 0 ≤ s.discoverer.maxDepth) (hnew : "/" ∉ s.discoverer.visited)
    (hreq : discovery.pageRequest lib
      (discovery.resolvePath lib { s.discoverer with baseURL := parsedURL } "/")
      = Except.ok req)
    (hdo : (httpclient.Client.Do lib net s.discoverer.client req).2 = Except.error err) :
    (discovery.Crawl lib (httpclient.asHTTPClient lib net) s.discoverer s.config.BaseURL).2
      = (s.discoverer.endpoints, some err) ∧
    (scanner.Discover lib net s).2 = ([], some ("crawling failed: " ++ err)) ∧
    (scanner.Discover lib net s).1.discoverer.endpoints = s.discoverer.endpoints ∧
    (∀ (fuel : Nat) (c : discovery.Crawler (httpclient.Client τ)) (path : String)
        (depth : Int) (e : String),
      (discovery.crawlRecursive lib (httpclient.asHTTPClient lib net) fuel c path depth).2.2
        = some e →
      (discovery.crawlRecursive lib (httpclient.asHTTPClient lib net) fuel c path
        depth).1.endpoints = c.endpoints) ∧
    (∀ (fuel : Nat) (c c1 : discovery.Crawler (httpclient.Client τ)) (path : String)
        (depth : Int),
      discovery.visit lib (httpclient.asHTTPClient lib net) c path depth
        = discovery.Visit.page c1 →
      (discovery.crawlRecursive lib (httpclient.asHTTPClient lib net) (fuel + 1) c path
        depth).2.2 = none) := by
  have hc := discovery.Crawl_root_failure lib (httpclient.asHTTPClient lib net) s.discoverer
    s.config.BaseURL parsedURL req err hparse hdepth hnew hreq hdo
  refine ⟨by rw [hc], ?_, ?_, ?_, ?_⟩
  · unfold scanner.Discover
    rw [hc]
  · unfold scanner.Discover
    rw [hc]
  · intro fuel c path depth e h
    exact discovery.crawlRecursive_error lib _ fuel c path depth e h
  · intro fuel c c1 path depth h
    exact discovery.crawlRecursive_fetched lib _ fuel c c1 path depth h

/-- C12 as amended, at a concrete input: every connection of the scanner of the example
is refused; `Discover` returns no endpoints and the error. -/
theorem C12_fetch_failure_witness :
    (0 : Int) ≤ (Example.scannerAt 2 ()).discoverer.maxDepth ∧
    (scanner.Discover Example.lib Example.deadNet (Example.scannerAt 2 ())).2
      = ([], some ("crawling failed: " ++ "connection refused")) :=
  ⟨by decide,
   (C12_fetch_failure Example.lib Example.deadNet (Example.scannerAt 2 ())
      { Scheme := "http", Host := "x", Path := "/" }
      { Method := "GET", URL := "http://x/",
        Header := [("User-Agent", ["GoBruteScanner/1.0"]),
          ("Accept", ["text/html,application/xhtml+xml,application/xml;q=0.9,*/*;q=0.8"])] }
      "connection refused" rfl (by decide) (by decide) rfl rfl).2.1⟩

namespace httpclient

theorem Do_client {τ : Type} (lib : Lib) (net : NetClient τ) (c : Client τ) (req : Request) :
    (Client.Do lib net c req).1.client
      = (net.Do c.client c.Proxy (prepare lib c.config req)).1 := by
  unfold Client.Do
  dsimp only
  split <;> rfl

theorem New_client {τ : Type} (lib : Lib) (config : Config) (t0 : τ) :
    (New lib config t0).client = t0 ∧ (New lib config t0).config = config := by
  unfold New
  dsimp only
  split
  · split <;> exact ⟨rfl, rfl⟩
  · exact ⟨rfl, rfl⟩

end httpclient

namespace discovery

/-- A call that fetches its page at a depth at which the crawler holds no link endpoint
returns what `harvest` leaves. -/
theorem crawlRecursive_page {κ : Type} (lib : Lib) (cl : HTTPClient κ) (fuel : Nat)
    (c : Crawler κ) (path : String) (depth : Int) (req : Request) (resp : Response)
    (bodyStr : String)
    (h1 : ¬ depth > c.maxDepth) (h2 : path ∉ c.visited)
    (hreq : pageRequest lib (resolvePath lib c path) = Except.ok req)
    (hdo : (cl.Do c.client req).2 = Except.ok resp)
    (hbody : resp.Body = Except.ok bodyStr)
    (hno : ∀ e ∈ c.endpoints, ¬ (e.Depth = depth ∧ e.Source = "link")) :
    crawlRecursive lib cl (fuel + 1) c path depth
      = (harvest lib
          { c with visited := path :: c.visited, client := (cl.Do c.client req).1 }
          bodyStr path depth,
         ((harvest lib
          { c with visited := path :: c.visited, client := (cl.Do c.client req).1 }
          bodyStr path depth).endpoints, none)) := by
  rw [crawlRecursive_succ, visit_fetched lib cl c path depth req resp bodyStr h1 h2 hreq hdo
    hbody]
  dsimp only
  obtain ⟨-, -, -, -, new, a5, a6⟩ := harvest_spec lib
    { c with visited := path :: c.visited, client := (cl.Do c.client req).1 }
    bodyStr path depth
  rw [children_noop]
  intro e he
  rw [a5] at he
  rcases List.mem_append.mp he with he | he
  · rcases List.mem_append.mp he with he | he
    · exact hno e he
    · intro hh
      have := (a6 e he).1
      omega
  · rw [List.mem_singleton.mp he]
    exact fun hh => absurd hh.2 (by show ¬ ("direct" : String) = "link"; decide)

end discovery

namespace scanner

theorem New_spec {τ : Type} (lib : Lib) (baseURL : String) (opts : List ConfigOption) (t0 : τ)
    (s : scannerImpl τ) (h : New lib baseURL opts t0 = Except.ok s) :
    s.discoverer = discovery.NewCrawler (httpclient.New lib s.config t0) s.config.ScanDepth := by
  unfold New at h
  cases h
  rfl

end scanner

/-- C11: on a scanner built by `New` with max depth 0, when the base URL parses, the
request for the root is built, the transport answers it and the body is read,
`Discover` sends exactly one request, returns no error, and the list it returns holds
exactly one endpoint with source "direct": method GET, depth 0, and as URL the
resolution of "/" (the empty path reference) against the base URL. -/
theorem C11_depth_zero_discover {τ : Type} (lib : Lib) (net : httpclient.NetClient τ)
    (baseURL : String) (opts : List scanner.ConfigOption) (t0 : τ)
    (s : scanner.scannerImpl (τ × List Request)) (parsedURL : URL) (req : Request)
    (resp : Response) (body : String)
    (hnew : scanner.New lib baseURL opts (t0, []) = Except.ok s)
    (hbase : s.config.BaseURL = baseURL)
    (hdepth : s.config.ScanDepth = 0)
    (hparse : lib.Parse baseURL = Except.ok parsedURL)
    (hreq : discovery.pageRequest lib
      (lib.URLString (lib.ResolveReference parsedURL { Path := "" })) = Except.ok req)
    (hdo : (net.Do t0 s.discoverer.client.Proxy (httpclient.prepare lib s.config req)).2
      = Except.ok resp)
    (hbody : resp.Body = Except.ok body) :
    (scanner.Discover lib (httpclient.recordingNet net) s).1.discoverer.client.client.2
      = [httpclient.prepare lib s.config req] ∧
    (scanner.Discover lib (httpclient.recordingNet net) s).2.2 = none ∧
    (scanner.Discover lib (httpclient.recordingNet net) s).2.1.filter
        (fun e => decide (e.Source = "direct"))
      = [{ URL := lib.URLString (lib.ResolveReference parsedURL { Path := "" }),
           Method := "GET", Source := "direct", Depth := 0 }] := by
  have hs := scanner.New_spec lib baseURL opts (t0, []) s hnew
  obtain ⟨hcl, hcfg⟩ := httpclient.New_client lib s.config ((t0, []) : τ × List Request)
  have hres : discovery.resolvePath lib
      ({ s.discoverer with baseURL := parsedURL } :
        discovery.Crawler (httpclient.Client (τ × List Request))) "/"
      = lib.URLString (lib.ResolveReference parsedURL { Path := "" }) := rfl
  have hdo2 : ((httpclient.asHTTPClient lib (httpclient.recordingNet net)).Do
      s.discoverer.client req).2 = Except.ok resp := by
    show (httpclient.Client.Do lib (httpclient.recordingNet net) s.discoverer.client req).2 = _
    rw [httpclient.Do_snd]
    show (net.Do s.discoverer.client.client.1 s.discoverer.client.Proxy
      (httpclient.prepare lib s.discoverer.client.config req)).2 = _
    rw [hs] at hdo ⊢
    show (net.Do (httpclient.New lib s.config ((t0, []) : τ × List Request)).client.1
      (httpclient.New lib s.config ((t0, []) : τ × List Request)).Proxy
      (httpclient.prepare lib (httpclient.New lib s.config
        ((t0, []) : τ × List Request)).config req)).2 = _
    rw [hcl, hcfg]
    exact hdo
  have hlog : ((httpclient.asHTTPClient lib (httpclient.recordingNet net)).Do
      s.discoverer.client req).1.client.2 = [httpclient.prepare lib s.config req] := by
    show (httpclient.Client.Do lib (httpclient.recordingNet net) s.discoverer.client
      req).1.client.2 = _
    rw [httpclient.Do_client]
    show s.discoverer.client.client.2 ++ [httpclient.prepare lib s.discoverer.client.config req]
      = _
    rw [hs]
    show (httpclient.New lib s.config ((t0, []) : τ × List Request)).client.2 ++
      [httpclient.prepare lib (httpclient.New lib s.config
        ((t0, []) : τ × List Request)).config req] = _
    rw [hcl, hcfg]
    rfl
  have hmax : s.discoverer.maxDepth = 0 := by rw [hs]; exact hdepth
  have hvis : s.discoverer.visited = [] := by rw [hs]; rfl
  have hend : s.discoverer.endpoints = [] := by rw [hs]; rfl
  have hcrawl : discovery.Crawl lib (httpclient.asHTTPClient lib (httpclient.recordingNet net))
      s.discoverer s.config.BaseURL
      = discovery.crawlRecursive lib (httpclient.asHTTPClient lib (httpclient.recordingNet net))
          (0 + 1) { s.discoverer with baseURL := parsedURL } "/" 0 := by
    unfold discovery.Crawl
    rw [hbase, hparse]
    dsimp only
    rw [hmax]
    rfl
  have hpage := discovery.crawlRecursive_page lib
    (httpclient.asHTTPClient lib (httpclient.recordingNet net)) 0
    { s.discoverer with baseURL := parsedURL } "/" 0 req resp body
    (by show ¬ (0 : Int) > s.discoverer.maxDepth; rw [hmax]; decide)
    (by show "/" ∉ s.discoverer.visited; rw [hvis]; exact List.not_mem_nil _)
    (by rw [hres]; exact hreq) hdo2 hbody
    (by
      intro e he
      have he2 : e ∈ s.discoverer.endpoints := he
      rw [hend] at he2
      exact absurd he2 (List.not_mem_nil e))
  obtain ⟨a1, -, -, -, new, a5, a6⟩ := discovery.harvest_spec lib
    ({ s.discoverer with baseURL := parsedURL, visited := "/" :: s.discoverer.visited,
                         client := ((httpclient.asHTTPClient lib
                           (httpclient.recordingNet net)).Do s.discoverer.client req).1 } :
      discovery.Crawler (httpclient.Client (τ × List Request))) body "/" 0
  have hfilter : (new.filter (fun e => decide (e.Source = "direct"))) = [] := by
    rw [List.filter_eq_nil_iff]
    intro e he
    have := (a6 e he).2
    simpa using this
  unfold scanner.Discover
  rw [hcrawl, hpage]
  dsimp only
  refine ⟨?_, rfl, ?_⟩
  · rw [a1]
    exact hlog
  · rw [a5]
    show ((s.discoverer.endpoints ++ new ++ _).filter _) = _
    rw [hend, List.nil_append, List.filter_append, hfilter, List.nil_append]
    rfl

/-- C11 at the input of the scenario: base URL `http://x/`, max depth 0; `Discover`
sends one request and returns the link and javascript endpoints of the root page and
one direct endpoint, that of `http://x/`. -/
theorem C11_depth_zero_discover_witness :
    (scanner.Discover Example.lib (httpclient.recordingNet Example.liveNet)
        (Example.scannerAt 0 ((), []))).1.discoverer.client.client.2.map Request.URL
      = ["http://x/"] ∧
    (scanner.Discover Example.lib (httpclient.recordingNet Example.liveNet)
        (Example.scannerAt 0 ((), []))).2.1
      = [{ URL := "http://x/a", Method := "GET", Source := "link", Depth := 1,
           Metadata := Metadata.text "a" },
         { URL := "http://x/a", Method := "GET", Source := "javascript", Depth := 1,
           Metadata := Metadata.pattern (discovery.patterns.getD 8 "") },
         { URL := "http://x/", Method := "GET", Source := "direct", Depth := 0 }] ∧
    (scanner.Discover Example.lib (httpclient.recordingNet Example.liveNet)
        (Example.scannerAt 0 ((), []))).2.1.filter (fun e => decide (e.Source = "direct"))
      = [{ URL := "http://x/", Method := "GET", Source := "direct", Depth := 0 }] :=
  ⟨by decide, by decide,
   (C11_depth_zero_discover Example.lib Example.liveNet "http://x/"
      [scanner.WithScanDepth 0] () (Example.scannerAt 0 ((), []))
      { Scheme := "http", Host := "x", Path := "/" }
      { Method := "GET", URL := "http://x/",
        Header := [("User-Agent", ["GoBruteScanner/1.0"]),
          ("Accept", ["text/html,application/xhtml+xml,application/xml;q=0.9,*/*;q=0.8"])] }
      { StatusCode := 200, Body := Except.ok Example.rootPage } Example.rootPage
      rfl rfl rfl rfl rfl rfl rfl).2.2⟩

namespace discovery

theorem childrenStrict_some {κ : Type} (P : Crawler κ → Prop)
    (recS : Crawler κ → String → Int → Option (Crawler κ))
    (rec : Crawler κ → String → Int → Crawler κ) (depth : Int)
    (hP : ∀ x p, P x → P (rec x p (depth + 1)))
    (heq : ∀ x p, P x → recS x p (depth + 1) = some (rec x p (depth + 1)))
    (l : List Endpoint) :
    ∀ c, P c → childrenStrict recS depth l c = some (children rec depth l c) := by
  unfold childrenStrict children
  induction l with
  | nil => intro c _; rfl
  | cons e es ih =>
    intro c hc
    rw [List.foldl_cons, List.foldl_cons]
    dsimp only
    split_ifs
    · rw [heq c _ hc]
      exact ih _ (hP c _ hc)
    · exact ih _ hc

/-- Within `maxDepth + 1 - depth` levels below the first call every call returns: the
strictly bounded function gives the outcome of `crawlRecursive`. -/
theorem crawlBounded_returns {κ : Type} (lib : Lib) (cl : HTTPClient κ) (n : Nat) :
    ∀ (c : Crawler κ) (path : String) (depth : Int),
      (c.maxDepth + 1 - depth).toNat ≤ n →
      crawlBounded lib cl (n + 1) c path depth
        = some (crawlRecursive lib cl (n + 1) c path depth) := by
  induction n with
  | zero =>
    intro c path depth h
    have hd : depth > c.maxDepth := by omega
    have hv := (visit_skip_iff lib cl c path depth).mpr (Or.inl hd)
    rw [crawlRecursive_succ, crawlBounded, hv]
  | succ n ih =>
    intro c path depth h
    rw [crawlRecursive_succ, crawlBounded]
    rcases visit_cases lib cl c path depth with h0 | ⟨err, h0⟩ | ⟨req, err, -, h0⟩ |
      ⟨req, resp, bodyStr, hd, -, -, -, -, h0⟩
    · rw [h0]
    · rw [h0]
    · rw [h0]
    · rw [h0]
      dsimp only
      obtain ⟨-, a2, -⟩ := harvest_spec lib
        { c with visited := path :: c.visited, client := (cl.Do c.client req).1 }
        bodyStr path depth
      have hle : depth ≤ c.maxDepth := not_lt.mp hd
      rw [childrenStrict_some (fun x => x.maxDepth = c.maxDepth)
        (fun c p d => (crawlBounded lib cl (n + 1) c p d).map (fun r => r.1))
        (fun c p d => (crawlRecursive lib cl (n + 1) c p d).1) depth
        (fun x p hx => (maxDepth_crawlRecursive lib cl (n + 1) x p (depth + 1)).trans hx)
        (fun x p hx => by
          have hx2 : x.maxDepth = c.maxDepth := hx
          show (crawlBounded lib cl (n + 1) x p (depth + 1)).map (fun r => r.1) = _
          rw [ih x p (depth + 1) (by rw [hx2]; omega)]
          rfl)
        _ _ a2]

end discovery

/-- C14: `crawlRecursive` terminates, with calls nested at most `maxDepth + 1 - depth`
levels below the first one: under that strict bound every call returns and the
outcome is that of `crawlRecursive`, which more fuel does not change; a call beyond
the maximum depth or on a visited path returns within its own level; and the loop
over the endpoints depends on the child calls only through their values at
`depth + 1`. -/
theorem C14_termination {κ : Type} (lib : Lib) (cl : HTTPClient κ)
    (c : discovery.Crawler κ) (path : String) (depth : Int) :
    (∀ levels : Nat, (c.maxDepth + 1 - depth).toNat < levels →
      discovery.crawlBounded lib cl levels c path depth
        = some (discovery.crawlRecursive lib cl (c.maxDepth + 1 - depth).toNat c path depth)) ∧
    (∀ fuel : Nat, (c.maxDepth + 1 - depth).toNat ≤ fuel →
      discovery.crawlRecursive lib cl fuel c path depth
        = discovery.crawlRecursive lib cl (c.maxDepth + 1 - depth).toNat c path depth) ∧
    ((depth > c.maxDepth ∨ path ∈ c.visited) →
      discovery.crawlBounded lib cl 1 c path depth = some (c, (c.endpoints, none))) ∧
    (∀ (rec1 rec2 : discovery.Crawler κ → String → Int → discovery.Crawler κ)
        (l : List Endpoint) (x : discovery.Crawler κ),
      (∀ y p, rec1 y p (depth + 1) = rec2 y p (depth + 1)) →
      discovery.children rec1 depth l x = discovery.children rec2 depth l x) := by
  refine ⟨?_, ?_, ?_, ?_⟩
  · intro levels h
    obtain ⟨n, rfl⟩ : ∃ n, levels = n + 1 := ⟨levels - 1, by omega⟩
    rw [discovery.crawlBounded_returns lib cl n c path depth (by omega),
      discovery.crawlRecursive_fuel lib cl (n + 1) c path depth (by omega)]
  · intro fuel h
    exact discovery.crawlRecursive_fuel lib cl fuel c path depth h
  · intro h
    rw [discovery.crawlBounded, (discovery.visit_skip_iff lib cl c path depth).mpr h]
  · intro rec1 rec2 l x h
    exact discovery.children_congr (fun _ => True) rec1 rec2 depth (fun _ _ _ => trivial)
      (fun y p _ => h y p) l x trivial

/-- C14 at a concrete input: the crawl of the example site from its root with max
depth 1 returns within three levels of calls. -/
theorem C14_termination_witness :
    ((1 : Int) + 1 - 0).toNat < 3 ∧
    discovery.crawlBounded Example.lib Example.site 3
        { client := (), maxDepth := 1,
          baseURL := { Scheme := "http", Host := "x", Path := "/" } } "/" 0
      = some (discovery.crawlRecursive Example.lib Example.site ((1 : Int) + 1 - 0).toNat
        { client := (), maxDepth := 1,
          baseURL := { Scheme := "http", Host := "x", Path := "/" } } "/" 0) :=
  ⟨by decide,
   (C14_termination Example.lib Example.site
      { client := (), maxDepth := 1,
        baseURL := { Scheme := "http", Host := "x", Path := "/" } } "/" 0).1 3 (by decide)⟩

namespace discovery

theorem normalizeURL_congr {κ : Type} (lib : Lib) (c c0 : Crawler κ) (href currentPath : String)
    (h : c.baseURL = c0.baseURL) :
    normalizeURL lib c href currentPath = normalizeURL lib c0 href currentPath := by
  unfold normalizeURL resolvePath
  rw [h]

theorem foldl_filterMap {κ α : Type} (c0 : Crawler κ) (f : Crawler κ → α → Crawler κ)
    (g : α → Option Endpoint)
    (hf : ∀ (c : Crawler κ) (x : α), c.baseURL = c0.baseURL → c.visited = c0.visited →
      f c x = match g x with
        | none => c
        | some e => { c with endpoints := c.endpoints ++ [e] })
    (l : List α) :
    ∀ c : Crawler κ, c.baseURL = c0.baseURL → c.visited = c0.visited →
      l.foldl f c = { c with endpoints := c.endpoints ++ l.filterMap g } := by
  induction l with
  | nil => intro c _ _; simp
  | cons x xs ih =>
    intro c h1 h2
    rw [List.foldl_cons, hf c x h1 h2]
    cases hg : g x with
    | none =>
      dsimp only
      rw [ih c h1 h2, List.filterMap_cons_none hg]
    | some e =>
      dsimp only
      rw [ih { c with endpoints := c.endpoints ++ [e] } h1 h2, List.filterMap_cons_some hg]
      simp

theorem foldl_flatMap {κ α : Type} (c0 : Crawler κ) (f : Crawler κ → α → Crawler κ)
    (g : α → List Endpoint)
    (hf : ∀ (c : Crawler κ) (x : α), c.baseURL = c0.baseURL → c.visited = c0.visited →
      f c x = { c with endpoints := c.endpoints ++ g x })
    (l : List α) :
    ∀ c : Crawler κ, c.baseURL = c0.baseURL → c.visited = c0.visited →
      l.foldl f c = { c with endpoints := c.endpoints ++ l.flatMap g } := by
  induction l with
  | nil => intro c _ _; simp
  | cons x xs ih =>
    intro c h1 h2
    rw [List.foldl_cons, hf c x h1 h2, ih { c with endpoints := c.endpoints ++ g x } h1 h2]
    simp

/-- What `extractForms` does on a page that parses: one endpoint for every form that
`formEndpoint` gives one for, in document order. -/
theorem extractForms_eq {κ : Type} (lib : Lib) (c : Crawler κ)
    (htmlContent currentPath : String) (depth : Int) (doc : Document)
    (hdoc : lib.NewDocumentFromReader htmlContent = Except.ok doc) :
    extractForms lib c htmlContent currentPath depth
      = { c with endpoints := c.endpoints ++
            doc.forms.filterMap (formEndpoint lib c currentPath depth) } := by
  unfold extractForms
  rw [hdoc]
  dsimp only
  refine foldl_filterMap c _ _ ?_ doc.forms c rfl rfl
  intro x s h1 _
  unfold formEndpoint
  dsimp only
  simp only [normalizeURL_congr lib x c _ _ h1]
  split_ifs <;> rfl

/-- What `extractLinks` does on a page that parses. -/
theorem extractLinks_eq {κ : Type} (lib : Lib) (c : Crawler κ)
    (htmlContent currentPath : String) (depth : Int) (doc : Document)
    (hdoc : lib.NewDocumentFromReader htmlContent = Except.ok doc) :
    extractLinks lib c htmlContent currentPath depth
      = { c with endpoints := c.endpoints ++
            doc.anchors.filterMap (linkEndpoint lib c currentPath depth) } := by
  unfold extractLinks
  rw [hdoc]
  dsimp only
  refine foldl_filterMap c _ _ ?_ doc.anchors c rfl rfl
  intro x s h1 h2
  unfold linkEndpoint recordLink
  cases attr s.Attrs "href" with
  | none => rfl
  | some href =>
    dsimp only
    simp only [normalizeURL_congr lib x c _ _ h1, h2]
    split_ifs <;> rfl

/-- What `extractLinksWithTokenizer` does. -/
theorem extractLinksWithTokenizer_eq {κ : Type} (lib : Lib) (c : Crawler κ)
    (htmlContent currentPath : String) (depth : Int) :
    extractLinksWithTokenizer lib c htmlContent currentPath depth
      = { c with endpoints := c.endpoints ++
            (lib.Tokens htmlContent).flatMap (tokenLinks lib c currentPath depth) } := by
  unfold extractLinksWithTokenizer
  refine foldl_flatMap c _ _ ?_ _ c rfl rfl
  intro x t h1 h2
  unfold tokenLinks
  dsimp only
  split_ifs
  · refine foldl_filterMap c _ _ ?_ t.Attr x h1 h2
    intro y a g1 g2
    unfold tokenLink recordLink
    dsimp only
    simp only [normalizeURL_congr lib y c _ _ g1, g2]
    split_ifs <;> rfl
  · simp

end discovery

namespace discovery

theorem lookup_map_other (k k2 v : String) (h : k2 ≠ k) :
    ∀ m : List (String × String),
      (m.map (fun e => if e.1 == k2 then (k2, v) else e)).lookup k = m.lookup k := by
  have hk2 : (k == k2) = false := by simpa using fun x => h x.symm
  intro m
  induction m with
  | nil => rfl
  | cons e es ih =>
    obtain ⟨a, b⟩ := e
    rw [List.map_cons]
    by_cases he : a = k2
    · have he2 : (a == k2) = true := by simpa using he
      have hke : (k == a) = false := by rw [he]; exact hk2
      simp only [he2, if_true]
      rw [List.lookup_cons, hk2, List.lookup_cons, hke]
      exact ih
    · have he2 : (a == k2) = false := by simpa using he
      simp only [he2, Bool.false_eq_true, if_false]
      rw [List.lookup_cons, List.lookup_cons, ih]

theorem lookup_append_other (k k2 v : String) (h : k2 ≠ k) :
    ∀ m : List (String × String), (m ++ [(k2, v)]).lookup k = m.lookup k := by
  have hk2 : (k == k2) = false := by simpa using fun x => h x.symm
  intro m
  induction m with
  | nil => rw [List.nil_append, List.lookup_cons, hk2]
  | cons e es ih =>
    obtain ⟨a, b⟩ := e
    rw [List.cons_append, List.lookup_cons, List.lookup_cons, ih]

theorem lookup_map_self (k v : String) :
    ∀ m : List (String × String), m.any (fun e => e.1 == k) = true →
      (m.map (fun e => if e.1 == k then (k, v) else e)).lookup k = some v := by
  intro m
  induction m with
  | nil => intro h; simp at h
  | cons e es ih =>
    obtain ⟨a, b⟩ := e
    intro h
    rw [List.map_cons]
    by_cases he : a = k
    · have he2 : (a == k) = true := by simpa using he
      simp only [he2, if_true]
      rw [List.lookup_cons]
      simp
    · have he2 : (a == k) = false := by simpa using he
      have hke : (k == a) = false := by simpa using fun x => he x.symm
      rw [List.any_cons] at h
      simp only [he2, Bool.false_or] at h
      simp only [he2, Bool.false_eq_true, if_false]
      rw [List.lookup_cons, hke]
      exact ih h

theorem lookup_append_self (k v : String) :
    ∀ m : List (String × String), m.any (fun e => e.1 == k) = false →
      (m ++ [(k, v)]).lookup k = some v := by
  intro m
  induction m with
  | nil => intro _; rw [List.nil_append, List.lookup_cons]; simp
  | cons e es ih =>
    obtain ⟨a, b⟩ := e
    intro h
    rw [List.any_cons, Bool.or_eq_false_iff] at h
    have hke : (k == a) = false := by
      have := h.1
      simp only [beq_eq_false_iff_ne, ne_eq] at this ⊢
      exact fun x => this x.symm
    rw [List.cons_append, List.lookup_cons, hke]
    exact ih h.2

theorem mapSet_lookup_self (m : List (String × String)) (k v : String) :
    (mapSet m k v).lookup k = some v := by
  unfold mapSet
  split_ifs with h
  · exact lookup_map_self k v m h
  · exact lookup_append_self k v m (Bool.eq_false_iff.mpr h)

theorem mapSet_lookup_ne (m : List (String × String)) (k k2 v : String) (h : k2 ≠ k) :
    (mapSet m k2 v).lookup k = m.lookup k := by
  unfold mapSet
  split_ifs
  · exact lookup_map_other k k2 v h m
  · exact lookup_append_other k k2 v h m

theorem foldl_lookup_kept (f : List (String × String) → List (String × String) →
      List (String × String)) (k : String) (l : List (List (String × String)))
    (hf : ∀ m x, x ∈ l → (f m x).lookup k = m.lookup k) :
    ∀ m, (l.foldl f m).lookup k = m.lookup k := by
  induction l with
  | nil => intro m; rfl
  | cons x xs ih =>
    intro m
    rw [List.foldl_cons, ih (fun m y hy => hf m y (List.mem_cons_of_mem _ hy)),
      hf m x (List.mem_cons_self _ _)]

/-- The value recorded for a named input that no other input of the form shares its
name with. -/
theorem formInputs_lookup (pre post : List (List (String × String)))
    (input : List (String × String)) (name : String)
    (hname : (attr input "name").getD "" = name) (hne : name ≠ "")
    (htyp : (attr input "type").getD "" ≠ "submit" ∧ (attr input "type").getD "" ≠ "button" ∧
      (attr input "type").getD "" ≠ "reset")
    (hother : ∀ x ∈ pre ++ post, (attr x "name").getD "" ≠ name) :
    (formInputs (pre ++ input :: post)).lookup name
      = some (inputValue ((attr input "type").getD "") ((attr input "value").getD "")) := by
  unfold formInputs
  rw [List.foldl_append, List.foldl_cons]
  rw [foldl_lookup_kept _ name post]
  · dsimp only
    rw [hname, if_pos ⟨hne, htyp⟩]
    exact mapSet_lookup_self _ _ _
  · intro m x hx
    dsimp only
    split_ifs
    · exact mapSet_lookup_ne m name _ _ (hother x (List.mem_append_right _ hx))
    · rfl

end discovery

namespace discovery

theorem formEndpoint_some {κ : Type} (lib : Lib) (c : Crawler κ) (currentPath : String)
    (depth : Int) (s : Selection) (e : Endpoint)
    (h : formEndpoint lib c currentPath depth s = some e) :
    e.Source = "form" ∧ e.Depth = depth + 1 ∧
    e.Metadata = Metadata.inputs (formInputs s.Inputs) := by
  unfold formEndpoint at h
  dsimp only at h
  split_ifs at h <;> (cases h; exact ⟨rfl, rfl, rfl⟩)

end discovery

/-- C15: for a form that the extractor records an endpoint for, and an input,
textarea or select in it with a non-empty name that no other input of the form
carries, a type other than submit, button and reset, and no or an empty value
attribute, the "inputs" map of the form endpoint sends the name to
"test@example.com" for type email, "password123" for type password, "1" for type
number or range, "on" for type checkbox or radio, and "test" for every other type. -/
theorem C15_form_input_values {κ : Type} (lib : Lib) (c : discovery.Crawler κ)
    (htmlContent currentPath : String) (depth : Int) (doc : Document) (s : Selection)
    (e : Endpoint) (pre post : List (List (String × String)))
    (input : List (String × String)) (name : String)
    (hdoc : lib.NewDocumentFromReader htmlContent = Except.ok doc) (hs : s ∈ doc.forms)
    (he : discovery.formEndpoint lib c currentPath depth s = some e)
    (hin : s.Inputs = pre ++ input :: post)
    (hname : discovery.attr input "name" = some name) (hne : name ≠ "")
    (htyp : (discovery.attr input "type").getD "" ≠ "submit" ∧
      (discovery.attr input "type").getD "" ≠ "button" ∧
      (discovery.attr input "type").getD "" ≠ "reset")
    (hval : (discovery.attr input "value").getD "" = "")
    (hother : ∀ x ∈ pre ++ post, (discovery.attr x "name").getD "" ≠ name) :
    e ∈ (discovery.extractForms lib c htmlContent currentPath depth).endpoints ∧
    e.Source = "form" ∧
    ∃ m, e.Metadata = Metadata.inputs m ∧
      ((discovery.attr input "type").getD "" = "email" →
        m.lookup name = some "test@example.com") ∧
      ((discovery.attr input "type").getD "" = "password" →
        m.lookup name = some "password123") ∧
      ((discovery.attr input "type").getD "" = "number" ∨
        (discovery.attr input "type").getD "" = "range" → m.lookup name = some "1") ∧
      ((discovery.attr input "type").getD "" = "checkbox" ∨
        (discovery.attr input "type").getD "" = "radio" → m.lookup name = some "on") ∧
      ((discovery.attr input "type").getD "" ≠ "email" →
        (discovery.attr input "type").getD "" ≠ "password" →
        (discovery.attr input "type").getD "" ≠ "number" →
        (discovery.attr input "type").getD "" ≠ "range" →
        (discovery.attr input "type").getD "" ≠ "checkbox" →
        (discovery.attr input "type").getD "" ≠ "radio" → m.lookup name = some "test") := by
  obtain ⟨h1, -, h3⟩ := discovery.formEndpoint_some lib c currentPath depth s e he
  have hlook := discovery.formInputs_lookup pre post input name (by rw [hname]; rfl) hne htyp
    hother
  rw [← hin, hval] at hlook
  refine ⟨?_, h1, discovery.formInputs s.Inputs, h3, ?_, ?_, ?_, ?_, ?_⟩
  · rw [discovery.extractForms_eq lib c htmlContent currentPath depth doc hdoc]
    exact List.mem_append_right _ (List.mem_filterMap.mpr ⟨s, hs, he⟩)
  · intro ht
    rw [hlook, ht]
    rfl
  · intro ht
    rw [hlook, ht]
    rfl
  · intro ht
    rw [hlook]
    rcases ht with ht | ht <;> rw [ht] <;> rfl
  · intro ht
    rw [hlook]
    rcases ht with ht | ht <;> rw [ht] <;> rfl
  · intro t1 t2 t3 t4 t5 t6
    rw [hlook]
    unfold discovery.inputValue
    rw [if_pos rfl, if_neg t1, if_neg t2, if_neg (fun h => h.elim t3 t4),
      if_neg (fun h => h.elim t5 t6)]

/-- C15 at the input of the scenario: a form with `<input name="email" type="email">`
yields an endpoint whose input map sends `email` to "test@example.com". -/
theorem C15_form_input_values_witness :
    (discovery.extractForms Example.lib Example.crawlerAtX Example.loginForm "/" 0).endpoints
      = [{ URL := "http://x/login", Method := "POST", Source := "form", Depth := 1,
           Metadata := Metadata.inputs [("email", "test@example.com")] }] ∧
    ∃ m, ({ URL := "http://x/login", Method := "POST", Source := "form", Depth := 1,
            Metadata := Metadata.inputs [("email", "test@example.com")] } : Endpoint).Metadata
        = Metadata.inputs m ∧
      m.lookup "email" = some "test@example.com" :=
  ⟨by decide,
   (C15_form_input_values Example.lib Example.crawlerAtX Example.loginForm "/" 0
      { forms := [{ Attrs := [("action", "/login"), ("method", "post")],
                    Inputs := [[("name", "email"), ("type", "email")]] }] }
      { Attrs := [("action", "/login"), ("method", "post")],
        Inputs := [[("name", "email"), ("type", "email")]] }
      { URL := "http://x/login", Method := "POST", Source := "form", Depth := 1,
        Metadata := Metadata.inputs [("email", "test@example.com")] }
      [] [] [("name", "email"), ("type", "email")] "email"
      rfl (by decide) (by decide) rfl rfl (by decide) (by decide) rfl
      (by decide)).2.2.imp (fun _ h => ⟨h.1, h.2.1 rfl⟩)⟩

/-- C16, the claim as stated fails: the page holds one form, whose action
`mailto:admin@x` normalises to the empty string, and the form extractor appends no
endpoint for it. -/
theorem C16_counterexample :
    Example.lib.NewDocumentFromReader Example.mailForm
      = Except.ok { forms := [{ Attrs := [("action", "mailto:admin@x")] }] } ∧
    discovery.normalizeURL Example.lib Example.crawlerAtX "mailto:admin@x" "/" = "" ∧
    (discovery.extractForms Example.lib Example.crawlerAtX Example.mailForm "/" 0).endpoints
      = [] :=
  ⟨rfl, by decide, by decide⟩

/-- C16 as amended: on a page that parses, fetched at path p and depth d, the form
extractor appends, in document order, exactly one endpoint for every form whose action
attribute (p when it is absent or empty) normalises to a non-empty URL, and none for
the other forms; that endpoint has source "form", depth d + 1, the upper-cased method
attribute (of "GET" when it is absent or empty) as method and the normalised action
as URL. -/
theorem C16_form_endpoints {κ : Type} (lib : Lib) (c : discovery.Crawler κ)
    (htmlContent currentPath : String) (depth : Int) (doc : Document)
    (hdoc : lib.NewDocumentFromReader htmlContent = Except.ok doc) :
    (discovery.extractForms lib c htmlContent currentPath depth).endpoints
      = c.endpoints ++ doc.forms.filterMap (discovery.formEndpoint lib c currentPath depth) ∧
    ∀ s : Selection,
      (discovery.normalizeURL lib c
          (if (discovery.attr s.Attrs "action").getD "" = "" then currentPath
            else (discovery.attr s.Attrs "action").getD "") currentPath ≠ "" →
        discovery.formEndpoint lib c currentPath depth s
          = some
            { URL := discovery.normalizeURL lib c
                (if (discovery.attr s.Attrs "action").getD "" = "" then currentPath
                  else (discovery.attr s.Attrs "action").getD "") currentPath
              Method := lib.ToUpper
                (if (discovery.attr s.Attrs "method").getD "" = "" then "GET"
                  else (discovery.attr s.Attrs "method").getD "")
              Source := "form"
              Depth := depth + 1
              Metadata := Metadata.inputs (discovery.formInputs s.Inputs) }) ∧
      (discovery.normalizeURL lib c
          (if (discovery.attr s.Attrs "action").getD "" = "" then currentPath
            else (discovery.attr s.Attrs "action").getD "") currentPath = "" →
        discovery.formEndpoint lib c currentPath depth s = none) := by
  constructor
  · rw [discovery.extractForms_eq lib c htmlContent currentPath depth doc hdoc]
  · intro s
    constructor
    · intro h
      unfold discovery.formEndpoint
      dsimp only
      rw [if_neg h]
    · intro h
      unfold discovery.formEndpoint
      dsimp only
      rw [if_pos h]

/-- C16 as amended, at a concrete input: the login form of the examples yields one
endpoint, `POST http://x/login` at depth 1. -/
theorem C16_form_endpoints_witness :
    (discovery.extractForms Example.lib Example.crawlerAtX Example.loginForm "/" 0).endpoints
      = Example.crawlerAtX.endpoints ++
        [{ URL := "http://x/login", Method := "POST", Source := "form", Depth := 1,
           Metadata := Metadata.inputs [("email", "test@example.com")] }] :=
  (C16_form_endpoints Example.lib Example.crawlerAtX Example.loginForm "/" 0
    { forms := [{ Attrs := [("action", "/login"), ("method", "post")],
                  Inputs := [[("name", "email"), ("type", "email")]] }] } rfl).1.trans
    (by decide)

theorem hasPrefix_head (s p : String) (a : Char) (rest : List Char) (hp : p.data = a :: rest)
    (h : hasPrefix s p = true) : ∃ tl, s.data = a :: tl := by
  unfold hasPrefix at h
  rw [hp] at h
  cases hs : s.data with
  | nil => rw [hs] at h; simp [List.isPrefixOf] at h
  | cons b tl =>
    rw [hs] at h
    simp only [List.isPrefixOf, Bool.and_eq_true, beq_iff_eq] at h
    exact ⟨tl, by rw [h.1]⟩

theorem not_http_of_head (s : String) (a : Char) (ha : a ≠ 'h')
    (h : ∃ tl, s.data = a :: tl) :
    ¬ (hasPrefix s "http://" = true ∨ hasPrefix s "https://" = true) := by
  obtain ⟨tl, htl⟩ := h
  rintro (h1 | h1)
  · obtain ⟨tl2, h2⟩ := hasPrefix_head s "http://" 'h' _ rfl h1
    rw [htl] at h2
    exact ha (List.cons.inj h2).1
  · obtain ⟨tl2, h2⟩ := hasPrefix_head s "https://" 'h' _ rfl h1
    rw [htl] at h2
    exact ha (List.cons.inj h2).1

namespace discovery

theorem normalizeURL_excluded {κ : Type} (lib : Lib) (c : Crawler κ) (href currentPath : String)
    (h : hasPrefix href "#" = true ∨ hasPrefix href "javascript:" = true ∨
      hasPrefix href "mailto:" = true ∨ hasPrefix href "tel:" = true) :
    normalizeURL lib c href currentPath = "" := by
  have hn : ¬ (hasPrefix href "http://" = true ∨ hasPrefix href "https://" = true) := by
    rcases h with h | h | h | h
    · exact not_http_of_head href '#' (by decide) (hasPrefix_head href "#" '#' _ rfl h)
    · exact not_http_of_head href 'j' (by decide)
        (hasPrefix_head href "javascript:" 'j' _ rfl h)
    · exact not_http_of_head href 'm' (by decide) (hasPrefix_head href "mailto:" 'm' _ rfl h)
    · exact not_http_of_head href 't' (by decide) (hasPrefix_head href "tel:" 't' _ rfl h)
  unfold normalizeURL
  rw [if_neg hn, if_pos]
  rcases h with h | h | h | h
  · exact Or.inr (Or.inr (Or.inl h))
  · exact Or.inr (Or.inr (Or.inr h))
  · exact Or.inl h
  · exact Or.inr (Or.inl h)

theorem normalizeURL_absolute {κ : Type} (lib : Lib) (c : Crawler κ) (href currentPath : String)
    (h : hasPrefix href "http://" = true ∨ hasPrefix href "https://" = true) :
    (normalizeURL lib c href currentPath = "" ∨ normalizeURL lib c href currentPath = href) ∧
    ((∀ parsed, lib.Parse href = Except.ok parsed → parsed.Host ≠ c.baseURL.Host) →
      normalizeURL lib c href currentPath = "") ∧
    (normalizeURL lib c href currentPath ≠ "" →
      ∃ parsed, lib.Parse href = Except.ok parsed ∧ parsed.Host = c.baseURL.Host) := by
  unfold normalizeURL
  rw [if_pos h]
  rcases hp : lib.Parse href with err | parsed
  · exact ⟨Or.inl rfl, fun _ => rfl, fun hne => absurd rfl hne⟩
  · dsimp only
    by_cases hh : parsed.Host = c.baseURL.Host
    · rw [if_neg (not_not.mpr hh)]
      exact ⟨Or.inr rfl, fun hall => absurd hh (hall parsed rfl), fun _ => ⟨parsed, rfl, hh⟩⟩
    · rw [if_pos hh]
      exact ⟨Or.inl rfl, fun _ => rfl, fun hne => absurd rfl hne⟩

theorem linkEndpoint_none {κ : Type} (lib : Lib) (c : Crawler κ) (currentPath : String)
    (depth : Int) (s : Selection) (href : String)
    (hs : attr s.Attrs "href" = some href)
    (h : normalizeURL lib c href currentPath = "") :
    linkEndpoint lib c currentPath depth s = none := by
  unfold linkEndpoint
  rw [hs]
  dsimp only
  rw [h]
  split_ifs <;> first | rfl | (exfalso; simp_all)

theorem tokenLink_none {κ : Type} (lib : Lib) (c : Crawler κ) (currentPath : String)
    (depth : Int) (key href : String)
    (h : normalizeURL lib c href currentPath = "") :
    tokenLink lib c currentPath depth (key, href) = none := by
  unfold tokenLink
  dsimp only
  rw [h]
  split_ifs <;> first | rfl | (exfalso; simp_all)

end discovery

/-- C17: `normalizeURL` returns the empty string for every href that begins with "#",
"javascript:", "mailto:" or "tel:" and for every absolute http:// or https:// href
that does not parse to the host of the base URL; an href it returns the empty string
for gives no endpoint in either link extractor, whose endpoints are exactly those of
`linkEndpoint` on the anchors (page parsed) or of `tokenLinks` on the tags (page not
parsed); and an absolute href it accepts parses to the host of the base URL and is
returned unchanged. -/
theorem C17_excluded_links {κ : Type} (lib : Lib) (c : discovery.Crawler κ)
    (href currentPath : String) (depth : Int) :
    ((hasPrefix href "#" = true ∨ hasPrefix href "javascript:" = true ∨
        hasPrefix href "mailto:" = true ∨ hasPrefix href "tel:" = true) →
      discovery.normalizeURL lib c href currentPath = "") ∧
    ((hasPrefix href "http://" = true ∨ hasPrefix href "https://" = true) →
      (∀ parsed, lib.Parse href = Except.ok parsed → parsed.Host ≠ c.baseURL.Host) →
      discovery.normalizeURL lib c href currentPath = "") ∧
    (discovery.normalizeURL lib c href currentPath = "" →
      (∀ s : Selection, discovery.attr s.Attrs "href" = some href →
        discovery.linkEndpoint lib c currentPath depth s = none) ∧
      (∀ key : String, discovery.tokenLink lib c currentPath depth (key, href) = none)) ∧
    (∀ (htmlContent : String) (doc : Document),
      lib.NewDocumentFromReader htmlContent = Except.ok doc →
      (discovery.extractLinks lib c htmlContent currentPath depth).endpoints
        = c.endpoints ++ doc.anchors.filterMap (discovery.linkEndpoint lib c currentPath depth)) ∧
    (∀ (htmlContent err : String),
      lib.NewDocumentFromReader htmlContent = Except.error err →
      (discovery.extractLinks lib c htmlContent currentPath depth).endpoints
        = c.endpoints ++
          (lib.Tokens htmlContent).flatMap (discovery.tokenLinks lib c currentPath depth)) ∧
    ((hasPrefix href "http://" = true ∨ hasPrefix href "https://" = true) →
      discovery.normalizeURL lib c href currentPath ≠ "" →
      discovery.normalizeURL lib c href currentPath = href ∧
      ∃ parsed, lib.Parse href = Except.ok parsed ∧ parsed.Host = c.baseURL.Host) := by
  refine ⟨discovery.normalizeURL_excluded lib c href currentPath, ?_, ?_, ?_, ?_, ?_⟩
  · intro h hall
    exact (discovery.normalizeURL_absolute lib c href currentPath h).2.1 hall
  · intro h
    exact ⟨fun s hs => discovery.linkEndpoint_none lib c currentPath depth s href hs h,
      fun key => discovery.tokenLink_none lib c currentPath depth key href h⟩
  · intro htmlContent doc hdoc
    rw [discovery.extractLinks_eq lib c htmlContent currentPath depth doc hdoc]
  · intro htmlContent err hdoc
    unfold discovery.extractLinks
    rw [hdoc]
    dsimp only
    rw [discovery.extractLinksWithTokenizer_eq]
  · intro h hne
    obtain ⟨h1, -, h3⟩ := discovery.normalizeURL_absolute lib c href currentPath h
    exact ⟨h1.resolve_left hne, h3 hne⟩

/-- C17 at concrete inputs: a `mailto:` href normalises to the empty string, and the
absolute href `http://x/a` of the host of the base URL is returned unchanged. -/
theorem C17_excluded_links_witness :
    hasPrefix "mailto:admin@x" "mailto:" = true ∧
    discovery.normalizeURL Example.lib Example.crawlerAtX "mailto:admin@x" "/" = "" ∧
    discovery.normalizeURL Example.lib Example.crawlerAtX "http://x/a" "/" = "http://x/a" :=
  ⟨by decide,
   (C17_excluded_links Example.lib Example.crawlerAtX "mailto:admin@x" "/" 0).1
      (Or.inr (Or.inr (Or.inl (by decide)))),
   ((C17_excluded_links Example.lib Example.crawlerAtX "http://x/a" "/" 0).2.2.2.2.2
      (Or.inl (by decide)) (by decide)).1⟩

/-- C18, the code at a failing input: the content `fetch('/api/x', {method: 'POST'})`
matches the pattern that captures the path first and the method second; the script
extractor takes the first group for the method and the second for the path, and
records `http://x/POST` with method `/api/x`.  The other two matches give
`http://x/api/x` with method GET; no endpoint has that URL with method POST. -/
theorem C18_fetch_groups_swapped :
    Example.lib.FindAllStringSubmatch (discovery.patterns.getD 1 "") Example.fetchCall
      = [["fetch(\x27/api/x\x27, \x7bmethod: \x27POST\x27", "/api/x", "POST"]] ∧
    (discovery.extractFromJS Example.lib Example.crawlerAtX Example.fetchCall "/" 0).endpoints
      = [{ URL := "http://x/api/x", Method := "GET", Source := "javascript", Depth := 1,
           Metadata := Metadata.pattern (discovery.patterns.getD 0 "") },
         { URL := "http://x/POST", Method := "/api/x", Source := "javascript", Depth := 1,
           Metadata := Metadata.pattern (discovery.patterns.getD 1 "") },
         { URL := "http://x/api/x", Method := "GET", Source := "javascript", Depth := 1,
           Metadata := Metadata.pattern (discovery.patterns.getD 8 "") }] ∧
    ∀ e ∈ (discovery.extractFromJS Example.lib Example.crawlerAtX Example.fetchCall "/"
        0).endpoints, ¬ (e.URL = "http://x/api/x" ∧ e.Method = "POST") := by
  decide

theorem dropTrailing_eq (ch : Char) (l : List Char) :
    dropTrailing ch l = (l.reverse.dropWhile (fun x => x == ch)).reverse := by
  induction l with
  | nil => rfl
  | cons x xs ih =>
    rw [dropTrailing, ih, List.reverse_cons, List.dropWhile_append]
    cases h : xs.reverse.dropWhile (fun x => x == ch) with
    | nil =>
      simp only [List.isEmpty_nil, if_true, List.reverse_nil, List.dropWhile_cons,
        List.dropWhile_nil]
      by_cases hx : x = ch
      · simp [hx]
      · simp [hx]
    | cons y ys =>
      simp only [List.isEmpty_cons, Bool.false_eq_true, if_false, List.reverse_append,
        List.reverse_cons, List.reverse_nil, List.nil_append, List.singleton_append]
      cases hr : ys.reverse ++ [y] with
      | nil => simp at hr
      | cons a as => rfl

theorem trimRightSlash_eq (b : String) :
    trimRightSlash b = bruteforce.withoutTrailingSlashes b := by
  unfold trimRightSlash bruteforce.withoutTrailingSlashes
  rw [dropTrailing_eq]

theorem trimPrefix_slash_eq (p : String) :
    trimPrefix p "/" = bruteforce.withoutLeadingSlash p := by
  unfold trimPrefix bruteforce.withoutLeadingSlash hasPrefix
  have hd : ("/" : String).data = ['/'] := rfl
  rw [hd]
  cases hp : p.data with
  | nil => simp [List.isPrefixOf]
  | cons a as =>
    by_cases ha : a = '/'
    · subst ha
      simp [List.isPrefixOf]
    · have h1 : List.isPrefixOf ['/'] (a :: as) = false := by
        simp [List.isPrefixOf]
        exact fun h => ha h.symm
      rw [h1]
      simp only [Bool.false_eq_true, if_false]
      split
      · next rest heq =>
        exact absurd (List.cons.inj heq).1 ha
      · rfl

namespace bruteforce

theorem buildTasks_eq (baseURL : String) (wordlist methods : List String) :
    buildTasks baseURL wordlist methods = queueOf baseURL wordlist methods := by
  unfold queueOf
  induction wordlist with
  | nil => rfl
  | cons p rest ih =>
    rw [buildTasks, ih, List.flatMap_cons, trimRightSlash_eq, trimPrefix_slash_eq]

theorem suffix_step {κ : Type} (lib : Lib) (cl : HTTPClient κ) (i : Nat) (s : Scan κ) :
    List.IsSuffix (stepWorker lib cl i s).tasks s.tasks := by
  unfold stepWorker
  split
  · exact List.suffix_refl _
  · split
    · exact List.suffix_refl _
    · next t rest ht =>
      rw [ht]
      exact List.suffix_cons t rest
  · split <;> exact List.suffix_refl _
  · exact List.suffix_refl _
  · exact List.suffix_refl _
  · exact List.suffix_refl _

theorem suffix_runEvents {κ : Type} (lib : Lib) (cl : HTTPClient κ) (sched : List Event) :
    ∀ s : Scan κ, List.IsSuffix (runEvents lib cl s sched).tasks s.tasks := by
  induction sched with
  | nil => intro s; exact List.suffix_refl _
  | cons e rest ih =>
    intro s
    refine List.IsSuffix.trans (ih (applyEvent lib cl s e)) ?_
    cases e with
    | step i => exact suffix_step lib cl i s
    | cancel => exact List.suffix_refl _
    | tick => exact List.suffix_refl _

theorem suffix_iterate {κ : Type} (lib : Lib) (cl : HTTPClient κ) (i n : Nat) :
    ∀ s : Scan κ, List.IsSuffix ((stepWorker lib cl i)^[n] s).tasks s.tasks := by
  induction n with
  | zero => intro s; exact List.suffix_refl _
  | succ n ih =>
    intro s
    rw [Function.iterate_succ_apply]
    exact List.IsSuffix.trans (ih _) (suffix_step lib cl i s)

theorem suffix_drain {κ : Type} (lib : Lib) (cl : HTTPClient κ) (s : Scan κ) :
    List.IsSuffix (drain lib cl s).tasks s.tasks := by
  unfold drain
  generalize List.range s.workers.length = l
  induction l generalizing s with
  | nil => exact List.suffix_refl _
  | cons i rest ih =>
    rw [List.foldl_cons]
    exact List.IsSuffix.trans (ih _) (suffix_iterate lib cl i _ s)

end bruteforce

/-- C19: the queue `ScanWordlist` has built when it starts its workers is the list of
the pairs (U(p), m), p in wordlist order and m in method order within each path, where
U(p) is the base URL without its trailing "/"s, then "/", then p without one leading
"/"; it has len(wordlist) * len(methods) entries, no worker has taken a task yet, and
at every later moment the queue is a final segment of it: no task is added. -/
theorem C19_task_queue {κ : Type} (lib : Lib) (cl : HTTPClient κ) (k : κ) (ctxDone : Bool)
    (baseURL : String) (wordlist methods : List String) (concurrency : Int)
    (sched : List bruteforce.Event) :
    (bruteforce.start k ctxDone baseURL wordlist methods concurrency).tasks
      = bruteforce.queueOf baseURL wordlist methods ∧
    (bruteforce.start k ctxDone baseURL wordlist methods concurrency).tasks.length
      = wordlist.length * methods.length ∧
    (∀ w ∈ (bruteforce.start k ctxDone baseURL wordlist methods concurrency).workers,
      w = bruteforce.Worker.receiving) ∧
    bruteforce.ScanWordlist lib cl k ctxDone baseURL wordlist methods concurrency sched
      = ((bruteforce.drain lib cl (bruteforce.runEvents lib cl
            (bruteforce.start k ctxDone baseURL wordlist methods concurrency) sched)).client,
         (bruteforce.drain lib cl (bruteforce.runEvents lib cl
            (bruteforce.start k ctxDone baseURL wordlist methods concurrency) sched)).results) ∧
    List.IsSuffix
      (bruteforce.runEvents lib cl
        (bruteforce.start k ctxDone baseURL wordlist methods concurrency) sched).tasks
      (bruteforce.queueOf baseURL wordlist methods) ∧
    List.IsSuffix
      (bruteforce.drain lib cl (bruteforce.runEvents lib cl
        (bruteforce.start k ctxDone baseURL wordlist methods concurrency) sched)).tasks
      (bruteforce.queueOf baseURL wordlist methods) := by
  have h0 : (bruteforce.start k ctxDone baseURL wordlist methods concurrency).tasks
      = bruteforce.queueOf baseURL wordlist methods :=
    bruteforce.buildTasks_eq baseURL wordlist methods
  have h1 := bruteforce.suffix_runEvents lib cl sched
    (bruteforce.start k ctxDone baseURL wordlist methods concurrency)
  have h2 := bruteforce.suffix_drain lib cl (bruteforce.runEvents lib cl
    (bruteforce.start k ctxDone baseURL wordlist methods concurrency) sched)
  rw [h0] at h1
  refine ⟨h0, bruteforce.length_buildTasks baseURL wordlist methods, ?_, rfl, h1,
    List.IsSuffix.trans h2 h1⟩
  intro w hw
  exact List.eq_of_mem_replicate hw

namespace bruteforce

theorem idleCancelled_step {κ : Type} (lib : Lib) (cl : HTTPClient κ) (k : κ) (i : Nat)
    (s : Scan κ) (hs : idleCancelled k s) : idleCancelled k (stepWorker lib cl i s) := by
  obtain ⟨h1, h2, h3, h4⟩ := hs
  rcases hg : s.workers.get? i with _ | v
  · have e : stepWorker lib cl i s = s := by unfold stepWorker; rw [hg]
    rw [e]; exact ⟨h1, h2, h3, h4⟩
  · have hv := h4 v (List.get?_mem hg)
    have hset : ∀ w2, (w2 = Worker.receiving ∨ (∃ t, w2 = Worker.selecting t) ∨
        w2 = Worker.done) → ∀ w ∈ s.workers.set i w2,
        w = Worker.receiving ∨ (∃ t, w = Worker.selecting t) ∨ w = Worker.done := by
      intro w2 hw2 w hw
      rcases List.mem_or_eq_of_mem_set hw with hm | he
      · exact h4 w hm
      · rw [he]; exact hw2
    rcases hv with hv | ⟨t, hv⟩ | hv
    · subst hv
      rcases ht : s.tasks with _ | ⟨t, rest⟩
      · have e : stepWorker lib cl i s = { s with workers := s.workers.set i Worker.done } := by
          unfold stepWorker; rw [hg]; dsimp only; rw [ht]
        rw [e]
        exact ⟨h1, h2, h3, hset _ (Or.inr (Or.inr rfl))⟩
      · have e : stepWorker lib cl i s =
            { s with tasks := rest, workers := s.workers.set i (Worker.selecting t) } := by
          unfold stepWorker; rw [hg]; dsimp only; rw [ht]
        rw [e]
        exact ⟨h1, h2, h3, hset _ (Or.inr (Or.inl ⟨t, rfl⟩))⟩
    · subst hv
      have e : stepWorker lib cl i s = { s with workers := s.workers.set i Worker.done } := by
        unfold stepWorker; rw [hg]; dsimp only; rw [if_pos h1]
      rw [e]
      exact ⟨h1, h2, h3, hset _ (Or.inr (Or.inr rfl))⟩
    · subst hv
      have e : stepWorker lib cl i s = s := by unfold stepWorker; rw [hg]
      rw [e]; exact ⟨h1, h2, h3, h4⟩

theorem idleCancelled_runEvents {κ : Type} (lib : Lib) (cl : HTTPClient κ) (k : κ)
    (sched : List Event) :
    ∀ s : Scan κ, idleCancelled k s → idleCancelled k (runEvents lib cl s sched) := by
  induction sched with
  | nil => intro s hs; exact hs
  | cons e rest ih =>
    intro s hs
    refine ih _ ?_
    cases e with
    | step i => exact idleCancelled_step lib cl k i s hs
    | cancel => exact ⟨rfl, hs.2.1, hs.2.2.1, hs.2.2.2⟩
    | tick => exact hs

theorem idleCancelled_iterate {κ : Type} (lib : Lib) (cl : HTTPClient κ) (k : κ) (i n : Nat) :
    ∀ s : Scan κ, idleCancelled k s → idleCancelled k ((stepWorker lib cl i)^[n] s) := by
  induction n with
  | zero => intro s hs; exact hs
  | succ n ih =>
    intro s hs
    rw [Function.iterate_succ_apply]
    exact ih _ (idleCancelled_step lib cl k i s hs)

theorem idleCancelled_drain {κ : Type} (lib : Lib) (cl : HTTPClient κ) (k : κ) (s : Scan κ)
    (hs : idleCancelled k s) : idleCancelled k (drain lib cl s) := by
  unfold drain
  generalize List.range s.workers.length = l
  induction l generalizing s with
  | nil => exact hs
  | cons i rest ih => exact ih _ (idleCancelled_iterate lib cl k i _ s hs)

theorem done_stable_runEvents {κ : Type} (lib : Lib) (cl : HTTPClient κ) (j : Nat)
    (sched : List Event) :
    ∀ s : Scan κ, s.workers.get? j = some Worker.done →
      (runEvents lib cl s sched).workers.get? j = some Worker.done := by
  induction sched with
  | nil => intro s hs; exact hs
  | cons e rest ih =>
    intro s hs
    refine ih _ ?_
    cases e with
    | step i => exact done_stable lib cl i j s hs
    | cancel => exact hs
    | tick => exact hs

end bruteforce

namespace bruteforce

theorem stepWorker_done {κ : Type} (lib : Lib) (cl : HTTPClient κ) (i : Nat) (s : Scan κ)
    (h : s.workers.get? i = some Worker.done) : stepWorker lib cl i s = s := by
  unfold stepWorker
  rw [h]

end bruteforce

/-- C20: when the context is cancelled at the call, `ScanWordlist` hands the client no
request and returns the empty result list, for every wordlist, method list,
concurrency and interleaving; and in general a worker that finds the context cancelled
at its `select` returns without a request or a result, stays returned whatever happens
next, and makes no further move. -/
theorem C20_cancelled_scan {κ : Type} (lib : Lib) (cl : HTTPClient κ) (k : κ)
    (log : List Request) (baseURL : String) (wordlist methods : List String)
    (concurrency : Int) (sched : List bruteforce.Event) :
    bruteforce.ScanWordlist lib (recording cl) (k, log) true baseURL wordlist methods
      concurrency sched = ((k, log), []) ∧
    ∀ (s : bruteforce.Scan (κ × List Request)) (i : Nat) (t : bruteforce.task),
      s.workers.get? i = some (bruteforce.Worker.selecting t) → s.cancelled = true →
      (bruteforce.stepWorker lib (recording cl) i s).workers.get? i
        = some bruteforce.Worker.done ∧
      (bruteforce.stepWorker lib (recording cl) i s).client = s.client ∧
      (bruteforce.stepWorker lib (recording cl) i s).results = s.results ∧
      ∀ later : List bruteforce.Event,
        (bruteforce.runEvents lib (recording cl)
          (bruteforce.stepWorker lib (recording cl) i s) later).workers.get? i
          = some bruteforce.Worker.done ∧
        bruteforce.stepWorker lib (recording cl) i
          (bruteforce.runEvents lib (recording cl)
            (bruteforce.stepWorker lib (recording cl) i s) later)
          = bruteforce.runEvents lib (recording cl)
            (bruteforce.stepWorker lib (recording cl) i s) later := by
  constructor
  · have h0 : bruteforce.idleCancelled ((k, log) : κ × List Request)
        (bruteforce.start ((k, log) : κ × List Request) true baseURL wordlist methods
          concurrency) :=
      ⟨rfl, rfl, rfl, fun w hw => Or.inl (List.eq_of_mem_replicate hw)⟩
    obtain ⟨-, h2, h3, -⟩ := bruteforce.idleCancelled_drain lib (recording cl) _ _
      (bruteforce.idleCancelled_runEvents lib (recording cl) _ sched _ h0)
    show ((bruteforce.drain lib (recording cl) (bruteforce.runEvents lib (recording cl)
        (bruteforce.start ((k, log) : κ × List Request) true baseURL wordlist methods
          concurrency) sched)).client,
      (bruteforce.drain lib (recording cl) (bruteforce.runEvents lib (recording cl)
        (bruteforce.start ((k, log) : κ × List Request) true baseURL wordlist methods
          concurrency) sched)).results) = _
    rw [h2, h3]
  · intro s i t hg hc
    have hlt : i < s.workers.length := by
      rw [List.get?_eq_getElem?] at hg
      exact (List.getElem?_eq_some_iff.mp hg).1
    have e : bruteforce.stepWorker lib (recording cl) i s
        = { s with workers := s.workers.set i bruteforce.Worker.done } := by
      unfold bruteforce.stepWorker; rw [hg]; dsimp only; rw [if_pos hc]
    have hd : (bruteforce.stepWorker lib (recording cl) i s).workers.get? i
        = some bruteforce.Worker.done := by
      rw [e, List.get?_eq_getElem?]
      exact List.getElem?_set_eq_of_lt _ hlt
    refine ⟨hd, by rw [e], by rw [e], ?_⟩
    intro later
    have hl := bruteforce.done_stable_runEvents lib (recording cl) i later _ hd
    exact ⟨hl, bruteforce.stepWorker_done lib (recording cl) i _ hl⟩

/-- C20 at a concrete input: the context is cancelled at the call, two workers, four
tasks; no request is recorded and no result returned.  Worker 0, after receiving its
first task, finds the context cancelled and returns. -/
theorem C20_cancelled_scan_witness :
    bruteforce.ScanWordlist Example.lib (recording Example.flaky) ((), []) true "http://x/"
      ["a", "b"] ["GET", "POST"] 2 Example.interleaving = (((), []), []) ∧
    (bruteforce.stepWorker Example.lib (recording Example.flaky) 0
      (bruteforce.start ((), []) true "http://x/" ["a", "b"] ["GET", "POST"] 2)).workers.get? 0
      = some (bruteforce.Worker.selecting { url := "http://x/a", method := "GET" }) ∧
    (bruteforce.stepWorker Example.lib (recording Example.flaky) 0
      (bruteforce.stepWorker Example.lib (recording Example.flaky) 0
        (bruteforce.start ((), []) true "http://x/" ["a", "b"] ["GET", "POST"]
          2))).workers.get? 0 = some bruteforce.Worker.done :=
  ⟨(C20_cancelled_scan Example.lib Example.flaky () [] "http://x/" ["a", "b"]
      ["GET", "POST"] 2 Example.interleaving).1,
   by decide,
   ((C20_cancelled_scan Example.lib Example.flaky () [] "http://x/" ["a", "b"]
      ["GET", "POST"] 2 Example.interleaving).2
      (bruteforce.stepWorker Example.lib (recording Example.flaky) 0
        (bruteforce.start ((), []) true "http://x/" ["a", "b"] ["GET", "POST"] 2))
      0 { url := "http://x/a", method := "GET" } (by decide) (by decide)).1⟩

/-! ## One request per call -/

/-- C21: for every request and every state of the transport, `Do` sends exactly
one request through the wrapped client (the request after the defaults are
applied is the one entry added to the record), returns the response or error of
that request as it is, and leaves the wrapped client as that request left it;
the index of the active proxy becomes `(index + 1) % count` when the request
failed, rotation is enabled and more than one proxy is held, and is the old
index in every other case. -/
theorem C21_single_request {τ : Type} (lib : Lib) (net : httpclient.NetClient τ)
    (c : httpclient.Client (τ × List Request)) (req : Request) :
    (httpclient.Client.Do lib (httpclient.recordingNet net) c req).1.client.2
      = c.client.2 ++ [httpclient.prepare lib c.config req] ∧
    (httpclient.Client.Do lib (httpclient.recordingNet net) c req).2
      = (net.Do c.client.1 c.Proxy (httpclient.prepare lib c.config req)).2 ∧
    (httpclient.Client.Do lib (httpclient.recordingNet net) c req).1.client.1
      = (net.Do c.client.1 c.Proxy (httpclient.prepare lib c.config req)).1 ∧
    (httpclient.Client.Do lib (httpclient.recordingNet net) c req).1.currentProxy
      = (if httpclient.failed
              (net.Do c.client.1 c.Proxy (httpclient.prepare lib c.config req)).2 = true ∧
            c.config.ProxyRotate = true ∧ c.proxies.length > 1
          then (c.currentProxy + 1) % c.proxies.length else c.currentProxy) := by
  refine ⟨?_, ?_, ?_, ?_⟩
  · rw [httpclient.Do_client]; rfl
  · rw [httpclient.Do_snd]; rfl
  · rw [httpclient.Do_client]; rfl
  · unfold httpclient.Client.Do httpclient.recordingNet
    dsimp only
    split_ifs <;> rfl

/-- C22: the transport configured with the default cookie `session=def` and the
default header `X-Token: def` is handed a request on which the caller set the
cookie `session=abc` and the header `X-Token: abc`.  The request sent keeps the
caller's header alone, but carries the cookie name `session` twice: the
caller's cookie followed by the configured one. -/
theorem C22_default_cookie_added_twice :
    (httpclient.Client.Do Example.lib (httpclient.recordingNet Example.liveNet)
        { client := ((), []), config := Example.cookieConfig } Example.cookieRequest).1.client.2
      = [{ Method := "GET", URL := "http://x/"
           Header := [("X-Token", ["abc"])]
           Cookies := [("session", "abc"), ("session", "def")] }] := by
  decide

/-! ## The result of a probe that was read -/

namespace bruteforce

theorem mem_firstValues (h : List (String × List String)) (name value : String) :
    (name, value) ∈ firstValues h ↔ ∃ rest, (name, value :: rest) ∈ h := by
  induction h with
  | nil => simp [firstValues]
  | cons e t ih =>
    obtain ⟨k, vs⟩ := e
    cases vs with
    | nil =>
      rw [firstValues, ih]
      constructor
      · rintro ⟨rest, hr⟩
        exact ⟨rest, List.mem_cons_of_mem _ hr⟩
      · rintro ⟨rest, hr⟩
        rcases List.mem_cons.mp hr with heq | hr
        · cases heq
        · exact ⟨rest, hr⟩
    | cons v0 vt =>
      rw [firstValues, List.mem_cons, ih]
      constructor
      · rintro (heq | ⟨rest, hr⟩)
        · cases heq
          exact ⟨vt, List.mem_cons_self _ _⟩
        · exact ⟨rest, List.mem_cons_of_mem _ hr⟩
      · rintro ⟨rest, hr⟩
        rcases List.mem_cons.mp hr with heq | hr
        · cases heq
          exact Or.inl rfl
        · exact Or.inr ⟨rest, hr⟩

theorem firstValues_names (h : List (String × List String)) :
    List.Sublist ((firstValues h).map Prod.fst) (h.map Prod.fst) := by
  induction h with
  | nil => simp [firstValues]
  | cons e t ih =>
    obtain ⟨k, vs⟩ := e
    cases vs with
    | nil =>
      rw [firstValues]
      exact List.Sublist.cons _ ih
    | cons v0 vt =>
      rw [firstValues]
      exact List.Sublist.cons₂ _ ih

theorem testEndpoint_title {κ : Type} (lib : Lib) (cl : HTTPClient κ) (k k1 : κ) (now : Nat)
    (url method body : String) (req : Request) (resp : Response)
    (h : probeRequest lib url method = Except.ok req)
    (hd : cl.Do k req = (k1, Except.ok resp))
    (hb : resp.Body = Except.ok body)
    (hct : contains (headerGet lib resp.Header "Content-Type") "text/html" = false) :
    (testEndpoint lib cl k now url method).2.Title = "" := by
  unfold testEndpoint
  rw [h]
  dsimp only
  rw [hd]
  dsimp only
  rw [hb]
  dsimp only
  rw [hct]
  rfl

end bruteforce

/-- C25: for every probe whose request was built, answered and whose body was read,
the result carries the status code of the response and the byte length of the
body as its size; a pair (name, value) is in its header map exactly when the
response holds that name with at least one value of which `value` is the first,
and the names of the map are distinct when those of the response are; and its
title is empty when the Content-Type of the response does not contain
"text/html". -/
theorem C25_successful_probe {κ : Type} (lib : Lib) (cl : HTTPClient κ) (k k1 : κ) (now : Nat)
    (url method body : String) (req : Request) (resp : Response) (name value : String)
    (h : bruteforce.probeRequest lib url method = Except.ok req)
    (hd : cl.Do k req = (k1, Except.ok resp))
    (hb : resp.Body = Except.ok body) :
    (bruteforce.testEndpoint lib cl k now url method).2.StatusCode = resp.StatusCode ∧
    (bruteforce.testEndpoint lib cl k now url method).2.Size = (body.utf8ByteSize : Int) ∧
    ((name, value) ∈ (bruteforce.testEndpoint lib cl k now url method).2.Headers ↔
      ∃ rest, (name, value :: rest) ∈ resp.Header) ∧
    ((resp.Header.map Prod.fst).Nodup →
      ((bruteforce.testEndpoint lib cl k now url method).2.Headers.map Prod.fst).Nodup) ∧
    (contains (headerGet lib resp.Header "Content-Type") "text/html" = false →
      (bruteforce.testEndpoint lib cl k now url method).2.Title = "") := by
  have hr := bruteforce.testEndpoint_read lib cl k k1 now url method body req resp h hd hb
  refine ⟨hr.2.1, hr.2.2.1, ?_, ?_, ?_⟩
  · rw [hr.2.2.2.1]
    exact bruteforce.mem_firstValues _ _ _
  · intro hn
    rw [hr.2.2.2.1]
    exact hn.sublist (bruteforce.firstValues_names _)
  · intro hct
    exact bruteforce.testEndpoint_title lib cl k k1 now url method body req resp h hd hb hct

/-- C25 at a probe of `http://x/a` answered with status 200, the three-byte body
`[1]`, Content-Type `application/json`, two `Set-Cookie` values and a header without
values: the result has status 200, size 3, the header map with the first values
of the two names that have one, and an empty title. -/
theorem C25_successful_probe_witness :
    (bruteforce.testEndpoint Example.lib Example.jsonSite () 0 "http://x/a" "GET").2
      = { URL := "http://x/a", Method := "GET", StatusCode := 200, Size := 3, Body := "[1]",
          Headers := [("Content-Type", "application/json"), ("Set-Cookie", "a=1")] } ∧
    (bruteforce.testEndpoint Example.lib Example.jsonSite () 0 "http://x/a" "GET").2.StatusCode
      = 200 ∧
    (bruteforce.testEndpoint Example.lib Example.jsonSite () 0 "http://x/a" "GET").2.Size = 3 ∧
    ("Set-Cookie", "a=1") ∈
      (bruteforce.testEndpoint Example.lib Example.jsonSite () 0 "http://x/a" "GET").2.Headers ∧
    (bruteforce.testEndpoint Example.lib Example.jsonSite () 0 "http://x/a" "GET").2.Title
      = "" :=
  have hw := C25_successful_probe Example.lib Example.jsonSite () () 0 "http://x/a" "GET" "[1]"
    { Method := "GET", URL := "http://x/a"
      Header := [("User-Agent", ["GoBruteScanner/1.0"]), ("Accept", ["*/*"])] }
    { StatusCode := 200
      Header := [("Content-Type", ["application/json"]),
                 ("Set-Cookie", ["a=1", "b=2"]), ("X-Empty", [])]
      Body := Except.ok "[1]" }
    "Set-Cookie" "a=1" rfl rfl rfl
  ⟨by decide, hw.1, hw.2.1, hw.2.2.1.mpr ⟨["b=2"], by decide⟩, hw.2.2.2.2 (by decide)⟩

/-! ## The User-Agent of the requests sent -/

theorem lookup_set_self {β : Type} (ck : String) (x : β) :
    ∀ h : List (String × β),
      (if h.any (fun e => e.1 == ck) = true then h.map (fun e => if e.1 == ck then (ck, x) else e)
        else h ++ [(ck, x)]).lookup ck = some x := by
  intro h
  induction h with
  | nil => simp [List.lookup]
  | cons e es ih =>
    obtain ⟨a, b⟩ := e
    by_cases he : a = ck
    · have he2 : (a == ck) = true := by simpa using he
      rw [if_pos (by rw [List.any_cons, he2, Bool.true_or]), List.map_cons]
      simp only [he2, if_true]
      rw [List.lookup_cons]
      simp
    · have he2 : (a == ck) = false := by simpa using he
      have hke : (ck == a) = false := by simpa using fun x => he x.symm
      by_cases hany : es.any (fun e => e.1 == ck) = true
      · rw [if_pos hany] at ih
        rw [if_pos (by rw [List.any_cons, hany, Bool.or_true]), List.map_cons]
        simp only [he2, Bool.false_eq_true, if_false]
        rw [List.lookup_cons, hke]
        exact ih
      · rw [if_neg hany] at ih
        rw [if_neg (by rw [List.any_cons, he2, Bool.false_or]; exact hany), List.cons_append,
          List.lookup_cons, hke]
        exact ih

theorem lookup_set_other {β : Type} (ck k : String) (x : β) (hne : k ≠ ck) :
    ∀ h : List (String × β),
      (if h.any (fun e => e.1 == ck) = true then h.map (fun e => if e.1 == ck then (ck, x) else e)
        else h ++ [(ck, x)]).lookup k = h.lookup k := by
  have hk : (k == ck) = false := by simpa using hne
  have hmap : ∀ h : List (String × β),
      (h.map (fun e => if e.1 == ck then (ck, x) else e)).lookup k = h.lookup k := by
    intro h
    induction h with
    | nil => rfl
    | cons e es ih =>
      obtain ⟨a, b⟩ := e
      rw [List.map_cons]
      by_cases he : a = ck
      · have he2 : (a == ck) = true := by simpa using he
        have hka : (k == a) = false := by rw [he]; exact hk
        simp only [he2, if_true]
        rw [List.lookup_cons, hk, List.lookup_cons, hka]
        exact ih
      · have he2 : (a == ck) = false := by simpa using he
        simp only [he2, Bool.false_eq_true, if_false]
        rw [List.lookup_cons, List.lookup_cons, ih]
  have happ : ∀ h : List (String × β), (h ++ [(ck, x)]).lookup k = h.lookup k := by
    intro h
    induction h with
    | nil => rw [List.nil_append, List.lookup_cons, hk]
    | cons e es ih =>
      obtain ⟨a, b⟩ := e
      rw [List.cons_append, List.lookup_cons, List.lookup_cons, ih]
  intro h
  split_ifs
  · exact hmap h
  · exact happ h

theorem headerGet_set_self (lib : Lib) (h : List (String × List String)) (k v : String) :
    headerGet lib (headerSet lib h k v) k = v := by
  unfold headerGet headerSet
  dsimp only
  rw [lookup_set_self]

theorem headerGet_set_other (lib : Lib) (h : List (String × List String)) (k k2 v : String)
    (hne : lib.CanonicalMIMEHeaderKey k ≠ lib.CanonicalMIMEHeaderKey k2) :
    headerGet lib (headerSet lib h k2 v) k = headerGet lib h k := by
  unfold headerGet headerSet
  dsimp only
  rw [lookup_set_other _ _ _ hne]

theorem headerGet_canonical (lib : Lib) (h : List (String × List String)) (k k2 : String)
    (heq : lib.CanonicalMIMEHeaderKey k = lib.CanonicalMIMEHeaderKey k2) :
    headerGet lib h k = headerGet lib h k2 := by
  unfold headerGet
  rw [heq]

namespace httpclient

theorem getIsEmpty_headerGet (lib : Lib) (req : Request) (k : String)
    (h : getIsEmpty lib req k = true) : headerGet lib req.Header k = "" := by
  unfold getIsEmpty at h
  exact (of_decide_eq_true h).1

theorem foldl_headers_agent (lib : Lib) (hs : List (String × String)) :
    ∀ req : Request, carriesAgent lib req = true →
      carriesAgent lib (hs.foldl (fun (r : Request) kv =>
        if getIsEmpty lib r kv.1 = true then
          { r with Header := headerSet lib r.Header kv.1 kv.2 } else r) req) = true := by
  induction hs with
  | nil => intro req h; exact h
  | cons kv rest ih =>
    intro req h
    rw [List.foldl_cons]
    apply ih
    split_ifs with hempty
    · have hget := getIsEmpty_headerGet lib req kv.1 hempty
      unfold carriesAgent at h ⊢
      have hua : headerGet lib req.Header "User-Agent" = "GoBruteScanner/1.0" := by
        simpa using h
      have hne : lib.CanonicalMIMEHeaderKey "User-Agent" ≠ lib.CanonicalMIMEHeaderKey kv.1 := by
        intro heq
        rw [headerGet_canonical lib req.Header "User-Agent" kv.1 heq, hget] at hua
        exact absurd hua (by decide)
      show (headerGet lib (headerSet lib req.Header kv.1 kv.2) "User-Agent"
        == "GoBruteScanner/1.0") = true
      rw [headerGet_set_other lib req.Header "User-Agent" kv.1 kv.2 hne]
      exact h
    · exact h

theorem foldl_cookies_header (cs : List (String × String)) :
    ∀ req : Request,
      (cs.foldl (fun (r : Request) nv => addCookie r nv.1 nv.2) req).Header = req.Header := by
  induction cs with
  | nil => intro req; rfl
  | cons nv rest ih =>
    intro req
    rw [List.foldl_cons, ih]
    rfl

theorem prepare_agent (lib : Lib) (config : Config) (req : Request)
    (h : carriesAgent lib req = true) : carriesAgent lib (prepare lib config req) = true := by
  have hua : headerGet lib req.Header "User-Agent" = "GoBruteScanner/1.0" := by
    unfold carriesAgent at h
    simpa using h
  have hne : ¬ (getIsEmpty lib req "User-Agent" = true ∧ config.UserAgent ≠ "") := by
    intro hh
    have hget := getIsEmpty_headerGet lib req "User-Agent" hh.1
    rw [hua] at hget
    exact absurd hget (by decide)
  unfold prepare
  rw [if_neg hne]
  dsimp only
  split_ifs
  · unfold carriesAgent
    rw [foldl_cookies_header]
    exact foldl_headers_agent lib config.Headers req h
  · exact foldl_headers_agent lib config.Headers req h

theorem Do_agentOnly {τ : Type} (lib : Lib) (net : NetClient τ)
    (c : Client (τ × List Request)) (req : Request)
    (hc : agentOnly lib c) (h : carriesAgent lib req = true) :
    agentOnly lib (Client.Do lib (recordingNet net) c req).1 := by
  unfold agentOnly
  rw [Do_client]
  intro r hr
  have hr2 : r ∈ c.client.2 ++ [prepare lib c.config req] := hr
  rcases List.mem_append.mp hr2 with hr3 | hr3
  · exact hc r hr3
  · rw [List.mem_singleton.mp hr3]
    exact prepare_agent lib c.config req h

end httpclient

namespace bruteforce

theorem probeRequest_agent (lib : Lib) (url method : String) (req : Request)
    (hA : lib.CanonicalMIMEHeaderKey "User-Agent" ≠ lib.CanonicalMIMEHeaderKey "Accept")
    (hC : lib.CanonicalMIMEHeaderKey "User-Agent" ≠ lib.CanonicalMIMEHeaderKey "Content-Type")
    (h : probeRequest lib url method = Except.ok req) : carriesAgent lib req = true := by
  unfold probeRequest at h
  split at h
  · cases h
  · dsimp only at h
    split_ifs at h
    · cases h
      unfold carriesAgent
      dsimp only
      rw [headerGet_set_other lib _ "User-Agent" "Content-Type" _ hC,
        headerGet_set_other lib _ "User-Agent" "Accept" _ hA, headerGet_set_self]
      rfl
    · cases h
      unfold carriesAgent
      dsimp only
      rw [headerGet_set_other lib _ "User-Agent" "Accept" _ hA, headerGet_set_self]
      rfl

end bruteforce

namespace discovery

theorem pageRequest_agent (lib : Lib) (fullURL : String) (req : Request)
    (hA : lib.CanonicalMIMEHeaderKey "User-Agent" ≠ lib.CanonicalMIMEHeaderKey "Accept")
    (h : pageRequest lib fullURL = Except.ok req) : carriesAgent lib req = true := by
  unfold pageRequest at h
  split at h
  · cases h
  · cases h
    unfold carriesAgent
    dsimp only
    rw [headerGet_set_other lib _ "User-Agent" "Accept" _ hA, headerGet_set_self]
    rfl

end discovery

namespace bruteforce

theorem client_step {κ : Type} (lib : Lib) (cl : HTTPClient κ) (P : κ → Prop)
    (hP : ∀ k now url method, P k → P (testEndpoint lib cl k now url method).1)
    (i : Nat) (s : Scan κ) (h : P s.client) : P (stepWorker lib cl i s).client := by
  unfold stepWorker
  split
  · exact h
  · split <;> exact h
  · split <;> exact h
  · exact hP _ _ _ _ h
  · exact h
  · exact h

theorem client_runEvents {κ : Type} (lib : Lib) (cl : HTTPClient κ) (P : κ → Prop)
    (hP : ∀ k now url method, P k → P (testEndpoint lib cl k now url method).1)
    (sched : List Event) :
    ∀ s : Scan κ, P s.client → P (runEvents lib cl s sched).client := by
  induction sched with
  | nil => intro s h; exact h
  | cons e rest ih =>
    intro s h
    unfold runEvents
    rw [List.foldl_cons]
    apply ih
    cases e with
    | step i => exact client_step lib cl P hP i s h
    | cancel => exact h
    | tick => exact h

theorem client_iterate {κ : Type} (lib : Lib) (cl : HTTPClient κ) (P : κ → Prop)
    (hP : ∀ k now url method, P k → P (testEndpoint lib cl k now url method).1)
    (i n : Nat) :
    ∀ s : Scan κ, P s.client → P ((stepWorker lib cl i)^[n] s).client := by
  induction n with
  | zero => intro s h; exact h
  | succ n ih =>
    intro s h
    rw [Function.iterate_succ_apply]
    exact ih _ (client_step lib cl P hP i s h)

theorem client_drain {κ : Type} (lib : Lib) (cl : HTTPClient κ) (P : κ → Prop)
    (hP : ∀ k now url method, P k → P (testEndpoint lib cl k now url method).1)
    (s : Scan κ) (h : P s.client) : P (drain lib cl s).client := by
  unfold drain
  generalize List.range s.workers.length = l
  induction l generalizing s with
  | nil => exact h
  | cons i rest ih =>
    rw [List.foldl_cons]
    exact ih _ (client_iterate lib cl P hP i _ s h)

theorem client_ScanWordlist {κ : Type} (lib : Lib) (cl : HTTPClient κ) (P : κ → Prop)
    (hP : ∀ k now url method, P k → P (testEndpoint lib cl k now url method).1)
    (k : κ) (ctxDone : Bool) (baseURL : String) (wordlist methods : List String)
    (concurrency : Int) (sched : List Event) (h : P k) :
    P (ScanWordlist lib cl k ctxDone baseURL wordlist methods concurrency sched).1 := by
  unfold ScanWordlist
  exact client_drain lib cl P hP _ (client_runEvents lib cl P hP sched _ h)

theorem testEndpoint_agentOnly {τ : Type} (lib : Lib) (net : httpclient.NetClient τ)
    (hA : lib.CanonicalMIMEHeaderKey "User-Agent" ≠ lib.CanonicalMIMEHeaderKey "Accept")
    (hC : lib.CanonicalMIMEHeaderKey "User-Agent" ≠ lib.CanonicalMIMEHeaderKey "Content-Type")
    (k : httpclient.Client (τ × List Request)) (now : Nat) (url method : String)
    (h : agentOnly lib k) :
    agentOnly lib (testEndpoint lib
      (httpclient.asHTTPClient lib (httpclient.recordingNet net)) k now url method).1 := by
  cases hreq : probeRequest lib url method with
  | error err =>
    rw [testEndpoint_badRequest lib _ k now url method err hreq]
    exact h
  | ok req =>
    have hd := httpclient.Do_agentOnly lib net k req h
      (probeRequest_agent lib url method req hA hC hreq)
    unfold testEndpoint
    rw [hreq]
    dsimp only
    split
    · next k1 err heq =>
      have : k1 = (httpclient.Client.Do lib (httpclient.recordingNet net) k req).1 :=
        (congrArg Prod.fst heq).symm
      rw [this]
      exact hd
    · next k1 resp heq =>
      have : k1 = (httpclient.Client.Do lib (httpclient.recordingNet net) k req).1 :=
        (congrArg Prod.fst heq).symm
      rw [this]
      split
      · exact hd
      · split
        · split <;> exact hd
        · exact hd

end bruteforce

namespace discovery

theorem client_crawlRecursive {κ : Type} (lib : Lib) (cl : HTTPClient κ) (P : κ → Prop)
    (hP : ∀ k url req, pageRequest lib url = Except.ok req → P k → P (cl.Do k req).1)
    (fuel : Nat) :
    ∀ (c : Crawler κ) (path : String) (depth : Int), P c.client →
      P (crawlRecursive lib cl fuel c path depth).1.client := by
  induction fuel with
  | zero => intro c path depth h; exact h
  | succ fuel ih =>
    intro c path depth h
    rw [crawlRecursive_succ]
    rcases visit_cases lib cl c path depth with hv | ⟨err, hv⟩ | ⟨req, err, hreq, hv⟩ |
      ⟨req, resp, bodyStr, _, _, hreq, _, _, hv⟩
    · rw [hv]; exact h
    · rw [hv]; exact h
    · rw [hv]; exact hP _ _ _ hreq h
    · rw [hv]
      dsimp only
      apply children_invariant (fun c => P c.client) _ (fun c p d hc => ih c p d hc)
      rw [harvest_client lib { c with visited := path :: c.visited } (cl.Do c.client req).1]
      exact hP _ _ _ hreq h

theorem client_Crawl {κ : Type} (lib : Lib) (cl : HTTPClient κ) (P : κ → Prop)
    (hP : ∀ k url req, pageRequest lib url = Except.ok req → P k → P (cl.Do k req).1)
    (c : Crawler κ) (startURL : String) (h : P c.client) :
    P (Crawl lib cl c startURL).1.client := by
  unfold Crawl
  split
  · exact h
  · exact client_crawlRecursive lib cl P hP _ _ _ _ h

end discovery

/-- C26: whatever the configuration of the transport (its User-Agent string, its
custom headers, one named `User-Agent` included), every request the prober
builds and every request the crawler builds leaves the transport with
User-Agent "GoBruteScanner/1.0"; hence, when the requests recorded before carry
that User-Agent, so do all requests recorded after a `ScanWordlist` call and
after a `Crawl` call.  The canonical form of `User-Agent` is taken to differ
from those of `Accept` and `Content-Type`, as it does in `net/textproto`. -/
theorem C26_user_agent_on_the_wire {τ : Type} (lib : Lib) (net : httpclient.NetClient τ)
    (hA : lib.CanonicalMIMEHeaderKey "User-Agent" ≠ lib.CanonicalMIMEHeaderKey "Accept")
    (hC : lib.CanonicalMIMEHeaderKey "User-Agent" ≠ lib.CanonicalMIMEHeaderKey "Content-Type")
    (k : httpclient.Client (τ × List Request))
    (c : discovery.Crawler (httpclient.Client (τ × List Request)))
    (ctxDone : Bool) (baseURL startURL : String) (wordlist methods : List String)
    (concurrency : Int) (sched : List bruteforce.Event)
    (hk : ∀ r ∈ k.client.2, headerGet lib r.Header "User-Agent" = "GoBruteScanner/1.0")
    (hc : ∀ r ∈ c.client.client.2, headerGet lib r.Header "User-Agent" = "GoBruteScanner/1.0") :
    (∀ (config : Config) (url method : String) (req : Request),
      bruteforce.probeRequest lib url method = Except.ok req →
      headerGet lib (httpclient.prepare lib config req).Header "User-Agent"
        = "GoBruteScanner/1.0") ∧
    (∀ (config : Config) (fullURL : String) (req : Request),
      discovery.pageRequest lib fullURL = Except.ok req →
      headerGet lib (httpclient.prepare lib config req).Header "User-Agent"
        = "GoBruteScanner/1.0") ∧
    (∀ r ∈ (bruteforce.ScanWordlist lib
        (httpclient.asHTTPClient lib (httpclient.recordingNet net)) k ctxDone baseURL wordlist
        methods concurrency sched).1.client.2,
      headerGet lib r.Header "User-Agent" = "GoBruteScanner/1.0") ∧
    (∀ r ∈ (discovery.Crawl lib
        (httpclient.asHTTPClient lib (httpclient.recordingNet net)) c startURL).1.client.client.2,
      headerGet lib r.Header "User-Agent" = "GoBruteScanner/1.0") := by
  have conv : ∀ r : Request, carriesAgent lib r = true ↔
      headerGet lib r.Header "User-Agent" = "GoBruteScanner/1.0" := by
    intro r
    unfold carriesAgent
    simp
  refine ⟨?_, ?_, ?_, ?_⟩
  · intro config url method req hreq
    exact (conv _).mp (httpclient.prepare_agent lib config req
      (bruteforce.probeRequest_agent lib url method req hA hC hreq))
  · intro config fullURL req hreq
    exact (conv _).mp (httpclient.prepare_agent lib config req
      (discovery.pageRequest_agent lib fullURL req hA hreq))
  · intro r hr
    have hinv := bruteforce.client_ScanWordlist lib
      (httpclient.asHTTPClient lib (httpclient.recordingNet net)) (agentOnly lib)
      (fun k now url method h => bruteforce.testEndpoint_agentOnly lib net hA hC k now url method h)
      k ctxDone baseURL wordlist methods concurrency sched (fun r hr => (conv r).mpr (hk r hr))
    exact (conv r).mp (hinv r hr)
  · intro r hr
    have hinv := discovery.client_Crawl lib
      (httpclient.asHTTPClient lib (httpclient.recordingNet net)) (agentOnly lib)
      (fun k url req hreq h => httpclient.Do_agentOnly lib net k req h
        (discovery.pageRequest_agent lib url req hA hreq))
      c startURL (fun r hr => (conv r).mpr (hc r hr))
    exact (conv r).mp (hinv r hr)

/-- C26 at a transport configured with User-Agent "Mozilla/5.0" and the custom
header `User-Agent: curl/8`: the two probes of a scan of the word `a` with GET
and POST, and the page request of a crawl, are sent with User-Agent
"GoBruteScanner/1.0". -/
theorem C26_user_agent_on_the_wire_witness :
    Example.customAgent.config.UserAgent = "Mozilla/5.0" ∧
    Example.customAgent.config.Headers = [("User-Agent", "curl/8")] ∧
    (bruteforce.ScanWordlist Example.lib
        (httpclient.asHTTPClient Example.lib (httpclient.recordingNet Example.liveNet))
        Example.customAgent false "http://x/" ["a"] ["GET", "POST"] 1 []).1.client.2
      = [{ Method := "GET", URL := "http://x/a"
           Header := [("User-Agent", ["GoBruteScanner/1.0"]), ("Accept", ["*/*"])] },
         { Method := "POST", URL := "http://x/a"
           Header := [("User-Agent", ["GoBruteScanner/1.0"]), ("Accept", ["*/*"]),
                      ("Content-Type", ["application/json"])] }] ∧
    headerGet Example.lib
      ({ Method := "POST", URL := "http://x/a"
         Header := [("User-Agent", ["GoBruteScanner/1.0"]), ("Accept", ["*/*"]),
                    ("Content-Type", ["application/json"])] } : Request).Header "User-Agent"
      = "GoBruteScanner/1.0" ∧
    headerGet Example.lib
      ({ Method := "GET", URL := "http://x/"
         Header := [("User-Agent", ["GoBruteScanner/1.0"]),
                    ("Accept",
                      ["text/html,application/xhtml+xml,application/xml;q=0.9,*/*;q=0.8"])] }
        : Request).Header "User-Agent"
      = "GoBruteScanner/1.0" :=
  have hw := C26_user_agent_on_the_wire Example.lib Example.liveNet (by decide) (by decide)
    Example.customAgent (discovery.NewCrawler Example.customAgent 0) false "http://x/"
    "http://x/" ["a"] ["GET", "POST"] 1 []
    (fun r hr => absurd hr (List.not_mem_nil r)) (fun r hr => absurd hr (List.not_mem_nil r))
  ⟨rfl, rfl, by decide, hw.2.2.1 _ (by decide), hw.2.2.2 _ (by decide)⟩

/-! ## The counters of the scanner -/

namespace scanner

theorem countResult_foldl (l : List BruteResult) :
    ∀ st : Stats,
      (l.foldl countResult st).TotalRequests = st.TotalRequests ∧
      (l.foldl countResult st).Successful
        = st.Successful + (((l.map toScanResult).filter isSuccess).length : Int) ∧
      (l.foldl countResult st).Failed
        = st.Failed + (((l.map toScanResult).filter isFailure).length : Int) := by
  induction l with
  | nil => intro st; simp
  | cons r rest ih =>
    intro st
    rw [List.foldl_cons, List.map_cons]
    obtain ⟨h1, h2, h3⟩ := ih (countResult st r)
    rw [h1, h2, h3]
    unfold countResult
    by_cases hs : r.StatusCode ≥ 200 ∧ r.StatusCode < 300
    · have e1 : isSuccess (toScanResult r) = true := by
        unfold isSuccess toScanResult
        exact decide_eq_true ⟨hs.1, hs.2⟩
      have e2 : isFailure (toScanResult r) = false := by
        unfold isFailure toScanResult
        apply decide_eq_false
        show ¬ (400 ≤ r.StatusCode)
        omega
      rw [if_pos hs, List.filter_cons_of_pos e1, List.filter_cons_of_neg (by rw [e2]; decide)]
      refine ⟨rfl, ?_, rfl⟩
      show st.Successful + 1 + _ = _
      rw [List.length_cons]
      push_cast
      ring
    · have e1 : isSuccess (toScanResult r) = false := by
        unfold isSuccess toScanResult
        exact decide_eq_false hs
      rw [if_neg hs, List.filter_cons_of_neg (by rw [e1]; decide)]
      by_cases hf : r.StatusCode ≥ 400
      · have e2 : isFailure (toScanResult r) = true := by
          unfold isFailure toScanResult
          exact decide_eq_true hf
        rw [if_pos hf, List.filter_cons_of_pos e2]
        refine ⟨rfl, rfl, ?_⟩
        show st.Failed + 1 + _ = _
        rw [List.length_cons]
        push_cast
        ring
      · have e2 : isFailure (toScanResult r) = false := by
          unfold isFailure toScanResult
          exact decide_eq_false hf
        rw [if_neg hf, List.filter_cons_of_neg (by rw [e2]; decide)]
        exact ⟨rfl, rfl, rfl⟩

theorem ScanWithWordlist_stats {τ : Type} (lib : Lib) (net : httpclient.NetClient τ)
    (s : scannerImpl τ) (ctxDone : Bool) (wordlist methods : List String) (concurrency : Int)
    (sched : List bruteforce.Event) :
    (ScanWithWordlist lib net s ctxDone wordlist methods concurrency sched).1.stats.TotalRequests
      = s.stats.TotalRequests +
        ((ScanWithWordlist lib net s ctxDone wordlist methods concurrency sched).2.1.length
          : Int) ∧
    (ScanWithWordlist lib net s ctxDone wordlist methods concurrency sched).1.stats.Successful
      = s.stats.Successful +
        (((ScanWithWordlist lib net s ctxDone wordlist methods concurrency
          sched).2.1.filter isSuccess).length : Int) ∧
    (ScanWithWordlist lib net s ctxDone wordlist methods concurrency sched).1.stats.Failed
      = s.stats.Failed +
        (((ScanWithWordlist lib net s ctxDone wordlist methods concurrency
          sched).2.1.filter isFailure).length : Int) := by
  unfold ScanWithWordlist
  dsimp only
  obtain ⟨h1, h2, h3⟩ := countResult_foldl
    (bruteforce.ScanWordlist lib (httpclient.asHTTPClient lib net) s.discoverer.client
      ctxDone s.config.BaseURL wordlist
      (if methods.length = 0 then ["GET", "POST", "PUT", "DELETE"] else methods)
      concurrency sched).2
    { s.stats with TotalRequests := s.stats.TotalRequests +
        ((bruteforce.ScanWordlist lib (httpclient.asHTTPClient lib net) s.discoverer.client
          ctxDone s.config.BaseURL wordlist
          (if methods.length = 0 then ["GET", "POST", "PUT", "DELETE"] else methods)
          concurrency sched).2.length : Int) }
  rw [h1, h2, h3, List.length_map]
  exact ⟨rfl, rfl, rfl⟩

theorem Discover_stats {τ : Type} (lib : Lib) (net : httpclient.NetClient τ)
    (s : scannerImpl τ) :
    (Discover lib net s).1.stats.TotalRequests = s.stats.TotalRequests ∧
    (Discover lib net s).1.stats.Successful = s.stats.Successful ∧
    (Discover lib net s).1.stats.Failed = s.stats.Failed := by
  unfold Discover
  dsimp only
  split <;> exact ⟨rfl, rfl, rfl⟩

theorem perform_stats {τ : Type} (lib : Lib) (net : httpclient.NetClient τ)
    (s : scannerImpl τ) (call : Call) :
    (perform lib net s call).1.stats.TotalRequests
      = s.stats.TotalRequests + ((perform lib net s call).2.length : Int) ∧
    (perform lib net s call).1.stats.Successful
      = s.stats.Successful + (((perform lib net s call).2.filter isSuccess).length : Int) ∧
    (perform lib net s call).1.stats.Failed
      = s.stats.Failed + (((perform lib net s call).2.filter isFailure).length : Int) := by
  cases call with
  | scan ctxDone methods sched =>
    exact ScanWithWordlist_stats lib net s ctxDone wordlists.GetAll methods s.config.Workers sched
  | scanWithWordlist ctxDone wordlist methods concurrency sched =>
    exact ScanWithWordlist_stats lib net s ctxDone wordlist methods concurrency sched
  | discover =>
    obtain ⟨h1, h2, h3⟩ := Discover_stats lib net s
    unfold perform
    dsimp only
    rw [h1, h2, h3]
    simp

theorem performAll_stats {τ : Type} (lib : Lib) (net : httpclient.NetClient τ)
    (calls : List Call) :
    ∀ s : scannerImpl τ,
      (performAll lib net s calls).1.stats.TotalRequests
        = s.stats.TotalRequests + ((performAll lib net s calls).2.length : Int) ∧
      (performAll lib net s calls).1.stats.Successful
        = s.stats.Successful +
          (((performAll lib net s calls).2.filter isSuccess).length : Int) ∧
      (performAll lib net s calls).1.stats.Failed
        = s.stats.Failed + (((performAll lib net s calls).2.filter isFailure).length : Int) := by
  induction calls with
  | nil => intro s; simp [performAll]
  | cons call rest ih =>
    intro s
    obtain ⟨h1, h2, h3⟩ := ih (perform lib net s call).1
    obtain ⟨p1, p2, p3⟩ := perform_stats lib net s call
    rw [performAll]
    dsimp only
    rw [h1, h2, h3, p1, p2, p3, List.filter_append, List.filter_append, List.length_append,
      List.length_append, List.length_append]
    push_cast
    refine ⟨?_, ?_, ?_⟩ <;> ring

theorem success_failure_le (l : List ScanResult) :
    (l.filter isSuccess).length + (l.filter isFailure).length ≤ l.length := by
  induction l with
  | nil => simp
  | cons r rest ih =>
    by_cases hs : isSuccess r = true
    · have hf : ¬ isFailure r = true := by
        unfold isSuccess at hs
        unfold isFailure
        have := of_decide_eq_true hs
        intro hf
        have := of_decide_eq_true hf
        omega
      rw [List.filter_cons_of_pos hs, List.filter_cons_of_neg hf, List.length_cons,
        List.length_cons]
      omega
    · rw [List.filter_cons_of_neg hs, List.length_cons]
      have := List.length_filter_le isFailure (r :: rest)
      by_cases hf : isFailure r = true
      · rw [List.filter_cons_of_pos hf, List.length_cons]
        omega
      · rw [List.filter_cons_of_neg hf]
        omega

end scanner

/-- C23: after any sequence of `Scan`, `ScanWithWordlist` and `Discover` calls on a
scanner, `TotalRequests` has grown by the number of scan results the calls
returned, `Successful` by the number of those with a status code from 200 to 299,
and `Failed` by the number of those with a status code of 400 or more; the three
counters are 0 in the scanner `New` returns and in a scanner after `Reset`, so
that from there they equal those numbers, and `Successful` and `Failed` together
do not exceed `TotalRequests`. -/
theorem C23_stats_counters {τ : Type} (lib : Lib) (net : httpclient.NetClient τ)
    (s : scanner.scannerImpl τ) (calls : List scanner.Call)
    (baseURL : String) (opts : List scanner.ConfigOption) (t0 : τ) :
    ((scanner.performAll lib net s calls).1.stats.TotalRequests
        = s.stats.TotalRequests + ((scanner.performAll lib net s calls).2.length : Int) ∧
      (scanner.performAll lib net s calls).1.stats.Successful
        = s.stats.Successful +
          (((scanner.performAll lib net s calls).2.filter scanner.isSuccess).length : Int) ∧
      (scanner.performAll lib net s calls).1.stats.Failed
        = s.stats.Failed +
          (((scanner.performAll lib net s calls).2.filter scanner.isFailure).length : Int)) ∧
    ((scanner.performAll lib net (scanner.Reset s) calls).1.stats.TotalRequests
        = ((scanner.performAll lib net (scanner.Reset s) calls).2.length : Int) ∧
      (scanner.performAll lib net (scanner.Reset s) calls).1.stats.Successful
        = (((scanner.performAll lib net (scanner.Reset s) calls).2.filter
            scanner.isSuccess).length : Int) ∧
      (scanner.performAll lib net (scanner.Reset s) calls).1.stats.Failed
        = (((scanner.performAll lib net (scanner.Reset s) calls).2.filter
            scanner.isFailure).length : Int) ∧
      (scanner.performAll lib net (scanner.Reset s) calls).1.stats.Successful +
          (scanner.performAll lib net (scanner.Reset s) calls).1.stats.Failed
        ≤ (scanner.performAll lib net (scanner.Reset s) calls).1.stats.TotalRequests) ∧
    ((scanner.Reset s).stats.TotalRequests = 0 ∧ (scanner.Reset s).stats.Successful = 0 ∧
      (scanner.Reset s).stats.Failed = 0) ∧
    (∃ s0, scanner.New lib baseURL opts t0 = Except.ok s0 ∧
      s0.stats.TotalRequests = 0 ∧ s0.stats.Successful = 0 ∧ s0.stats.Failed = 0 ∧
      (scanner.performAll lib net s0 calls).1.stats.TotalRequests
        = ((scanner.performAll lib net s0 calls).2.length : Int) ∧
      (scanner.performAll lib net s0 calls).1.stats.Successful
        = (((scanner.performAll lib net s0 calls).2.filter scanner.isSuccess).length : Int) ∧
      (scanner.performAll lib net s0 calls).1.stats.Failed
        = (((scanner.performAll lib net s0 calls).2.filter scanner.isFailure).length : Int)) := by
  refine ⟨scanner.performAll_stats lib net calls s, ?_, ⟨rfl, rfl, rfl⟩, ?_⟩
  · obtain ⟨h1, h2, h3⟩ := scanner.performAll_stats lib net calls (scanner.Reset s)
    have hle := scanner.success_failure_le (scanner.performAll lib net (scanner.Reset s) calls).2
    rw [h1, h2, h3]
    refine ⟨?_, ?_, ?_, ?_⟩
    · show (0 : Int) + _ = _
      rw [zero_add]
    · show (0 : Int) + _ = _
      rw [zero_add]
    · show (0 : Int) + _ = _
      rw [zero_add]
    · show (0 : Int) + _ + ((0 : Int) + _) ≤ (0 : Int) + _
      rw [zero_add, zero_add, zero_add]
      exact_mod_cast hle
  · refine ⟨_, rfl, rfl, rfl, rfl, ?_⟩
    obtain ⟨h1, h2, h3⟩ := scanner.performAll_stats lib net calls
      { config := opts.foldl (fun c opt => opt c) (scanner.defaultConfig baseURL)
        discoverer := discovery.NewCrawler
          (httpclient.New lib (opts.foldl (fun c opt => opt c) (scanner.defaultConfig baseURL))
            t0)
          (opts.foldl (fun c opt => opt c) (scanner.defaultConfig baseURL)).ScanDepth
        stats := {} }
    refine ⟨?_, ?_, ?_⟩
    · rw [h1]
      show (0 : Int) + _ = _
      rw [zero_add]
    · rw [h2]
      show (0 : Int) + _ = _
      rw [zero_add]
    · rw [h3]
      show (0 : Int) + _ = _
      rw [zero_add]

/-! ## Construction -/

/-- C24, the claim as stated fails: `://bad` is not a valid URL (`url.Parse`
rejects it for its missing scheme), and `New` returns a scanner for it and no
error. -/
theorem C24_counterexample :
    Example.lib.Parse "://bad" = Except.error "parse \"://bad\": missing protocol scheme" ∧
    scanner.New Example.lib "://bad" [] ()
      = Except.ok
          { config := scanner.defaultConfig "://bad"
            discoverer := discovery.NewCrawler
              (httpclient.New Example.lib (scanner.defaultConfig "://bad") ()) 2
            stats := {} } :=
  ⟨rfl, rfl⟩

/-- C24, amended: for every base URL that `url.Parse` rejects, `New` returns a
scanner and no error, without a request being sent (the transport of the
scanner is the fresh one); the invalid base URL surfaces at `Discover`, which
returns no endpoint and the error "crawling failed: " followed by the parse
error, again without a request being sent. -/
theorem C24_invalid_base_url {τ : Type} (lib : Lib) (net : httpclient.NetClient τ)
    (baseURL : String) (opts : List scanner.ConfigOption) (t0 : τ × List Request)
    (err : String)
    (hbad : lib.Parse (opts.foldl (fun c opt => opt c) (scanner.defaultConfig baseURL)).BaseURL
      = Except.error err) :
    ∃ s, scanner.New lib baseURL opts t0 = Except.ok s ∧
      s.discoverer.client.client = t0 ∧
      (scanner.Discover lib (httpclient.recordingNet net) s).2
        = ([], some ("crawling failed: " ++ err)) ∧
      (scanner.Discover lib (httpclient.recordingNet net) s).1.discoverer.client.client.2
        = t0.2 := by
  refine ⟨_, rfl, ?_, ?_⟩
  · exact (httpclient.New_client lib _ t0).1
  · have hc : ∀ c : discovery.Crawler (httpclient.Client (τ × List Request)),
        discovery.Crawl lib (httpclient.asHTTPClient lib (httpclient.recordingNet net)) c
          (opts.foldl (fun c opt => opt c) (scanner.defaultConfig baseURL)).BaseURL
        = (c, ([], some err)) := by
      intro c
      unfold discovery.Crawl
      rw [hbad]
    unfold scanner.Discover
    dsimp only
    rw [hc]
    dsimp only
    exact ⟨rfl, congrArg Prod.snd (httpclient.New_client lib _ t0).1⟩

/-- C24 amended, at the base URL `://bad`: `New` returns a scanner, and `Discover`
on it fails with the parse error, with nothing sent. -/
theorem C24_invalid_base_url_witness :
    Example.lib.Parse "://bad" = Except.error "parse \"://bad\": missing protocol scheme" ∧
    ∃ s, scanner.New Example.lib "://bad" [] ((), ([] : List Request)) = Except.ok s ∧
      s.discoverer.client.client = ((), []) ∧
      (scanner.Discover Example.lib (httpclient.recordingNet Example.liveNet) s).2
        = ([], some ("crawling failed: " ++ "parse \"://bad\": missing protocol scheme")) ∧
      (scanner.Discover Example.lib (httpclient.recordingNet Example.liveNet)
        s).1.discoverer.client.client.2 = [] :=
  ⟨rfl, C24_invalid_base_url Example.lib Example.liveNet "://bad" [] ((), [])
    "parse \"://bad\": missing protocol scheme" rfl⟩

/-! ## The default methods of a scan -/

/-- C27: `ScanWithWordlist` called with an empty method list leaves the same
scanner and returns the same as the call with the methods GET, POST, PUT,
DELETE; with concurrency at least 1 and no cancellation it returns no error and
4 * len(wordlist) results, which stand one to one and in the same order against
the results of the prober: each is tagged "bruteforce" and carries the URL,
method, status code, size, headers, title, timestamp and error of its prober
result. -/
theorem C27_default_methods {τ : Type} (lib : Lib) (net : httpclient.NetClient τ)
    (s : scanner.scannerImpl τ) (ctxDone : Bool) (wordlist : List String) (concurrency : Int)
    (sched : List bruteforce.Event)
    (hc : 1 ≤ concurrency) (hctx : ctxDone = false) (hs : bruteforce.Event.cancel ∉ sched) :
    scanner.ScanWithWordlist lib net s ctxDone wordlist [] concurrency sched
      = scanner.ScanWithWordlist lib net s ctxDone wordlist ["GET", "POST", "PUT", "DELETE"]
          concurrency sched ∧
    (scanner.ScanWithWordlist lib net s ctxDone wordlist [] concurrency sched).2.2 = none ∧
    (scanner.ScanWithWordlist lib net s ctxDone wordlist [] concurrency sched).2.1.length
      = 4 * wordlist.length ∧
    List.Forall₂
      (fun (o : ScanResult) (b : BruteResult) =>
        o.FoundVia = "bruteforce" ∧ o.URL = b.URL ∧ o.Method = b.Method ∧
        o.StatusCode = b.StatusCode ∧ o.Size = b.Size ∧ o.Headers = b.Headers ∧
        o.Title = b.Title ∧ o.Timestamp = b.Timestamp ∧ o.Error = b.Error)
      (scanner.ScanWithWordlist lib net s ctxDone wordlist [] concurrency sched).2.1
      (bruteforce.ScanWordlist lib (httpclient.asHTTPClient lib net) s.discoverer.client
        ctxDone s.config.BaseURL wordlist ["GET", "POST", "PUT", "DELETE"] concurrency
        sched).2 := by
  have hlen := (bruteforce.scan_account lib (httpclient.asHTTPClient lib net)
    (fun _ => ()) (fun _ => ()) (fun _ _ _ => rfl) s.discoverer.client ctxDone
    s.config.BaseURL wordlist ["GET", "POST", "PUT", "DELETE"] concurrency sched).2 hc hctx hs
  have hcard := congrArg Multiset.card hlen
  refine ⟨rfl, rfl, ?_, ?_⟩
  · show ((bruteforce.ScanWordlist lib (httpclient.asHTTPClient lib net) s.discoverer.client
      ctxDone s.config.BaseURL wordlist ["GET", "POST", "PUT", "DELETE"] concurrency
      sched).2.map scanner.toScanResult).length = 4 * wordlist.length
    rw [List.length_map]
    have h4 : wordlist.length * 4 = 4 * wordlist.length := Nat.mul_comm _ _
    simpa [bruteforce.length_buildTasks, h4] using hcard
  · show List.Forall₂ _
      ((bruteforce.ScanWordlist lib (httpclient.asHTTPClient lib net) s.discoverer.client
        ctxDone s.config.BaseURL wordlist ["GET", "POST", "PUT", "DELETE"] concurrency
        sched).2.map scanner.toScanResult) _
    rw [List.forall₂_map_left_iff]
    exact List.forall₂_same.mpr (fun b _ => ⟨rfl, rfl, rfl, rfl, rfl, rfl, rfl, rfl, rfl⟩)

/-- C27 at a scan of the one word `a` of the example site by one worker, with no
method named and no cancellation: four results, for GET, POST, PUT and DELETE in
this order, each tagged "bruteforce". -/
theorem C27_default_methods_witness :
    (1 : Int) ≤ 1 ∧
    (scanner.ScanWithWordlist Example.lib Example.liveNet (Example.scannerAt 0 ()) false
      ["a"] [] 1 [bruteforce.Event.tick]).2.1
      = [{ URL := "http://x/a", Method := "GET", StatusCode := 200, FoundVia := "bruteforce",
           Timestamp := 1 },
         { URL := "http://x/a", Method := "POST", StatusCode := 200, FoundVia := "bruteforce",
           Timestamp := 1 },
         { URL := "http://x/a", Method := "PUT", StatusCode := 200, FoundVia := "bruteforce",
           Timestamp := 1 },
         { URL := "http://x/a", Method := "DELETE", StatusCode := 200,
           FoundVia := "bruteforce", Timestamp := 1 }] ∧
    (scanner.ScanWithWordlist Example.lib Example.liveNet (Example.scannerAt 0 ()) false
      ["a"] [] 1 [bruteforce.Event.tick]).2.1.length = 4 * ["a"].length ∧
    (scanner.ScanWithWordlist Example.lib Example.liveNet (Example.scannerAt 0 ()) false
      ["a"] [] 1 [bruteforce.Event.tick]).2.2 = none :=
  have hw := C27_default_methods Example.lib Example.liveNet (Example.scannerAt 0 ()) false
    ["a"] 1 [bruteforce.Event.tick] (by decide) rfl (by decide)
  ⟨by decide, by decide, hw.2.2.1, hw.2.1⟩

/-! ## Cookies and the default headers -/

namespace httpclient

/-- A default header named `Cookie` is not applied to a request on which the caller
has set a cookie, and is applied to a request without one, ahead of the configured
cookies. -/
theorem prepare_cookie_header :
    prepare Example.lib { Headers := [("Cookie", "x=1")], Cookies := [("session", "def")] }
        Example.cookieRequest
      = { Method := "GET", URL := "http://x/"
          Header := [("X-Token", ["abc"])]
          Cookies := [("session", "abc"), ("session", "def")] } ∧
    prepare Example.lib { Headers := [("Cookie", "x=1")], Cookies := [("session", "def")] }
        { Method := "GET", URL := "http://x/" }
      = { Method := "GET", URL := "http://x/"
          Header := [("Cookie", ["x=1"])]
          Cookies := [("session", "def")] } := by
  decide

end httpclient

end GoBrute
